import Mathlib

/-!
# parafields-core: covariance operator engine and its data model

A shallow embedding of `dune/randomfield/{fieldtraits,stochastic,matrix,randomfield}.hh`.

Conventions of the embedding.

* `RF` (double) is modelled by exact rationals `ℚ`.
* `int` / `unsigned int` quantities (cell counts, process counts, levels, counters) are
  modelled by `Nat`; the statements below concern the range in which the machine integers do
  not wrap. Where the code relies on wrapping, the arithmetic is modulo `2^32`: the seed of the
  generator, the decrement of the refinement level, and the block-local cell indices
  (`unsignedSub`, `adjustIndex`).
* `std::array<_,dim>` and `std::vector` are lists; `a[i]` is `a.getD i 0`.
* A method that may throw returns the object state reached together with the thrown exception
  (the state is the one at the `DUNE_THROW`, mutations made before the throw included).
* Code that is not part of these four headers (FFTW, the matrix / field / RNG backends, the
  covariance kernels, the construction of a sub-field from its files, the data that MPI
  delivers) enters as a record of deterministic functions or as a function argument.
-/

namespace Parafields

/-! ## Exceptions -/

/-- The `DUNE_THROW` sites of the four headers that the model reaches. -/
inductive Exn where
  /-- fieldtraits.hh:221 "number of cells in last dimension has to be multiple of numProc" -/
  | lastDimNotMultiple
  /-- fieldtraits.hh:223 "in 1D, number of cells has to be multiple of numProc^2" -/
  | notMultipleOfSquare
  /-- fieldtraits.hh:325 "1d size / offset results don't match" -/
  | fftMismatch
  /-- fieldtraits.hh:299 "cannot coarsen odd number of cells" -/
  | oddCells
  /-- stochastic.hh:110 "number of processors not square (resp. cubic)" -/
  | procsNotPower
  /-- matrix.hh:282 "covariance structure ... not known" -/
  | unknownCovariance
  /-- matrix.hh:350 "stochastic.anisotropy must be ..." -/
  | unknownAnisotropy
  /-- matrix.hh:331 "negative eigenvalues in covariance matrix" -/
  | negativeEigenvalues
  /-- randomfield.hh:234 "generation of inconsistent fields prevented, ..." -/
  | nonWorldComm
  /-- randomfield.hh:1200, 1216, 1243, 1266 "RandomFieldLists don't match in ..." -/
  | listMismatch
  /-- randomfield.hh:894, 922 "List of randomField types is empty" -/
  | listEmpty
  /-- randomfield.hh:1032 "Too many randomFields activated" -/
  | tooManyActive
  /-- an exception that leaves the constructor of a sub-field (randomfield.hh:890, 918) -/
  | subFieldFailed
  deriving DecidableEq, Repr

/-- The two errors of `RandomFieldTraits::update` that report a cell count that the process
count does not divide. -/
def Exn.isDivisibility : Exn → Bool
  | .lastDimNotMultiple => true
  | .notMultipleOfSquare => true
  | _ => false

/-! ## fieldtraits.hh: the domain descriptor -/

/-- The FFTW size queries used by `getFFTData`, for the fixed communicator and rank.
`localSize n` is `fftw_mpi_local_size(dim, n, comm, &localN0, &local0Start)` and returns
`(allocLocal, localN0, local0Start)`; `localSize1d n0` is `fftw_mpi_local_size_1d` and returns
`(allocLocal, localN0, local0Start, localN02, local0Start2)`. -/
structure FFTW where
  localSize : List Nat → Nat × Nat × Nat
  localSize1d : Nat → Nat × Nat × Nat × Nat × Nat

/-- The members of `RandomFieldTraits` (fieldtraits.hh:127-165). `worldComm` records whether
`comm == MPI_COMM_WORLD`; `anisotropy` is the configuration value `stochastic.anisotropy`. -/
structure Traits where
  dim : Nat
  rank : Nat
  commSize : Nat
  procPerDim : List Nat
  worldComm : Bool
  anisotropy : String
  extensions : List ℚ
  level : Nat
  meshsize : List ℚ
  cellVolume : ℚ
  variance : ℚ
  covariance : String
  periodic : Bool
  approximate : Bool
  verbose : Bool
  cgIterations : Nat
  cacheInvMatvec : Bool
  cacheInvRootMatvec : Bool
  allocLocal : Nat
  localN0 : Nat
  local0Start : Nat
  embeddingFactor : Nat
  cells : List Nat
  domainSize : Nat
  localCells : List Nat
  localOffset : List Nat
  localDomainSize : Nat
  extendedCells : List Nat
  extendedDomainSize : Nat
  localExtendedCells : List Nat
  localExtendedOffset : List Nat
  localExtendedDomainSize : Nat

/-- The array with `dim` entries whose entry `i` is `f i` (a `for (i = 0; i < dim; i++)` loop
assigning every entry of a `std::array<_,dim>`). -/
def tabulate {α : Type} (dim : Nat) (f : Nat → α) : List α :=
  (List.range dim).map f

/-- Embedding of `Traits::getFFTData` (fieldtraits.hh:312-329): the three output references are written by
the FFTW call before the 1D consistency check. -/
def Traits.getFFTData (fftw : FFTW) (t : Traits) : (Nat × Nat × Nat) × Option Exn :=
  let n := tabulate t.dim (fun i => t.extendedCells.getD (t.dim - 1 - i) 0)
  if t.dim = 1 then
    let q := fftw.localSize1d (n.getD 0 0)
    if q.2.1 ≠ q.2.2.2.1 ∨ q.2.2.1 ≠ q.2.2.2.2 then
      ((q.1, q.2.1, q.2.2.1), some Exn.fftMismatch)
    else
      ((q.1, q.2.1, q.2.2.1), none)
  else
    (fftw.localSize n, none)

/-- The first loop of `update` (fieldtraits.hh:225-229): mesh sizes and extended cells. -/
def Traits.updateMesh (t : Traits) : Traits :=
  { t with
    meshsize := tabulate t.dim (fun i => t.extensions.getD i 0 / (t.cells.getD i 0 : ℚ))
    extendedCells := tabulate t.dim (fun i => t.embeddingFactor * t.cells.getD i 0) }

/-- The per-process sizes and offsets of `update` (fieldtraits.hh:233-243), from the FFTW data
stored in the descriptor. -/
def Traits.updateLocal (t : Traits) : Traits :=
  { t with
    localExtendedCells := tabulate t.dim (fun i =>
      if i = t.dim - 1 then t.localN0 else t.extendedCells.getD i 0)
    localExtendedOffset := tabulate t.dim (fun i =>
      if i = t.dim - 1 then t.local0Start else 0)
    localCells := tabulate t.dim (fun i =>
      if i = t.dim - 1 then t.localN0 / t.embeddingFactor else t.cells.getD i 0)
    localOffset := tabulate t.dim (fun i =>
      if i = t.dim - 1 then t.local0Start / t.embeddingFactor else 0) }

/-- The products of `update` (fieldtraits.hh:245-257). -/
def Traits.updateSizes (t : Traits) : Traits :=
  { t with
    domainSize := (tabulate t.dim (fun i => t.cells.getD i 0)).prod
    extendedDomainSize := (tabulate t.dim (fun i => t.extendedCells.getD i 0)).prod
    localDomainSize := (tabulate t.dim (fun i => t.localCells.getD i 0)).prod
    localExtendedDomainSize := (tabulate t.dim (fun i => t.localExtendedCells.getD i 0)).prod
    cellVolume := (tabulate t.dim (fun i => t.meshsize.getD i 0)).prod }

/-- The assignment of the three FFTW results to the descriptor by `getFFTData`. -/
def Traits.storeFFT (t : Traits) (q : Nat × Nat × Nat) : Traits :=
  { t with allocLocal := q.1, localN0 := q.2.1, local0Start := q.2.2 }

/-- Embedding of `RandomFieldTraits::update` (fieldtraits.hh:217-276), without the verbose printing. -/
def Traits.update (fftw : FFTW) (t : Traits) : Traits × Option Exn :=
  if t.cells.getD (t.dim - 1) 0 % t.commSize ≠ 0 then
    (t, some Exn.lastDimNotMultiple)
  else if t.dim = 1 ∧ t.cells.getD 0 0 % (t.commSize * t.commSize) ≠ 0 then
    (t, some Exn.notMultipleOfSquare)
  else
    match t.updateMesh.getFFTData fftw with
    | (q, some e) => (t.updateMesh.storeFFT q, some e)
    | (q, none) => ((t.updateMesh.storeFFT q).updateLocal.updateSizes, none)

/-- Embedding of `RandomFieldTraits::refine` (fieldtraits.hh:281-289). -/
def Traits.refine (fftw : FFTW) (t : Traits) : Traits × Option Exn :=
  Traits.update fftw { t with
    cells := tabulate t.dim (fun i => t.cells.getD i 0 * 2)
    level := t.level + 1 }

/-- The divisibility invariant of the descriptor: `cells[dim-1] mod P = 0` and, for `dim = 1`,
`cells[0] mod P^2 = 0`. -/
def Traits.divisible (t : Traits) : Prop :=
  t.cells.getD (t.dim - 1) 0 % t.commSize = 0 ∧
    (t.dim = 1 → t.cells.getD 0 0 % (t.commSize * t.commSize) = 0)

instance (t : Traits) : Decidable t.divisible := by
  unfold Traits.divisible; infer_instance

/-- A descriptor for concrete evaluation: geometry and process data as given, every derived
size still zero (the state of the constructor before its call of `update`). -/
def Traits.initial (dim rank commSize embeddingFactor : Nat) (extensions : List ℚ)
    (cells : List Nat) : Traits :=
  { dim := dim, rank := rank, commSize := commSize, procPerDim := [],
    worldComm := true, anisotropy := "none", extensions := extensions, level := 0,
    meshsize := [], cellVolume := 0, variance := 1, covariance := "exponential",
    periodic := false, approximate := false, verbose := false, cgIterations := 100,
    cacheInvMatvec := true, cacheInvRootMatvec := false,
    allocLocal := 0, localN0 := 0, local0Start := 0, embeddingFactor := embeddingFactor,
    cells := cells, domainSize := 0, localCells := [], localOffset := [],
    localDomainSize := 0, extendedCells := [], extendedDomainSize := 0,
    localExtendedCells := [], localExtendedOffset := [], localExtendedDomainSize := 0 }

/-- An FFTW stand-in for concrete evaluation: it reports the whole first transform dimension
as local, with equal input and output slabs in 1D. -/
def FFTW.serial : FFTW :=
  { localSize := fun n => (n.prod, n.getD 0 0, 0)
    localSize1d := fun n0 => (n0, n0, 0, n0, 0) }

/-- The 1D FFTW query answers consistently at transform size `n0`: input and output slab
agree, so `getFFTData` does not throw. -/
def FFTW.consistent1d (fftw : FFTW) (n0 : Nat) : Prop :=
  (fftw.localSize1d n0).2.1 = (fftw.localSize1d n0).2.2.2.1 ∧
    (fftw.localSize1d n0).2.2.1 = (fftw.localSize1d n0).2.2.2.2

/-! ## stochastic.hh: the per-process stochastic field -/

/-- The members of `StochasticPart` (stochastic.hh:37-53); the scratch index buffers
`cellIndices`, `evalIndices`, `countIndices` are local to the functions that use them. -/
structure StochasticPart where
  rank : Nat
  commSize : Nat
  extensions : List ℚ
  cells : List Nat
  level : Nat
  localCells : List Nat
  localOffset : List Nat
  localDomainSize : Nat
  localEvalCells : List Nat
  localEvalOffset : List Nat
  procPerDim : Nat
  dataVector : List ℚ
  evalVector : List ℚ
  overlap : List (List ℚ)
  evalValid : Bool
  deriving DecidableEq

/-- Embedding of `Dune::Power<dim>::eval(p)`. -/
def powerEval (dim p : Nat) : Nat := p ^ dim

/-- The search loop of `StochasticPart::update` (stochastic.hh:106-112), entered with the
current `procPerDim`; `fuel` bounds the number of loop tests, `none` is an exhausted bound.
The result is the final `procPerDim` and the exception thrown, if any. -/
def searchProcPerDim (dim commSize : Nat) : Nat → Nat → Option (Nat × Option Exn)
  | 0, _ => none
  | fuel + 1, procPerDim =>
    if powerEval dim procPerDim ≠ commSize then
      if powerEval dim procPerDim > commSize then
        some (procPerDim, some Exn.procsNotPower)
      else
        searchProcPerDim dim commSize fuel (procPerDim + 1)
    else
      some (procPerDim, none)

/-- Embedding of `std::vector::resize(n)`: keep the first `n` entries, pad with value-initialised ones. -/
def resize {α : Type} (n : Nat) (d : α) (v : List α) : List α :=
  (v ++ List.replicate n d).take n

/-- The copies from the descriptor at the head of `StochasticPart::update`
(stochastic.hh:97-104). -/
def StochasticPart.copyTraits (t : Traits) (s : StochasticPart) : StochasticPart :=
  { s with
    rank := t.rank, commSize := t.commSize, extensions := t.extensions, cells := t.cells,
    level := t.level, localCells := t.localCells, localOffset := t.localOffset,
    localDomainSize := t.localDomainSize }

/-- The block decomposition of `StochasticPart::update` (stochastic.hh:113-127) for the
`procPerDim` found. A write beyond the resized `localEvalOffset` leaves the list as it is. -/
def StochasticPart.updateEvalLayout (dim : Nat) (s : StochasticPart) : StochasticPart :=
  let localEvalCells := tabulate dim (fun i => s.cells.getD i 0 / s.procPerDim)
  let offset := resize dim 0 s.localEvalOffset
  let p := s.procPerDim
  { s with
    localEvalCells := localEvalCells
    localEvalOffset :=
      if dim = 3 then
        ((offset.set 0 ((s.rank % (p * p)) % p * localEvalCells.getD 0 0)).set 1
          ((s.rank % (p * p)) / p * localEvalCells.getD 1 0)).set 2
          (s.rank / (p * p) * localEvalCells.getD 2 0)
      else
        (offset.set 0 (s.rank % p * localEvalCells.getD 0 0)).set 1
          (s.rank / p * localEvalCells.getD 1 0) }

/-- The container resizes at the end of `StochasticPart::update` (stochastic.hh:129-142). -/
def StochasticPart.updateContainers (dim : Nat) (s : StochasticPart) : StochasticPart :=
  { s with
    dataVector := resize s.localDomainSize 0 s.dataVector
    evalVector := resize s.localDomainSize 0 s.evalVector
    overlap := tabulate (dim * 2) (fun k =>
      resize (s.localDomainSize / s.localEvalCells.getD (k / 2) 0) 0 (s.overlap.getD k []))
    evalValid := false }

/-- Embedding of `StochasticPart::update` (stochastic.hh:95-143). The search loop is run with
`commSize + 1` loop tests available; `none` would be a loop that needs more. -/
def StochasticPart.update (t : Traits) (s : StochasticPart) :
    Option (StochasticPart × Option Exn) :=
  match searchProcPerDim t.dim t.commSize (t.commSize + 1) 1 with
  | none => none
  | some (p, some e) => some ({ s.copyTraits t with procPerDim := p }, some e)
  | some (p, none) =>
    some ((({ s.copyTraits t with procPerDim := p }).updateEvalLayout t.dim).updateContainers
      t.dim, none)

/-- A stochastic part with empty containers, the object before the constructor's `update`. -/
def StochasticPart.blank : StochasticPart :=
  { rank := 0, commSize := 0, extensions := [], cells := [], level := 0, localCells := [],
    localOffset := [], localDomainSize := 0, localEvalCells := [], localEvalOffset := [],
    procPerDim := 0, dataVector := [], evalVector := [], overlap := [], evalValid := false }

/-! ## fieldtraits.hh: index arithmetic -/

/-- The template recursion of `RandomFieldTraits::indexToIndices` (fieldtraits.hh:350-360):
`more` is `dim - 1 - currentDim`, the number of recursive instances still to come. -/
def indexToIndicesFrom (bound : List Nat) : Nat → Nat → Nat → List Nat → List Nat
  | 0, currentDim, index, indices =>
    indices.set currentDim (index % bound.getD currentDim 0)
  | more + 1, currentDim, index, indices =>
    indexToIndicesFrom bound more (currentDim + 1) (index / bound.getD currentDim 0)
      (indices.set currentDim (index % bound.getD currentDim 0))

/-- Embedding of `RandomFieldTraits::indexToIndices(index, indices, bound)` for a fresh `indices` array. -/
def indexToIndices (dim index : Nat) (bound : List Nat) : List Nat :=
  indexToIndicesFrom bound (dim - 1) 0 index (List.replicate dim 0)

/-! ## matrix.hh: the covariance operator -/

/-- A bin of the field backend's buffer on the embedded torus (real and imaginary part). -/
abbrev Bin : Type := ℚ × ℚ

/-- The matrix, field and RNG backends of `Matrix` for the current geometry, as deterministic
functions (the backend headers are not part of the four files).

* `transformed` : for every rank, the values `matrixBackend.get(index)` after
  `computeCovarianceMatrixEntries` and `matrixBackend.forwardTransform()`;
* `evalIndex`, `evalIndices` : `matrixBackend.eval(index)` / `eval(indices)` on the stored symbol;
* `sqrt` : `std::sqrt`;
* `sample seed k` : the `k`-th `rngBackend.sample()` after `rngBackend.seed(seed)`;
* `allocate` : the field buffer after `fieldBackend.allocate()`;
* the remaining fields are the field backend's methods of the same name, acting on the buffer. -/
structure Backend where
  transformed : List (List ℚ)
  localEvalMatrixCells : List Nat
  localFieldCells : List Nat
  localFieldSize : Nat
  evalIndex : List ℚ → Nat → ℚ
  evalIndices : List ℚ → List Nat → ℚ
  sqrt : ℚ → ℚ
  sample : Nat → Nat → ℚ
  allocate : List Bin
  transposeIfNeeded : List Bin → List Bin
  set : Nat → ℚ → ℚ → ℚ → List Bin → List Bin
  mult : Nat → ℚ → List Bin → List Bin
  fieldToExtendedField : List ℚ → List Bin
  forwardTransform : List Bin → List Bin
  backwardTransform : List Bin → List Bin
  extendedFieldToField : List Bin → Nat → List ℚ
  hasSpareField : Bool

/-- The members of `Matrix` (matrix.hh:54-67). Of the matrix backend the state keeps the stored
symbol of this rank and the flag answered by `matrixBackend.valid()`. -/
structure MatrixState where
  rank : Nat
  commSize : Nat
  extensions : List ℚ
  meshsize : List ℚ
  variance : ℚ
  covariance : String
  cgIterations : Nat
  matrixValid : Bool
  symbol : List ℚ
  spareField : Option (List ℚ)
  deriving DecidableEq

/-- The literal `1e-6` of the spectral audit. -/
def tolSmall : ℚ := 1 / 1000000

/-- The literal `1e-10` of the spectral audit. -/
def tolNegative : ℚ := 1 / 10000000000

/-- The local variables of the audit loop of `fillTransformedMatrix` (matrix.hh:286-289) and
the symbol storage it works on. `mySmallest = none` is the start value
`std::numeric_limits<RF>::max()`. -/
structure Audit where
  mySmall : Nat
  myNegative : Nat
  mySmallNegative : Nat
  mySmallest : Option ℚ
  stored : List ℚ

/-- One pass of the audit loop body (matrix.hh:292-310) at `index`. -/
def auditStep (a : Audit) (index : Nat) : Audit :=
  let value := a.stored.getD index 0
  let a1 : Audit :=
    match a.mySmallest with
    | none => { a with mySmallest := some value }
    | some smallest => if value < smallest then { a with mySmallest := some value } else a
  let a2 : Audit :=
    if value < tolSmall then
      if value < tolNegative then
        if value > -tolNegative then
          { a1 with mySmallNegative := a1.mySmallNegative + 1 }
        else
          { a1 with myNegative := a1.myNegative + 1 }
      else
        { a1 with mySmall := a1.mySmall + 1 }
    else a1
  if value < 0 then { a2 with stored := a2.stored.set index 0 } else a2

/-- The audit loop (matrix.hh:290-311) over the `localMatrixSize()` entries of one rank. -/
def auditLoop (values : List ℚ) : Audit :=
  (List.range values.length).foldl auditStep
    { mySmall := 0, myNegative := 0, mySmallNegative := 0, mySmallest := none,
      stored := values }

/-- Embedding of `MPI_Allreduce(&myNegative, &negative, 1, MPI_INT, MPI_SUM, comm)` (matrix.hh:316): the sum
of the per-rank counts of large negative entries. -/
def reducedNegative (transformed : List (List ℚ)) : Nat :=
  (transformed.map (fun values => (auditLoop values).myNegative)).sum

/-- The covariance names accepted by `fillTransformedMatrix` (matrix.hh:261-280). -/
def knownCovariances : List String :=
  ["exponential", "gaussian", "spherical", "separableExponential", "matern32", "matern52",
    "dampedOscillation", "cauchy", "cubic", "whiteNoise"]

/-- The anisotropy names accepted by `fillCovarianceMatrix` (matrix.hh:343-348). -/
def knownAnisotropies : List String := ["none", "axiparallel", "geometric"]

/-- Modelled from the spec: `matrixBackend.finalize()`, the call after which
`matrixBackend.valid()` answers true (the symbol "carries a valid flag"; the backend is not
part of the four files). -/
def MatrixState.finalize (m : MatrixState) : MatrixState :=
  { m with matrixValid := true }

/-- Modelled from the spec: `matrixBackend.update()`, after which the stored symbol is no
longer valid ("becomes invalid on any geometry change"). -/
def MatrixState.backendUpdate (m : MatrixState) : MatrixState :=
  { m with matrixValid := false }

/-- Embedding of `Matrix::fillTransformedMatrix` (matrix.hh:259-335). The state returned with an exception
is the one at the throw: the negative-eigenvalue error leaves the clamped symbol behind. -/
def fillTransformedMatrix (t : Traits) (B : Backend) (m : MatrixState) :
    MatrixState × Option Exn :=
  if m.covariance ∉ knownCovariances then
    (m, some Exn.unknownCovariance)
  else if t.anisotropy ∉ knownAnisotropies then
    (m, some Exn.unknownAnisotropy)
  else
    let audit := auditLoop (B.transformed.getD m.rank [])
    let negative := reducedNegative B.transformed
    if negative > 0 ∧ t.approximate = false then
      ({ m with symbol := audit.stored }, some Exn.negativeEigenvalues)
    else
      (MatrixState.finalize { m with symbol := audit.stored }, none)

/-- The guard `if (!matrixBackend.valid()) fillTransformedMatrix();` that opens
`generateField` and the three `multiply...Extended` functions. -/
def ensureFilled (t : Traits) (B : Backend) (m : MatrixState) : MatrixState × Option Exn :=
  if m.matrixValid = false then fillTransformedMatrix t B m else (m, none)

/-- Embedding of `Matrix::sameLayout` (matrix.hh:386-393). -/
def sameLayout (dim : Nat) (B : Backend) : Bool :=
  (List.range dim).all (fun i => B.localEvalMatrixCells.getD i 0 = B.localFieldCells.getD i 0)

/-- The symbol value used for bin `index`: `matrixBackend.eval(index)` when both backends have
the same layout, `matrixBackend.eval(indices)` after `indexToIndices` otherwise. -/
def symbolAt (dim : Nat) (B : Backend) (symbol : List ℚ) (index : Nat) : ℚ :=
  if sameLayout dim B then B.evalIndex symbol index
  else B.evalIndices symbol (indexToIndices dim index B.localFieldCells)

/-- The sampling loop of `generateField` (matrix.hh:176-202): bin `index` is set from
`sqrt(lambda)` and the next two samples of the generator. -/
def sampleSpectrum (dim : Nat) (B : Backend) (symbol : List ℚ) (seed : Nat)
    (buffer : List Bin) : List Bin :=
  (List.range B.localFieldSize).foldl (fun buf index =>
    B.set index (B.sqrt (symbolAt dim B symbol index))
      (B.sample seed (2 * index)) (B.sample seed (2 * index + 1)) buf) buffer

/-- Embedding of `Matrix::generateField` (matrix.hh:159-222). The seed is an `unsigned int`, so
`seed += rank` wraps at `2^32`. -/
def generateField (t : Traits) (B : Backend) (seed : Nat) (m : MatrixState)
    (stochasticPart : StochasticPart) : (MatrixState × StochasticPart) × Option Exn :=
  match ensureFilled t B m with
  | (m1, some e) => ((m1, stochasticPart), some e)
  | (m1, none) =>
    let seed1 := (seed + m1.rank) % 2 ^ 32
    match m1.spareField with
    | none =>
      let buffer := B.backwardTransform
        (sampleSpectrum t.dim B m1.symbol seed1 (B.transposeIfNeeded B.allocate))
      let out : StochasticPart :=
        { stochasticPart with
          dataVector := B.extendedFieldToField buffer 0, evalValid := false }
      if B.hasSpareField then
        (({ m1 with spareField := some (B.extendedFieldToField buffer 1) }, out), none)
      else
        ((m1, out), none)
    | some spare =>
      (({ m1 with spareField := none }, { stochasticPart with dataVector := spare }), none)

/-- Embedding of `Matrix::update` (matrix.hh:91-103): the backend updates and the copies from the
descriptor. The member `spareField` is not assigned. -/
def MatrixState.update (t : Traits) (m : MatrixState) : MatrixState :=
  { m.backendUpdate with
    rank := t.rank, commSize := t.commSize, extensions := t.extensions,
    meshsize := t.meshsize, variance := t.variance, covariance := t.covariance,
    cgIterations := t.cgIterations }

/-- The constructor of `Matrix` (matrix.hh:71-80): no spare field, then `update()`. -/
def MatrixState.create (t : Traits) : MatrixState :=
  MatrixState.update t
    { rank := 0, commSize := 0, extensions := [], meshsize := [], variance := 0,
      covariance := "", cgIterations := 0, matrixValid := false, symbol := [],
      spareField := none }

/-- The common pipeline of the three `multiply...Extended` functions (matrix.hh:519-539,
550-570, 581-601) once the symbol is valid: extend, transform, scale bin `index` by
`scale (eval index)`, transform back, extract. -/
def spectralMultiply (dim : Nat) (B : Backend) (symbol : List ℚ) (scale : ℚ → ℚ)
    (input : List ℚ) : List ℚ :=
  let buffer := B.forwardTransform (B.fieldToExtendedField input)
  let scaled := (List.range B.localFieldSize).foldl (fun buf index =>
    B.mult index (scale (symbolAt dim B symbol index)) buf) buffer
  B.extendedFieldToField (B.backwardTransform scaled) 0

/-- Embedding of `Matrix::multiplyExtended` (matrix.hh:514-540): the output vector, or the exception of the
symbol fill. -/
def multiplyExtended (t : Traits) (B : Backend) (m : MatrixState) (input : List ℚ) :
    MatrixState × Except Exn (List ℚ) :=
  match ensureFilled t B m with
  | (m1, some e) => (m1, .error e)
  | (m1, none) => (m1, .ok (spectralMultiply t.dim B m1.symbol (fun lambda => lambda) input))

/-- Embedding of `Matrix::multiplyRootExtended` (matrix.hh:545-571). -/
def multiplyRootExtended (t : Traits) (B : Backend) (m : MatrixState) (input : List ℚ) :
    MatrixState × Except Exn (List ℚ) :=
  match ensureFilled t B m with
  | (m1, some e) => (m1, .error e)
  | (m1, none) => (m1, .ok (spectralMultiply t.dim B m1.symbol B.sqrt input))

/-- Embedding of `Matrix::multiplyInverseExtended` (matrix.hh:576-602); `1./lambda` is exact division. -/
def multiplyInverseExtended (t : Traits) (B : Backend) (m : MatrixState) (input : List ℚ) :
    MatrixState × Except Exn (List ℚ) :=
  match ensureFilled t B m with
  | (m1, some e) => (m1, .error e)
  | (m1, none) => (m1, .ok (spectralMultiply t.dim B m1.symbol (fun lambda => 1 / lambda) input))

/-- A scalar product loop of `innerCG` followed by its `MPI_Allreduce(..., MPI_SUM, comm)`:
the sum over the first `n` entries of the vectors (the vectors stand for the whole distributed
field). -/
def scalarProduct (n : Nat) (a b : List ℚ) : ℚ :=
  (List.range n).foldl (fun sum i => sum + a.getD i 0 * b.getD i 0) 0

/-- The quadratic energy `sum_i iter[i] * (0.5 * matrixTimesIter[i] - solution[i])` evaluated
three times in `innerCG` (matrix.hh:446-447, 463-464, 475-476). -/
def energy (iter matrixTimesIter solution : List ℚ) : ℚ :=
  (List.range iter.length).foldl (fun sum i =>
    sum + iter.getD i 0 * (1 / 2 * matrixTimesIter.getD i 0 - solution.getD i 0)) 0

/-- The loop-carried variables of `innerCG` (matrix.hh:404-411, 429, 450). -/
structure CGState where
  iter : List ℚ
  matrixTimesIter : List ℚ
  residual : List ℚ
  precResidual : List ℚ
  direction : List ℚ
  scalarProd : ℚ
  converged : Bool
  count : Nat

/-- The preconditioning step of `innerCG` (matrix.hh:422-425, 482-485). -/
def preconditioned (t : Traits) (B : Backend) (m : MatrixState) (precondition : Bool)
    (residual : List ℚ) : MatrixState × Except Exn (List ℚ) :=
  if precondition then multiplyInverseExtended t B m residual else (m, .ok residual)

/-- One pass of the `while` body of `innerCG` (matrix.hh:453-505). -/
def cgStep (t : Traits) (B : Backend) (precondition : Bool) (solution : List ℚ)
    (firstValue : ℚ) (m : MatrixState) (c : CGState) : MatrixState × Except Exn CGState :=
  match multiplyExtended t B m c.direction with
  | (m1, .error e) => (m1, .error e)
  | (m1, .ok matrixTimesDirection) =>
    let alphaDenominator := scalarProduct c.direction.length c.direction matrixTimesDirection
    let alpha := c.scalarProd / alphaDenominator
    let oldValue := energy c.iter c.matrixTimesIter solution
    let iter := tabulate c.iter.length (fun i => c.iter.getD i 0 + alpha * c.direction.getD i 0)
    let matrixTimesIter := tabulate c.iter.length (fun i =>
      c.matrixTimesIter.getD i 0 + alpha * matrixTimesDirection.getD i 0)
    let value := energy iter matrixTimesIter solution
    let residual := tabulate c.residual.length (fun i =>
      solution.getD i 0 - matrixTimesIter.getD i 0)
    match preconditioned t B m1 precondition residual with
    | (m2, .error e) => (m2, .error e)
    | (m2, .ok precResidual) =>
      let scalarProd := scalarProduct residual.length precResidual residual
      let beta := 1 / c.scalarProd * scalarProd
      let direction := tabulate c.direction.length (fun i =>
        precResidual.getD i 0 + beta * c.direction.getD i 0)
      let converged :=
        if value ≠ firstValue then
          if |value - oldValue| / |value - firstValue| < 1 / 10 ^ 16 then true else c.converged
        else c.converged
      (m2, .ok { iter := iter, matrixTimesIter := matrixTimesIter, residual := residual,
                 precResidual := precResidual, direction := direction,
                 scalarProd := scalarProd, converged := converged, count := c.count + 1 })

/-- The loop `while (!converged && count < cgIterations)` of `innerCG` (matrix.hh:451-506);
`remaining` is `cgIterations - count`. -/
def cgLoop (t : Traits) (B : Backend) (precondition : Bool) (solution : List ℚ)
    (firstValue : ℚ) : Nat → MatrixState → CGState → MatrixState × Except Exn CGState
  | 0, m, c => (m, .ok c)
  | remaining + 1, m, c =>
    if c.converged then (m, .ok c)
    else
      match cgStep t B precondition solution firstValue m c with
      | (m1, .error e) => (m1, .error e)
      | (m1, .ok c1) => cgLoop t B precondition solution firstValue remaining m1 c1

/-- Embedding of `Matrix::innerCG` (matrix.hh:398-509), returning the final `iter`. The test
`std::sqrt(std::abs(scalarProd2)) < 1e-6` is stated on the square, `|scalarProd2| < 1e-12`. -/
def innerCG (t : Traits) (B : Backend) (m : MatrixState) (iter solution : List ℚ)
    (precondition : Bool) : MatrixState × Except Exn (List ℚ) :=
  match multiplyExtended t B m solution with
  | (m1, .error e) => (m1, .error e)
  | (m1, .ok _) =>
    match multiplyExtended t B m1 iter with
    | (m2, .error e) => (m2, .error e)
    | (m2, .ok matrixTimesIter) =>
      let residual := tabulate iter.length (fun i =>
        solution.getD i 0 - matrixTimesIter.getD i 0)
      match preconditioned t B m2 precondition residual with
      | (m3, .error e) => (m3, .error e)
      | (m3, .ok precResidual) =>
        let scalarProd := scalarProduct residual.length precResidual residual
        let scalarProd2 := scalarProduct residual.length residual residual
        let converged : Bool := |scalarProd2| < 1 / 10 ^ 12
        let firstValue := energy iter matrixTimesIter solution
        match cgLoop t B precondition solution firstValue m.cgIterations m3
            { iter := iter, matrixTimesIter := matrixTimesIter, residual := residual,
              precResidual := precResidual, direction := precResidual,
              scalarProd := scalarProd, converged := converged, count := 0 } with
        | (m4, .error e) => (m4, .error e)
        | (m4, .ok c) => (m4, .ok c.iter)

/-- Embedding of `Matrix::operator*` (matrix.hh:108-117). -/
def Matrix.times (t : Traits) (B : Backend) (m : MatrixState) (input : StochasticPart) :
    MatrixState × Except Exn StochasticPart :=
  match multiplyExtended t B m input.dataVector with
  | (m1, .error e) => (m1, .error e)
  | (m1, .ok data) => (m1, .ok { input with dataVector := data, evalValid := false })

/-- Embedding of `Matrix::multiplyRoot` (matrix.hh:122-131). -/
def Matrix.multiplyRoot (t : Traits) (B : Backend) (m : MatrixState) (input : StochasticPart) :
    MatrixState × Except Exn StochasticPart :=
  match multiplyRootExtended t B m input.dataVector with
  | (m1, .error e) => (m1, .error e)
  | (m1, .ok data) => (m1, .ok { input with dataVector := data, evalValid := false })

/-- Embedding of `Matrix::multiplyInverse` (matrix.hh:136-154). -/
def Matrix.multiplyInverse (t : Traits) (B : Backend) (m : MatrixState)
    (input : StochasticPart) : MatrixState × Except Exn StochasticPart :=
  let fieldZero : Bool := (List.range input.localDomainSize).all (fun i =>
    ¬ (|input.dataVector.getD i 0| > tolNegative))
  if fieldZero then (m, .ok input)
  else
    match multiplyInverseExtended t B m input.dataVector with
    | (m1, .error e) => (m1, .error e)
    | (m1, .ok data) =>
      match innerCG t B m1 data input.dataVector true with
      | (m2, .error e) => (m2, .error e)
      | (m2, .ok iter) => (m2, .ok { input with dataVector := iter, evalValid := false })

/-! ## randomfield.hh: the random field and its cached inverse applications -/

/-- Embedding of `StochasticPart::zero` (stochastic.hh:352-360). -/
def StochasticPart.zero (s : StochasticPart) : StochasticPart :=
  { s with
    dataVector := (List.range s.localDomainSize).foldl (fun v i => v.set i 0) s.dataVector
    evalValid := false }

/-- The members of `RandomField` (randomfield.hh:59-69) that the covariance engine works on;
the trend part and the value transform are external collaborators and left out. The two cache
pointers are allocated exactly when their switch in the descriptor is on and every access in
the class is made under that switch; the model keeps an unused value when the switch is off. -/
structure RandomField where
  traits : Traits
  matrix : MatrixState
  stochasticPart : StochasticPart
  invMatvecPart : StochasticPart
  invMatvecValid : Bool
  invRootMatvecPart : StochasticPart
  invRootMatvecValid : Bool

/-- Continue after a call into the matrix: an exception leaves the field as it is at that
point (with the matrix state reached), a result is handed on. -/
def RandomField.afterMatrix (f : RandomField) (r : MatrixState × Except Exn StochasticPart)
    (k : RandomField → StochasticPart → RandomField × Option Exn) :
    RandomField × Option Exn :=
  match r with
  | (m, .error e) => ({ f with matrix := m }, some e)
  | (m, .ok out) => k { f with matrix := m } out

/-- Sequencing of two statements of which the first may throw. -/
def RandomField.andThen (r : RandomField × Option Exn)
    (k : RandomField → RandomField × Option Exn) : RandomField × Option Exn :=
  match r with
  | (f, some e) => (f, some e)
  | (f, none) => k f

/-- Embedding of `RandomField::generate(seed, allowNonWorldComm)` (randomfield.hh:231-241), without the
trend part. -/
def RandomField.generate (B : Backend) (seed : Nat) (allowNonWorldComm : Bool)
    (f : RandomField) : RandomField × Option Exn :=
  if f.traits.worldComm = false ∧ allowNonWorldComm = false then
    (f, some Exn.nonWorldComm)
  else
    match generateField f.traits B seed f.matrix f.stochasticPart with
    | ((m, out), err) => ({ f with matrix := m, stochasticPart := out }, err)

/-- Embedding of `RandomField::zero` (randomfield.hh:386-402). -/
def RandomField.zero (f : RandomField) : RandomField :=
  let f1 := { f with stochasticPart := f.stochasticPart.zero }
  let f2 := if f1.traits.cacheInvMatvec then
      { f1 with invMatvecPart := f1.invMatvecPart.zero, invMatvecValid := true }
    else f1
  if f2.traits.cacheInvRootMatvec then
    { f2 with invRootMatvecPart := f2.invRootMatvecPart.zero, invRootMatvecValid := true }
  else f2

/-- Embedding of `RandomField::refineMatrix` (randomfield.hh:407-411). -/
def RandomField.refineMatrix (fftw : FFTW) (f : RandomField) : RandomField × Option Exn :=
  match f.traits.refine fftw with
  | (t, some e) => ({ f with traits := t }, some e)
  | (t, none) => ({ f with traits := t, matrix := f.matrix.update t }, none)

/-- Embedding of `RandomField::timesMatrix` (randomfield.hh:662-679). -/
def RandomField.timesMatrix (B : Backend) (f : RandomField) : RandomField × Option Exn :=
  let f1 := if f.traits.cacheInvMatvec then
      { f with invMatvecPart := f.stochasticPart, invMatvecValid := true }
    else f
  RandomField.andThen
    (if f1.traits.cacheInvRootMatvec then
      f1.afterMatrix (Matrix.multiplyRoot f1.traits B f1.matrix f1.stochasticPart)
        (fun g out => ({ g with invRootMatvecPart := out, invRootMatvecValid := true }, none))
    else (f1, none))
    (fun f2 =>
      f2.afterMatrix (Matrix.times f2.traits B f2.matrix f2.stochasticPart)
        (fun g out => ({ g with stochasticPart := out }, none)))

/-- Embedding of `RandomField::timesInverseMatrix` (randomfield.hh:684-709). -/
def RandomField.timesInverseMatrix (B : Backend) (f : RandomField) :
    RandomField × Option Exn :=
  if f.traits.cacheInvMatvec = true ∧ f.invMatvecValid = true then
    RandomField.andThen
      (if f.traits.cacheInvRootMatvec then
        f.afterMatrix (Matrix.multiplyRoot f.traits B f.matrix f.invMatvecPart)
          (fun g out => ({ g with invRootMatvecPart := out, invRootMatvecValid := true }, none))
      else (f, none))
      (fun f1 => ({ f1 with stochasticPart := f1.invMatvecPart, invMatvecValid := false }, none))
  else
    f.afterMatrix (Matrix.multiplyInverse f.traits B f.matrix f.stochasticPart)
      (fun g out =>
        let g1 := { g with stochasticPart := out }
        let g2 := if g1.traits.cacheInvMatvec then { g1 with invMatvecValid := false } else g1
        (if g2.traits.cacheInvRootMatvec then { g2 with invRootMatvecValid := false } else g2,
          none))

/-- Embedding of `RandomField::timesMatrixRoot` (randomfield.hh:714-731). -/
def RandomField.timesMatrixRoot (B : Backend) (f : RandomField) : RandomField × Option Exn :=
  let f1 := if f.traits.cacheInvMatvec = true ∧ f.traits.cacheInvRootMatvec = true then
      { f with invMatvecPart := f.invRootMatvecPart, invMatvecValid := f.invRootMatvecValid }
    else f
  let f2 := if f1.traits.cacheInvRootMatvec then
      { f1 with invRootMatvecPart := f1.stochasticPart, invRootMatvecValid := true }
    else f1
  f2.afterMatrix (Matrix.multiplyRoot f2.traits B f2.matrix f2.stochasticPart)
    (fun g out => ({ g with stochasticPart := out }, none))

/-- Embedding of `RandomField::timesInvMatRoot` (randomfield.hh:736-767). -/
def RandomField.timesInvMatRoot (B : Backend) (f : RandomField) : RandomField × Option Exn :=
  if f.traits.cacheInvRootMatvec = true ∧ f.invRootMatvecValid = true then
    let f1 := { f with stochasticPart := f.invRootMatvecPart, invRootMatvecValid := false }
    if f1.traits.cacheInvMatvec then
      ({ f1 with invRootMatvecPart := f1.invMatvecPart,
                 invRootMatvecValid := f1.invMatvecValid, invMatvecValid := false }, none)
    else (f1, none)
  else
    f.afterMatrix (Matrix.multiplyInverse f.traits B f.matrix f.stochasticPart)
      (fun g out =>
        let g1 := { g with stochasticPart := out }
        let g2 := if g1.traits.cacheInvRootMatvec then
            { g1 with invRootMatvecPart := g1.stochasticPart, invRootMatvecValid := true }
          else g1
        g2.afterMatrix (Matrix.multiplyRoot g2.traits B g2.matrix g2.stochasticPart)
          (fun h out2 =>
            let h1 := { h with stochasticPart := out2 }
            (if h1.traits.cacheInvMatvec then { h1 with invMatvecValid := false } else h1,
              none)))

/-- The cache-consistency predicate: a cache that is switched on and flagged valid holds the
current stochastic part transformed by `Cinv` (for `invMatvecPart`) resp. `CinvRoot` (for
`invRootMatvecPart`). -/
def RandomField.cacheConsistent (Cinv CinvRoot : List ℚ → List ℚ) (f : RandomField) : Prop :=
  (f.traits.cacheInvMatvec = true ∧ f.invMatvecValid = true →
      f.invMatvecPart.dataVector = Cinv f.stochasticPart.dataVector) ∧
  (f.traits.cacheInvRootMatvec = true ∧ f.invRootMatvecValid = true →
      f.invRootMatvecPart.dataVector = CinvRoot f.stochasticPart.dataVector)

instance (Cinv CinvRoot : List ℚ → List ℚ) (f : RandomField) :
    Decidable (f.cacheConsistent Cinv CinvRoot) := by
  unfold RandomField.cacheConsistent; infer_instance

/-! ## Concrete operators for evaluation -/

/-- A backend for concrete evaluation on one process: the covariance is diagonal with the
entries of `lam` as its symbol, the transforms are the identity, a bin holds the two samples
of one `set` call scaled by `sqrt(lambda)`, and extraction `0` / `1` reads the real /
imaginary parts. -/
def Backend.diagonal (lam : List ℚ) (hasSpareField : Bool) : Backend :=
  { transformed := [lam]
    localEvalMatrixCells := [lam.length, 1]
    localFieldCells := [lam.length, 1]
    localFieldSize := lam.length
    evalIndex := fun symbol index => symbol.getD index 0
    evalIndices := fun symbol indices => symbol.getD (indices.getD 0 0) 0
    sqrt := Rat.sqrt
    sample := fun seed k => ((seed + k + 1 : Nat) : ℚ)
    allocate := List.replicate lam.length (0, 0)
    transposeIfNeeded := fun buffer => buffer
    set := fun index lambda rand1 rand2 buffer =>
      buffer.set index (lambda * rand1, lambda * rand2)
    mult := fun index factor buffer =>
      buffer.set index (factor * (buffer.getD index (0, 0)).1,
        factor * (buffer.getD index (0, 0)).2)
    fieldToExtendedField := fun input => input.map (fun x => (x, 0))
    forwardTransform := fun buffer => buffer
    backwardTransform := fun buffer => buffer
    extendedFieldToField := fun buffer component =>
      buffer.map (fun bin => if component = 0 then bin.1 else bin.2)
    hasSpareField := hasSpareField }

/-- The descriptor of a 2D grid of `n x 1` cells on one process, embedding factor 1, after its
`update`. -/
def Traits.strip (n : Nat) (cacheInvMatvec cacheInvRootMatvec : Bool) : Traits :=
  ((Traits.update FFTW.serial
    { Traits.initial 2 0 1 1 [1, 1] [n, 1] with
      cacheInvMatvec := cacheInvMatvec, cacheInvRootMatvec := cacheInvRootMatvec })).1

/-- The stochastic part over `Traits.strip` holding `data`. -/
def StochasticPart.strip (n : Nat) (data : List ℚ) : StochasticPart :=
  { rank := 0, commSize := 1, extensions := [1, 1], cells := [n, 1], level := 0,
    localCells := [n, 1], localOffset := [0, 0], localDomainSize := n,
    localEvalCells := [n, 1], localEvalOffset := [0, 0], procPerDim := 1,
    dataVector := data, evalVector := List.replicate n 0,
    overlap := [[0], [0], List.replicate n 0, List.replicate n 0], evalValid := false }

/-- A random field over `Traits.strip` with the symbol `lam` already filled, the stochastic
part `x`, and the two caches holding `inv`, `invRoot` with the given validity flags. -/
def RandomField.strip (lam x inv invRoot : List ℚ) (cacheInvMatvec cacheInvRootMatvec
    invMatvecValid invRootMatvecValid : Bool) : RandomField :=
  { traits := Traits.strip lam.length cacheInvMatvec cacheInvRootMatvec
    matrix := { MatrixState.create (Traits.strip lam.length cacheInvMatvec cacheInvRootMatvec)
      with matrixValid := true, symbol := lam }
    stochasticPart := StochasticPart.strip lam.length x
    invMatvecPart := StochasticPart.strip lam.length inv
    invMatvecValid := invMatvecValid
    invRootMatvecPart := StochasticPart.strip lam.length invRoot
    invRootMatvecValid := invRootMatvecValid }

/-- The linear map `v ↦ c * v` on data vectors; with `Backend.diagonal [lam]` the operators
`C`, `C^{1/2}`, `C^{-1}`, `C^{-1/2}` are `scaleBy lam`, `scaleBy (sqrt lam)` and so on. -/
def scaleBy (c : ℚ) (v : List ℚ) : List ℚ := v.map (fun x => c * x)

instance (fftw : FFTW) (n0 : Nat) : Decidable (fftw.consistent1d n0) := by
  unfold FFTW.consistent1d; infer_instance

/-! ## fieldtraits.hh: coarsening -/

/-- The loop of `RandomFieldTraits::coarsen` (fieldtraits.hh:296-301) from axis `i` on, with
`remaining = dim - i` passes to go: the cells reached and the exception thrown, if any. The
entries before the odd one are already halved when the exception leaves the loop. -/
def coarsenCells : Nat → Nat → List Nat → List Nat × Option Exn
  | 0, _, cells => (cells, none)
  | remaining + 1, i, cells =>
    if cells.getD i 0 % 2 ≠ 0 then
      (cells, some Exn.oddCells)
    else
      coarsenCells remaining (i + 1) (cells.set i (cells.getD i 0 / 2))

/-- The statement `level--` of `coarsen` on the `unsigned int level`: one less, and
`2^32 - 1` when the level is 0. -/
def decrementLevel (level : Nat) : Nat :=
  if level = 0 then 2 ^ 32 - 1 else level - 1

/-- Embedding of `RandomFieldTraits::coarsen` (fieldtraits.hh:294-306). -/
def Traits.coarsen (fftw : FFTW) (t : Traits) : Traits × Option Exn :=
  match coarsenCells t.dim 0 t.cells with
  | (cells, some e) => ({ t with cells := cells }, some e)
  | (cells, none) =>
    Traits.update fftw { t with cells := cells, level := decrementLevel t.level }

/-- The template recursion of `RandomFieldTraits::indicesToIndex` (fieldtraits.hh:334-345):
`more` is `dim - 1 - currentDim`. -/
def indicesToIndexFrom (indices bound : List Nat) : Nat → Nat → Nat
  | 0, currentDim => indices.getD currentDim 0
  | more + 1, currentDim =>
    indices.getD currentDim 0
      + bound.getD currentDim 0 * indicesToIndexFrom indices bound more (currentDim + 1)

/-- Embedding of `RandomFieldTraits::indicesToIndex(indices, bound)`. -/
def indicesToIndex (dim : Nat) (indices bound : List Nat) : Nat :=
  indicesToIndexFrom indices bound (dim - 1) 0

/-! ## fieldtraits.hh: coordinates and cell indices -/

/-- The conversion `(unsigned int) x` of a `double`: the integer part `⌊x⌋` for `x ≥ 0`. Values
in `(-1, 0)` also convert to 0; the conversion of a value `≤ -1` is undefined in C++ and is 0
here. -/
def toUnsigned (x : ℚ) : Nat := ⌊x⌋₊

/-- Subtraction of two `unsigned int`: the difference, wrapped by `2^32` when it is negative. -/
def unsignedSub (a b : Nat) : Nat :=
  if b ≤ a then a - b else a + 2 ^ 32 - b

/-- Embedding of `RandomFieldTraits::coordsToIndices` (fieldtraits.hh:365-376); the result is
`localIndices`. -/
def Traits.coordsToIndices (t : Traits) (location : List ℚ) (offset : List Nat) : List Nat :=
  tabulate t.dim (fun i =>
    unsignedSub
      (toUnsigned (location.getD i 0 * ((t.cells.getD i 0 : ℚ) + 1 / 1000000)
        / t.extensions.getD i 0))
      (offset.getD i 0))

/-- Embedding of `RandomFieldTraits::indicesToCoords` (fieldtraits.hh:381-392); the result is
`location`. -/
def Traits.indicesToCoords (t : Traits) (localIndices offset : List Nat) : List ℚ :=
  tabulate t.dim (fun i =>
    (((localIndices.getD i 0 + offset.getD i 0 : Nat) : ℚ) + 1 / 2) * t.extensions.getD i 0
      / (t.cells.getD i 0 : ℚ))

/-! ## stochastic.hh: vector space operations -/

/-- The loop `for (i = 0; i < n; ++i) v[i] = g(i, v[i])` on a vector. -/
def updateEach (n : Nat) (g : Nat → ℚ → ℚ) (v : List ℚ) : List ℚ :=
  (List.range n).foldl (fun w i => w.set i (g i (w.getD i 0))) v

/-- Embedding of `StochasticPart::operator+=` (stochastic.hh:202-212). -/
def StochasticPart.addAssign (s other : StochasticPart) : StochasticPart :=
  { s with
    dataVector := updateEach s.localDomainSize
      (fun i x => x + other.dataVector.getD i 0) s.dataVector
    evalValid := false }

/-- Embedding of `StochasticPart::operator-=` (stochastic.hh:217-227). -/
def StochasticPart.subAssign (s other : StochasticPart) : StochasticPart :=
  { s with
    dataVector := updateEach s.localDomainSize
      (fun i x => x - other.dataVector.getD i 0) s.dataVector
    evalValid := false }

/-- Embedding of `StochasticPart::operator*=` (stochastic.hh:232-242). -/
def StochasticPart.scale (s : StochasticPart) (alpha : ℚ) : StochasticPart :=
  { s with
    dataVector := updateEach s.localDomainSize (fun _ x => x * alpha) s.dataVector
    evalValid := false }

/-- Embedding of `StochasticPart::axpy` (stochastic.hh:247-257). -/
def StochasticPart.axpy (s other : StochasticPart) (alpha : ℚ) : StochasticPart :=
  { s with
    dataVector := updateEach s.localDomainSize
      (fun i x => x + other.dataVector.getD i 0 * alpha) s.dataVector
    evalValid := false }

/-- Embedding of `StochasticPart::operator*` (stochastic.hh:262-273), a `const` method: the
object after the call and the returned sum. `rest` is what the other processes contribute to
the `MPI_Allreduce` with `MPI_SUM`. -/
def StochasticPart.scalarProduct (s other : StochasticPart) (rest : ℚ) :
    StochasticPart × ℚ :=
  (s, (List.range s.localDomainSize).foldl
    (fun mySum i => mySum + s.dataVector.getD i 0 * other.dataVector.getD i 0) 0 + rest)

/-! ## matrix.hh, randomfield.hh: uncorrelated fields -/

/-- Embedding of `Matrix::generateUncorrelatedField` (matrix.hh:227-241). `normal seed k` is the
`k`-th draw of `std::normal_distribution` from a `std::default_random_engine` seeded with
`seed`; the seed is an `unsigned int`, so `seed += rank` wraps at `2^32`. -/
def generateUncorrelatedField (normal : Nat → Nat → ℚ) (seed : Nat) (m : MatrixState)
    (stochasticPart : StochasticPart) : StochasticPart :=
  { stochasticPart with
    dataVector := updateEach stochasticPart.localDomainSize
      (fun index _ => normal ((seed + m.rank) % 2 ^ 32) index) stochasticPart.dataVector
    evalValid := false }

/-- Embedding of `RandomField::generateUncorrelated(seed, allowNonWorldComm)`
(randomfield.hh:259-267), without the trend part. The call at randomfield.hh:265 leaves out
the seed argument that matrix.hh:227 declares; the caller's seed is passed here. -/
def RandomField.generateUncorrelated (normal : Nat → Nat → ℚ) (seed : Nat)
    (allowNonWorldComm : Bool) (f : RandomField) : RandomField × Option Exn :=
  if f.traits.worldComm = false ∧ allowNonWorldComm = false then
    (f, some Exn.nonWorldComm)
  else
    ({ f with stochasticPart :=
        generateUncorrelatedField normal seed f.matrix f.stochasticPart }, none)

/-! ## randomfield.hh: arithmetic of random fields and of field lists -/

/-- The common shape of `RandomField::operator+=`, `operator-=` and `axpy`
(randomfield.hh:525-553, 558-586, 608-636), without the trend part: `op` is the operation of
the stochastic parts. In `axpy` the source names the other root cache `invRootPart`, a member
that does not exist; it is read as `invRootMatvecPart`. -/
def RandomField.combine (op : StochasticPart → StochasticPart → StochasticPart)
    (f other : RandomField) : RandomField :=
  let f1 := { f with stochasticPart := op f.stochasticPart other.stochasticPart }
  let f2 :=
    if f1.traits.cacheInvMatvec then
      if other.traits.cacheInvMatvec then
        { f1 with
          invMatvecPart := op f1.invMatvecPart other.invMatvecPart
          invMatvecValid := f1.invMatvecValid && other.invMatvecValid }
      else { f1 with invMatvecValid := false }
    else f1
  if f2.traits.cacheInvRootMatvec then
    if other.traits.cacheInvRootMatvec then
      { f2 with
        invRootMatvecPart := op f2.invRootMatvecPart other.invRootMatvecPart
        invRootMatvecValid := f2.invRootMatvecValid && other.invRootMatvecValid }
    else { f2 with invRootMatvecValid := false }
  else f2

/-- Embedding of `RandomField::operator+=` (randomfield.hh:525-553). -/
def RandomField.addAssign (f other : RandomField) : RandomField :=
  RandomField.combine StochasticPart.addAssign f other

/-- Embedding of `RandomField::operator-=` (randomfield.hh:558-586). -/
def RandomField.subAssign (f other : RandomField) : RandomField :=
  RandomField.combine StochasticPart.subAssign f other

/-- Embedding of `RandomField::axpy` (randomfield.hh:608-636). -/
def RandomField.axpy (alpha : ℚ) (f other : RandomField) : RandomField :=
  RandomField.combine (fun s o => s.axpy o alpha) f other

/-- Embedding of `RandomField::operator*` (randomfield.hh:649-657), without the trend part. -/
def RandomField.scalarProduct (f other : RandomField) : ℚ :=
  (f.stochasticPart.scalarProduct other.stochasticPart 0).2

/-- The members of `RandomFieldList` (randomfield.hh:841-846): the `std::map` from names to
sub-fields is an association list with one entry per name. -/
structure RandomFieldList where
  fieldNames : List String
  activeTypes : List String
  list : List (String × RandomField)

/-- The lookup `list.find(type)`; `none` is `list.end()`. -/
def RandomFieldList.find (l : RandomFieldList) (type : String) : Option RandomField :=
  l.list.lookup type

/-- The entry of `type` replaced by `f`: the effect of a mutating call through
`list.find(type)->second`. -/
def RandomFieldList.store (l : RandomFieldList) (type : String) (f : RandomField) :
    RandomFieldList :=
  { l with list := l.list.map (fun entry => if entry.1 = type then (entry.1, f) else entry) }

/-- The loop shared by `RandomFieldList::operator+=`, `operator-=` and `axpy`
(randomfield.hh:1197-1203, 1213-1219, 1240-1246) over the active types still to visit;
`other` is a different object. The list returned with the exception has the sub-fields
visited before already changed. -/
def RandomFieldList.forActive (op : RandomField → RandomField → RandomField)
    (other : RandomFieldList) : List String → RandomFieldList → RandomFieldList × Option Exn
  | [], l => (l, none)
  | type :: rest, l =>
    match other.find type with
    | none => (l, some Exn.listMismatch)
    | some g =>
      match l.find type with
      | none => RandomFieldList.forActive op other rest l
      | some f => RandomFieldList.forActive op other rest (l.store type (op f g))

/-- Embedding of `RandomFieldList::operator+=` (randomfield.hh:1195-1206). -/
def RandomFieldList.addAssign (l other : RandomFieldList) : RandomFieldList × Option Exn :=
  RandomFieldList.forActive RandomField.addAssign other l.activeTypes l

/-- Embedding of `RandomFieldList::operator-=` (randomfield.hh:1211-1222). -/
def RandomFieldList.subAssign (l other : RandomFieldList) : RandomFieldList × Option Exn :=
  RandomFieldList.forActive RandomField.subAssign other l.activeTypes l

/-- Embedding of `RandomFieldList::axpy` (randomfield.hh:1238-1249). -/
def RandomFieldList.axpy (l other : RandomFieldList) (alpha : ℚ) :
    RandomFieldList × Option Exn :=
  RandomFieldList.forActive (RandomField.axpy alpha) other l.activeTypes l

/-- The loop of `RandomFieldList::operator*` (randomfield.hh:1263-1269) over the active types
still to visit, with the sum so far. -/
def RandomFieldList.scalarProductFrom (l other : RandomFieldList) :
    List String → ℚ → Except Exn ℚ
  | [], output => .ok output
  | type :: rest, output =>
    match other.find type with
    | none => .error Exn.listMismatch
    | some g =>
      match l.find type with
      | none => RandomFieldList.scalarProductFrom l other rest output
      | some f => RandomFieldList.scalarProductFrom l other rest (output + f.scalarProduct g)

/-- Embedding of `RandomFieldList::operator*` (randomfield.hh:1259-1272). -/
def RandomFieldList.scalarProduct (l other : RandomFieldList) : Except Exn ℚ :=
  RandomFieldList.scalarProductFrom l other l.activeTypes 0

/-- Embedding of `RandomFieldList::activateFields` (randomfield.hh:1029-1037). -/
def RandomFieldList.activateFields (number : Nat) (l : RandomFieldList) :
    RandomFieldList × Option Exn :=
  if number > l.fieldNames.length then (l, some Exn.tooManyActive)
  else ({ l with activeTypes := tabulate number (fun i => l.fieldNames.getD i "") }, none)

/-- A list of two single-cell fields `a`, `b` of which the first `active` are active. -/
def RandomFieldList.pair (x y : ℚ) (active : Nat) : RandomFieldList :=
  { fieldNames := ["a", "b"]
    activeTypes := ["a", "b"].take active
    list := [("a", RandomField.strip [1] [x] [0] [0] true false false false),
             ("b", RandomField.strip [1] [y] [0] [0] true false false false)] }

/-! ## randomfield.hh: the constructors of a field list -/

/-- One call `std::getline(typeStream, type, delim)` on the unread characters of the stream:
`none` when the stream is at its end and the extraction fails, otherwise the characters up to
the next delimiter and the characters left after that delimiter. -/
def getline (delim : Char) (stream : List Char) : Option (List Char × List Char) :=
  match stream with
  | [] => none
  | _ :: _ =>
    some (stream.takeWhile (fun c => c ≠ delim),
      (stream.dropWhile (fun c => c ≠ delim)).drop 1)

/-- Embedding of `std::map::insert`: an entry whose key is present already is left alone. -/
def RandomFieldList.insertEntry (l : RandomFieldList) (type : String) (f : RandomField) :
    RandomFieldList :=
  match l.find type with
  | some _ => l
  | none => { l with list := l.list ++ [(type, f)] }

/-- The loop `while (std::getline(typeStream, type, ' '))` of the two constructors
(randomfield.hh:868-891, 912-919). `makeField type` is the construction of the sub-field
`type`, `none` when it throws; `fuel` bounds the number of `getline` calls, the result `none`
is an exhausted bound. -/
def RandomFieldList.readFields (makeField : String → Option RandomField) :
    Nat → List Char → RandomFieldList → Option (RandomFieldList × Option Exn)
  | 0, _, _ => none
  | fuel + 1, stream, l =>
    match getline ' ' stream with
    | none => some (l, none)
    | some (type, rest) =>
      match makeField (String.mk type) with
      | none =>
        some ({ l with fieldNames := l.fieldNames ++ [String.mk type] },
          some Exn.subFieldFailed)
      | some f =>
        RandomFieldList.readFields makeField fuel rest
          (RandomFieldList.insertEntry
            { l with fieldNames := l.fieldNames ++ [String.mk type] } (String.mk type) f)

/-- The constructors `RandomFieldList(config, fileName, ...)` and
`RandomFieldList(fileName, ...)` (randomfield.hh:858-897, 903-925): `types` is the value of
`randomField.types`, `active` the value of `randomField.active` when it is configured. The
loop is given one `getline` call more than the string has characters. -/
def RandomFieldList.construct (types : String) (active : Option Nat)
    (makeField : String → Option RandomField) : Option (RandomFieldList × Option Exn) :=
  match RandomFieldList.readFields makeField (types.data.length + 1) types.data
      { fieldNames := [], activeTypes := [], list := [] } with
  | none => none
  | some (l, some e) => some (l, some e)
  | some (l, none) =>
    if l.fieldNames = [] then some (l, some Exn.listEmpty)
    else some (l.activateFields (active.getD l.fieldNames.length))

/-- The names as the amended claim words them: the pieces of the string between its blanks
(`' '`), in order, where a piece behind the last blank counts only if it is not empty. Other
white space does not separate. -/
def blankSeparated : List Char → List (List Char)
  | [] => []
  | c :: cs =>
    if c = ' ' then [] :: blankSeparated cs
    else
      match blankSeparated cs with
      | [] => [[c]]
      | piece :: pieces => (c :: piece) :: pieces

/-! ## stochastic.hh: refinement of the stochastic field -/

/-- The body of the 2D loop of `StochasticPart::refine` (stochastic.hh:414-426) for the old
cell `(i0, i1)`: the old value is written to the four children. -/
def refineCell2 (dim : Nat) (oldData : List ℚ) (oldLocalCells localCells : List Nat)
    (data : List ℚ) (i1 i0 : Nat) : List ℚ :=
  let oldIndices := ((List.replicate dim 0).set 1 i1).set 0 i0
  let newIndices := ((List.replicate dim 0).set 0 (2 * i0)).set 1 (2 * i1)
  let oldIndex := indicesToIndex dim oldIndices oldLocalCells
  let newIndex := indicesToIndex dim newIndices localCells
  let oldValue := oldData.getD oldIndex 0
  (((data.set newIndex oldValue).set (newIndex + 1) oldValue).set
    (newIndex + localCells.getD 0 0) oldValue).set
    (newIndex + localCells.getD 0 0 + 1) oldValue

/-- The body of the 3D loop of `StochasticPart::refine` (stochastic.hh:389-408) for the old
cell `(i0, i1, i2)`: the old value is written to the eight children. -/
def refineCell3 (dim : Nat) (oldData : List ℚ) (oldLocalCells localCells : List Nat)
    (data : List ℚ) (i2 i1 i0 : Nat) : List ℚ :=
  let oldIndices := (((List.replicate dim 0).set 2 i2).set 1 i1).set 0 i0
  let newIndices := (((List.replicate dim 0).set 0 (2 * i0)).set 1 (2 * i1)).set 2 (2 * i2)
  let oldIndex := indicesToIndex dim oldIndices oldLocalCells
  let newIndex := indicesToIndex dim newIndices localCells
  let oldValue := oldData.getD oldIndex 0
  let lc0 := localCells.getD 0 0
  let lc1 := localCells.getD 1 0
  (((((((data.set newIndex oldValue).set (newIndex + 1) oldValue).set
    (newIndex + lc0) oldValue).set
    (newIndex + lc0 + 1) oldValue).set
    (newIndex + lc1 * lc0) oldValue).set
    (newIndex + lc1 * lc0 + 1) oldValue).set
    (newIndex + lc1 * lc0 + lc0) oldValue).set
    (newIndex + lc1 * lc0 + lc0 + 1) oldValue

/-- The transfer loops of `StochasticPart::refine` (stochastic.hh:384-427): the 3D nest for
`dim == 3`, the 2D nest otherwise, the innermost loop running over axis 0. -/
def refineData (dim : Nat) (oldData : List ℚ) (oldLocalCells localCells : List Nat)
    (data : List ℚ) : List ℚ :=
  if dim = 3 then
    (List.range (oldLocalCells.getD 2 0)).foldl (fun d2 i2 =>
      (List.range (oldLocalCells.getD 1 0)).foldl (fun d1 i1 =>
        (List.range (oldLocalCells.getD 0 0)).foldl (fun d0 i0 =>
          refineCell3 dim oldData oldLocalCells localCells d0 i2 i1 i0) d1) d2) data
  else
    (List.range (oldLocalCells.getD 1 0)).foldl (fun d1 i1 =>
      (List.range (oldLocalCells.getD 0 0)).foldl (fun d0 i0 =>
        refineCell2 dim oldData oldLocalCells localCells d0 i1 i0) d1) data

/-- Embedding of `StochasticPart::refine` (stochastic.hh:365-433), without the timer; `none`
is an exhausted loop bound of the `update` it calls. -/
def StochasticPart.refine (t : Traits) (s : StochasticPart) :
    Option (StochasticPart × Option Exn) :=
  if s.level ≠ t.level then
    match s.update t with
    | none => none
    | some (s1, some e) => some (s1, some e)
    | some (s1, none) =>
      some ({ s1 with
        dataVector := refineData t.dim s.dataVector
          (tabulate t.dim (fun i => s1.localCells.getD i 0 / 2)) s1.localCells
          (resize s1.localDomainSize 0 s1.dataVector)
        evalValid := false }, none)
  else some (s, none)

/-! ## stochastic.hh: evaluation of the field and extraction of the block faces -/

/-- Embedding of `StochasticPart::dataToEval` (stochastic.hh:461-514). With one process the
data vector is copied. With several processes the slab-to-block redistribution and the ghost
exchange run over MPI: `received s` is the pair of `evalVector` and `overlap` that the process
holds when they have finished. -/
def StochasticPart.dataToEval (received : StochasticPart → List ℚ × List (List ℚ))
    (s : StochasticPart) : StochasticPart :=
  if s.commSize = 1 then
    { s with evalVector := s.dataVector, evalValid := true }
  else
    { s with evalVector := (received s).1, overlap := (received s).2, evalValid := true }

/-- The classification `countIndices[i]` of `StochasticPart::evaluate` (stochastic.hh:285-293):
`2i` for an index above `localEvalCells[i]` (an index below the block, wrapped), `2i+1` for an
index equal to `localEvalCells[i]`, `2*dim` for an index inside the block. -/
def countIndex (dim i evalIndex localEvalCell : Nat) : Nat :=
  if evalIndex > localEvalCell then 2 * i
  else if evalIndex = localEvalCell then 2 * i + 1
  else 2 * dim

/-- The adjustment of `evalIndices[i]` in the fallback branch of `StochasticPart::evaluate`
(stochastic.hh:311-317, 335-341), in `unsigned int` arithmetic. -/
def adjustIndex (evalIndex localEvalCell : Nat) : Nat :=
  if evalIndex > localEvalCell then (evalIndex + 1) % 2 ^ 32
  else if evalIndex = localEvalCell then unsignedSub evalIndex 1
  else evalIndex

/-- The lookup of `StochasticPart::evaluate` (stochastic.hh:285-346) for the block-local index
tuple `evalIndices`. -/
def StochasticPart.lookup (dim : Nat) (s : StochasticPart) (evalIndices : List Nat) : ℚ :=
  let countIndices := tabulate dim (fun i =>
    countIndex dim i (evalIndices.getD i 0) (s.localEvalCells.getD i 0))
  let adjusted := tabulate dim (fun i =>
    adjustIndex (evalIndices.getD i 0) (s.localEvalCells.getD i 0))
  if dim = 3 then
    if countIndices.getD 0 0 = 2 * dim ∧ countIndices.getD 1 0 = 2 * dim
        ∧ countIndices.getD 2 0 ≠ 2 * dim then
      (s.overlap.getD (countIndices.getD 2 0) []).getD
        (evalIndices.getD 0 0 + evalIndices.getD 1 0 * s.localEvalCells.getD 0 0) 0
    else if countIndices.getD 0 0 = 2 * dim ∧ countIndices.getD 1 0 ≠ 2 * dim
        ∧ countIndices.getD 2 0 = 2 * dim then
      (s.overlap.getD (countIndices.getD 1 0) []).getD
        (evalIndices.getD 2 0 + evalIndices.getD 0 0 * s.localEvalCells.getD 2 0) 0
    else if countIndices.getD 0 0 ≠ 2 * dim ∧ countIndices.getD 1 0 = 2 * dim
        ∧ countIndices.getD 2 0 = 2 * dim then
      (s.overlap.getD (countIndices.getD 0 0) []).getD
        (evalIndices.getD 1 0 + evalIndices.getD 2 0 * s.localEvalCells.getD 1 0) 0
    else
      s.evalVector.getD (indicesToIndex dim adjusted s.localEvalCells) 0
  else
    if countIndices.getD 0 0 = 2 * dim ∧ countIndices.getD 1 0 ≠ 2 * dim then
      (s.overlap.getD (countIndices.getD 1 0) []).getD (evalIndices.getD 0 0) 0
    else if countIndices.getD 0 0 ≠ 2 * dim ∧ countIndices.getD 1 0 = 2 * dim then
      (s.overlap.getD (countIndices.getD 0 0) []).getD (evalIndices.getD 1 0) 0
    else
      s.evalVector.getD (indicesToIndex dim adjusted s.localEvalCells) 0

/-- Embedding of `StochasticPart::evaluate` (stochastic.hh:278-347): the field with its
`mutable` eval view after the call, and `output[0]`. -/
def StochasticPart.evaluate (t : Traits)
    (received : StochasticPart → List ℚ × List (List ℚ)) (s : StochasticPart)
    (location : List ℚ) : StochasticPart × ℚ :=
  let s1 := if s.evalValid then s else s.dataToEval received
  (s1, s1.lookup t.dim (t.coordsToIndices location s1.localEvalOffset))

/-- The assignment `extract[k][j] = v`; an index out of range leaves the panels as they are. -/
def setAt (extract : List (List ℚ)) (k j : Nat) (v : ℚ) : List (List ℚ) :=
  extract.set k ((extract.getD k []).set j v)

/-- The body of the 3D extraction loop of `StochasticPart::exchangeOverlap`
(stochastic.hh:641-647) for the axis `i` and the values `a`, `b` of the loop variables
`evalIndices[iNext]`, `evalIndices[iNextNext]`. -/
def extractCell3 (dim : Nat) (localEvalCells : List Nat) (evalVector : List ℚ)
    (extract : List (List ℚ)) (i a b : Nat) : List (List ℚ) :=
  let iNext := (i + 1) % dim
  let iNextNext := (i + 2) % dim
  let evalIndices := (((List.replicate dim 0).set iNext a).set iNextNext b).set i 0
  let index := indicesToIndex dim evalIndices localEvalCells
  let extract1 := setAt extract (2 * i)
    (evalIndices.getD iNext 0 + evalIndices.getD iNextNext 0 * localEvalCells.getD iNext 0)
    (evalVector.getD index 0)
  let evalIndices2 := evalIndices.set i (unsignedSub (localEvalCells.getD i 0) 1)
  let index2 := indicesToIndex dim evalIndices2 localEvalCells
  setAt extract1 (2 * i + 1)
    (evalIndices2.getD iNext 0 + evalIndices2.getD iNextNext 0 * localEvalCells.getD iNext 0)
    (evalVector.getD index2 0)

/-- The body of the 2D extraction loop of `StochasticPart::exchangeOverlap`
(stochastic.hh:664-670) for the axis `i` and the value `a` of the loop variable
`evalIndices[iNext]`. -/
def extractCell2 (dim : Nat) (localEvalCells : List Nat) (evalVector : List ℚ)
    (extract : List (List ℚ)) (i a : Nat) : List (List ℚ) :=
  let iNext := (i + 1) % dim
  let evalIndices := ((List.replicate dim 0).set iNext a).set i 0
  let index := indicesToIndex dim evalIndices localEvalCells
  let extract1 := setAt extract (2 * i) (evalIndices.getD iNext 0) (evalVector.getD index 0)
  let evalIndices2 := evalIndices.set i (unsignedSub (localEvalCells.getD i 0) 1)
  let index2 := indicesToIndex dim evalIndices2 localEvalCells
  setAt extract1 (2 * i + 1) (evalIndices2.getD iNext 0) (evalVector.getD index2 0)

/-- The extraction loops of `StochasticPart::exchangeOverlap` (stochastic.hh:628-672): the
send buffers `extract`, a copy of `overlap` in which panel `2i` receives the lowest and panel
`2i+1` the highest layer of the block along axis `i`. The loops are those of `dim ≥ 2`, where
the loop variables are other components of `evalIndices` than the one the body assigns. -/
def extractFaces (dim : Nat) (s : StochasticPart) : List (List ℚ) :=
  if dim = 3 then
    (List.range dim).foldl (fun ex2 i =>
      (List.range (s.localEvalCells.getD ((i + 1) % dim) 0)).foldl (fun ex1 a =>
        (List.range (s.localEvalCells.getD ((i + 2) % dim) 0)).foldl (fun ex0 b =>
          extractCell3 dim s.localEvalCells s.evalVector ex0 i a b) ex1) ex2) s.overlap
  else
    (List.range dim).foldl (fun ex1 i =>
      (List.range (s.localEvalCells.getD ((i + 1) % dim) 0)).foldl (fun ex0 a =>
        extractCell2 dim s.localEvalCells s.evalVector ex0 i a) ex1) s.overlap

/-- The position inside a panel of axis `i` at which `exchangeOverlap` and `evaluate` address
the cell with the index tuple `indices`: it is formed from the components other than `i`. -/
def faceIndex (dim i : Nat) (indices localEvalCells : List Nat) : Nat :=
  if dim = 3 then
    indices.getD ((i + 1) % 3) 0 + indices.getD ((i + 2) % 3) 0
      * localEvalCells.getD ((i + 1) % 3) 0
  else indices.getD ((i + 1) % 2) 0

/-- The entries at position `f` of the two panels `2i`, `2i+1` of axis `i`. -/
def panelsAt (i f : Nat) (extract : List (List ℚ)) : ℚ × ℚ :=
  ((extract.getD (2 * i) []).getD f 0, (extract.getD (2 * i + 1) []).getD f 0)

/-- There are `n` panels, and position `f` exists in the two panels of axis `i`. -/
def panelsFit (n i f : Nat) (extract : List (List ℚ)) : Prop :=
  extract.length = n ∧ f < (extract.getD (2 * i) []).length
    ∧ f < (extract.getD (2 * i + 1) []).length

/-! ## fieldtraits.hh: the default load balancer -/

/-- The arguments of `optimize_dims` that are passed by reference: the best factorisation
found, the factorisation under trial and the cost of the best one. -/
structure Balance where
  dims : List Nat
  trydims : List Nat
  opt : ℚ

/-- The cost `mm` of axis `k` in `optimize_dims` (fieldtraits.hh:68-70): the slab width
`size[k] / trydims[k]`, tripled when `fmod(size[k], trydims[k]) > 0.0001`. -/
def axisCost (size trydims : List Nat) (k : Nat) : ℚ :=
  if ((size.getD k 0 % trydims.getD k 0 : Nat) : ℚ) > 1 / 10000 then
    (size.getD k 0 : ℚ) / (trydims.getD k 0 : ℚ) * 3
  else
    (size.getD k 0 : ℚ) / (trydims.getD k 0 : ℚ)

/-- The maximum `m` that `optimize_dims` computes for a complete factorisation
(fieldtraits.hh:64-73), starting from `-1`. -/
def slabCost (dim : Nat) (size trydims : List Nat) : ℚ :=
  (List.range dim).foldl (fun m k =>
    if axisCost size trydims k > m then axisCost size trydims k else m) (-1)

/-- Embedding of `DefaultLoadBalance::optimize_dims` (fieldtraits.hh:39-79) for `i ≥ 0` and
`P ≥ 1`; the divisor loop runs over `k = 1, ..., P`. -/
def optimize_dims (dim : Nat) (size : List Nat) : Nat → Nat → Balance → Balance
  | 0, P, b =>
    if slabCost dim size (b.trydims.set 0 P) < b.opt then
      { dims := b.trydims.set 0 P, trydims := b.trydims.set 0 P,
        opt := slabCost dim size (b.trydims.set 0 P) }
    else
      { b with trydims := b.trydims.set 0 P }
  | i + 1, P, b =>
    (List.range' 1 P).foldl (fun b1 k =>
      if P % k = 0 then
        optimize_dims dim size i (P / k) { b1 with trydims := b1.trydims.set (i + 1) k }
      else b1) b

/-- Embedding of `DefaultLoadBalance::loadbalance` (fieldtraits.hh:29-35): the array `dims`
after the call. The local array `trydims` starts with unspecified entries, here zeros; every
entry is assigned before it is read. The initial `opt = 1e100` is the rational `10^100`. -/
def loadbalance (dim : Nat) (size : List Nat) (P : Nat) (dims : List Nat) : List Nat :=
  (optimize_dims dim size (dim - 1) P
    { dims := dims, trydims := List.replicate dim 0, opt := ((10 ^ 100 : Nat) : ℚ) }).dims

/-- The product `c[0] * ... * c[i]` of the lower entries of a factorisation. -/
def lowerProduct (c : List Nat) : Nat → Nat
  | 0 => c.getD 0 0
  | i + 1 => c.getD (i + 1) 0 * lowerProduct c i

/-- A complete factorisation `c` that `optimize_dims(i, P)` has to try when it is entered with
`trydims = t`: `c` agrees with `t` above axis `i`, and its entries up to axis `i` are positive
with product `P`. -/
def Candidate (i P : Nat) (t c : List Nat) : Prop :=
  c.length = t.length ∧ (∀ j, i < j → c.getD j 0 = t.getD j 0) ∧
    (∀ j, j ≤ i → 0 < c.getD j 0) ∧ lowerProduct c i = P

/-! ## matrix.hh: the loop of the inner conjugate gradients as written -/

/-- The loop `while (!converged && count < cgIterations)` of `innerCG` (matrix.hh:451-506) with
its guard as written. `fuel` bounds the number of guard tests, the result `none` is an
exhausted bound. -/
def cgWhile (t : Traits) (B : Backend) (precondition : Bool) (solution : List ℚ)
    (firstValue : ℚ) (cgIterations : Nat) :
    Nat → MatrixState → CGState → Option (MatrixState × Except Exn CGState)
  | 0, _, _ => none
  | fuel + 1, m, c =>
    if c.converged = false ∧ c.count < cgIterations then
      match cgStep t B precondition solution firstValue m c with
      | (m1, .error e) => some (m1, .error e)
      | (m1, .ok c1) => cgWhile t B precondition solution firstValue cgIterations fuel m1 c1
    else some (m, .ok c)

/-- The loop body run `k` times in a row, without the guard: `k` applications of the
covariance operator and of the preconditioner. -/
def cgSteps (t : Traits) (B : Backend) (precondition : Bool) (solution : List ℚ)
    (firstValue : ℚ) : Nat → MatrixState → CGState → MatrixState × Except Exn CGState
  | 0, m, c => (m, .ok c)
  | k + 1, m, c =>
    match cgStep t B precondition solution firstValue m c with
    | (m1, .error e) => (m1, .error e)
    | (m1, .ok c1) => cgSteps t B precondition solution firstValue k m1 c1

/-! ## matrix.hh: the invariant of the inner conjugate gradients -/

/-- The relation between the loop-carried variables of `innerCG` for vectors of `n` entries
and the covariance operator `C`: `matrixTimesIter = C iter`, `residual = solution - C iter`
and `scalarProd = <precResidual, residual>`, the inner product being the sum of the products
of the first `n` entries. -/
def CGState.consistent (C : List ℚ → List ℚ) (n : Nat) (solution : List ℚ) (c : CGState) :
    Prop :=
  c.iter.length = n ∧ c.residual.length = n ∧
    c.direction.length = n ∧
    (∀ i, i < n → c.matrixTimesIter.getD i 0 = (C c.iter).getD i 0) ∧
    (∀ i, i < n → c.residual.getD i 0 = solution.getD i 0 - (C c.iter).getD i 0) ∧
    c.scalarProd = ∑ j in Finset.range n, c.precResidual.getD j 0 * c.residual.getD j 0

/-! ## matrix.hh: the entries of the covariance matrix -/

/-- The lag `coord[i]` of `computeCovarianceMatrixEntries` (matrix.hh:369-373): the global
torus index times the mesh size, shifted down by the period `extensions[i] * embeddingFactor`
when it exceeds half of it. -/
def lagCoord (embeddingFactor : Nat) (extensions meshsize : List ℚ)
    (indices offset : List Nat) (i : Nat) : ℚ :=
  if ((indices.getD i 0 + offset.getD i 0 : Nat) : ℚ) * meshsize.getD i 0
      > 1 / 2 * extensions.getD i 0 * (embeddingFactor : ℚ) then
    ((indices.getD i 0 + offset.getD i 0 : Nat) : ℚ) * meshsize.getD i 0
      - extensions.getD i 0 * (embeddingFactor : ℚ)
  else
    ((indices.getD i 0 + offset.getD i 0 : Nat) : ℚ) * meshsize.getD i 0

/-- Embedding of `Matrix::computeCovarianceMatrixEntries` (matrix.hh:354-381): the values set
in the matrix backend. `localMatrixSize`, `localMatrixCells` and `localMatrixOffset` are the
answers of the matrix backend, `transform` is the anisotropy map `matrix.transform` and
`covariance` the kernel; they are not part of the four headers. -/
def computeCovarianceMatrixEntries (t : Traits) (m : MatrixState) (localMatrixSize : Nat)
    (localMatrixCells localMatrixOffset : List Nat) (transform : List ℚ → List ℚ)
    (covariance : ℚ → List ℚ → ℚ) : List ℚ :=
  tabulate localMatrixSize (fun index =>
    covariance m.variance (transform (tabulate t.dim (fun i =>
      lagCoord t.embeddingFactor m.extensions m.meshsize
        (indexToIndices t.dim index localMatrixCells) localMatrixOffset i))))

/-! ## stochastic.hh: the slab-to-block reindexing -/

/-- The slice index `iNew` of the 3D resorting loop of `StochasticPart::dataToEval`
(stochastic.hh:481-495), also used by `evalToData`: `px`, `py` are `procPerDim`, `ny`, `nz`
are `localCells[dim-2]`, `localCells[dim-1]`. -/
def sliceIndex3 (px py ny nz i : Nat) : Nat :=
  i % px * (ny / py * nz) + i / (ny / py * px) * (ny / py) % ny * (nz * px)
    + i / (ny * px) * (ny / py) + i / px % (ny / py)

/-- The slice index `iNew` of the 2D resorting loop of `StochasticPart::dataToEval`
(stochastic.hh:507), with `n = localCells[dim-1]`. -/
def sliceIndex2 (procPerDim n i : Nat) : Nat :=
  i / procPerDim + i % procPerDim * n

/-- The resorting loops of `StochasticPart::dataToEval` (stochastic.hh:466, 479-514): the
vector `resorted`, which starts with zeros. -/
def resortSlices (dim : Nat) (s : StochasticPart) : List ℚ :=
  let numSlices := s.procPerDim * s.localDomainSize / s.localCells.getD 0 0
  let sliceSize := s.localDomainSize / numSlices
  (List.range numSlices).foldl (fun resorted1 i =>
    (List.range sliceSize).foldl (fun resorted0 j =>
      resorted0.set
        ((if dim = 3 then
            sliceIndex3 s.procPerDim s.procPerDim (s.localCells.getD (dim - 2) 0)
              (s.localCells.getD (dim - 1) 0) i
          else sliceIndex2 s.procPerDim (s.localCells.getD (dim - 1) 0) i) * sliceSize + j)
        (s.dataVector.getD (i * sliceSize + j) 0)) resorted1)
    (List.replicate s.dataVector.length 0)

/-! ## stochastic.hh: the neighbours of the ghost exchange -/

/-- The vector `neighbor` of `StochasticPart::exchangeOverlap` (stochastic.hh:651-656,
674-677): entry `2i` is the rank that receives the lower face of axis `i`, entry `2i+1` the
rank that receives the upper face. -/
def exchangeNeighbors (dim rank procPerDim commSize : Nat) : List Nat :=
  if dim = 3 then
    [rank / procPerDim * procPerDim + (rank + (procPerDim - 1)) % procPerDim,
      rank / procPerDim * procPerDim + (rank + 1) % procPerDim,
      rank / (procPerDim * procPerDim) * (procPerDim * procPerDim)
        + (rank + (procPerDim * procPerDim - procPerDim)) % (procPerDim * procPerDim),
      rank / (procPerDim * procPerDim) * (procPerDim * procPerDim)
        + (rank + procPerDim) % (procPerDim * procPerDim),
      (rank + (commSize - procPerDim * procPerDim)) % commSize,
      (rank + procPerDim * procPerDim) % commSize]
  else
    [rank / procPerDim * procPerDim + (rank + (procPerDim - 1)) % procPerDim,
      rank / procPerDim * procPerDim + (rank + 1) % procPerDim,
      (rank + (commSize - procPerDim)) % commSize,
      (rank + procPerDim) % commSize]

/-- The coordinate of `rank` in the process grid along `axis`, the factor of
`localEvalCells[axis]` in the block offsets of `StochasticPart::update`
(stochastic.hh:117-127). -/
def gridCoord (dim procPerDim rank axis : Nat) : Nat :=
  if dim = 3 then
    if axis = 0 then rank % (procPerDim * procPerDim) % procPerDim
    else if axis = 1 then rank % (procPerDim * procPerDim) / procPerDim
    else rank / (procPerDim * procPerDim)
  else
    if axis = 0 then rank % procPerDim else rank / procPerDim

/-! ## stochastic.hh: the subscripts of the block layout -/

/-- The subscripts with which `StochasticPart::update` (stochastic.hh:113-127) indexes
`localEvalCells` and `localEvalOffset`, both resized to `dim` entries, in program order: the
loop over `i < dim`, then the branch `dim == 3` with the subscripts 0, 1, 2 of either vector,
or the `else` branch with the subscripts 0 and 1 of either vector. -/
def evalLayoutSubscripts (dim : Nat) : List Nat :=
  List.range dim ++ (if dim = 3 then [0, 0, 1, 1, 2, 2] else [0, 0, 1, 1])

/-! ## fieldtraits.hh: the global cell index of a location -/

/-- The value `globalIndices[i]` of `RandomFieldTraits::coordsToIndices`
(fieldtraits.hh:373). -/
def Traits.globalIndex (t : Traits) (location : List ℚ) (i : Nat) : Nat :=
  toUnsigned (location.getD i 0 * ((t.cells.getD i 0 : ℚ) + 1 / 1000000)
    / t.extensions.getD i 0)

/-- An FFTW stand-in for concrete evaluation on `commSize` processes: rank `rank` holds an
equal slab of the first transform dimension, with equal input and output slabs in 1D. -/
def FFTW.slabs (commSize rank : Nat) : FFTW :=
  { localSize := fun n =>
      (n.prod / commSize, n.getD 0 0 / commSize, rank * (n.getD 0 0 / commSize))
    localSize1d := fun n0 =>
      (n0 / commSize, n0 / commSize, rank * (n0 / commSize),
        n0 / commSize, rank * (n0 / commSize)) }

/-- An FFTW stand-in on one process whose 1D query reports an output offset different from the
input offset at the transform size `bad` only, so that `getFFTData` throws there. -/
def FFTW.mismatchAt (bad : Nat) : FFTW :=
  { localSize := fun n => (n.prod, n.getD 0 0, 0)
    localSize1d := fun n0 => (n0, n0, 0, n0, if n0 = bad then 1 else 0) }

/-! ## Theorems: the domain descriptor -/

theorem getD_tabulate {α : Type} (dim : Nat) (f : Nat → α) (d : α) (i : Nat) (hi : i < dim) :
    (tabulate dim f).getD i d = f i := by
  simp [tabulate, List.getD, hi]

theorem length_tabulate {α : Type} (dim : Nat) (f : Nat → α) :
    (tabulate dim f).length = dim := by
  simp [tabulate]

theorem getFFTData_error (fftw : FFTW) (t : Traits) (e : Exn)
    (h : (t.getFFTData fftw).2 = some e) : e = Exn.fftMismatch := by
  simp only [Traits.getFFTData] at h
  split_ifs at h
  simpa using h.symm

theorem update_error_cases (fftw : FFTW) (t : Traits) (e : Exn)
    (h : (t.update fftw).2 = some e) :
    (e = Exn.lastDimNotMultiple ∧ t.cells.getD (t.dim - 1) 0 % t.commSize ≠ 0) ∨
    (e = Exn.notMultipleOfSquare ∧ t.dim = 1 ∧
        t.cells.getD 0 0 % (t.commSize * t.commSize) ≠ 0) ∨
    (e = Exn.fftMismatch ∧ t.cells.getD (t.dim - 1) 0 % t.commSize = 0) := by
  unfold Traits.update at h
  split_ifs at h with h1 h2
  · left; exact ⟨by simpa using h.symm, h1⟩
  · right; left; exact ⟨by simpa using h.symm, h2.1, h2.2⟩
  · right; right
    refine ⟨?_, by simpa using h1⟩
    rcases hq : t.updateMesh.getFFTData fftw with ⟨q, _ | e1⟩
    · rw [hq] at h; simp at h
    · rw [hq] at h
      have := getFFTData_error fftw _ e1 (by rw [hq])
      simp at h
      rw [← h, this]

/-- C9. `RandomFieldTraits::update` throws one of its two divisibility errors exactly when
`cells[dim-1] mod P ≠ 0`, or `dim = 1` and `cells[0] mod P^2 ≠ 0`; the FFTW size query plays no
part in it. -/
theorem update_divisibility_error_iff (fftw : FFTW) (t : Traits) (hP : 1 ≤ t.commSize) :
    (∃ e, (t.update fftw).2 = some e ∧ e.isDivisibility = true) ↔
      (t.cells.getD (t.dim - 1) 0 % t.commSize ≠ 0 ∨
        (t.dim = 1 ∧ t.cells.getD 0 0 % t.commSize ^ 2 ≠ 0)) := by
  have _ := hP
  rw [sq]
  constructor
  · rintro ⟨e, he, hd⟩
    rcases update_error_cases fftw t e he with ⟨-, h⟩ | ⟨-, h⟩ | ⟨rfl, -⟩
    · exact Or.inl h
    · exact Or.inr h
    · simp [Exn.isDivisibility] at hd
  · intro h
    by_cases h1 : t.cells.getD (t.dim - 1) 0 % t.commSize ≠ 0
    · exact ⟨Exn.lastDimNotMultiple, by rw [Traits.update, if_pos h1], rfl⟩
    · have h2 : t.dim = 1 ∧ t.cells.getD 0 0 % (t.commSize * t.commSize) ≠ 0 := by
        rcases h with h | h
        · exact absurd h h1
        · exact h
      exact ⟨Exn.notMultipleOfSquare, by rw [Traits.update, if_neg h1, if_pos h2], rfl⟩

theorem update_divisibility_error_iff_witness :
    (∃ e, ((Traits.initial 2 0 3 2 [1, 1] [4, 5]).update FFTW.serial).2 = some e ∧
        e.isDivisibility = true) ↔
      ((Traits.initial 2 0 3 2 [1, 1] [4, 5]).cells.getD
          ((Traits.initial 2 0 3 2 [1, 1] [4, 5]).dim - 1) 0 %
            (Traits.initial 2 0 3 2 [1, 1] [4, 5]).commSize ≠ 0 ∨
        ((Traits.initial 2 0 3 2 [1, 1] [4, 5]).dim = 1 ∧
          (Traits.initial 2 0 3 2 [1, 1] [4, 5]).cells.getD 0 0 %
            (Traits.initial 2 0 3 2 [1, 1] [4, 5]).commSize ^ 2 ≠ 0)) :=
  update_divisibility_error_iff FFTW.serial (Traits.initial 2 0 3 2 [1, 1] [4, 5])
    (by decide)

theorem getFFTData_ok (fftw : FFTW) (t : Traits)
    (h : t.dim = 1 → fftw.consistent1d (t.extendedCells.getD 0 0)) :
    (t.getFFTData fftw).2 = none := by
  simp only [Traits.getFFTData]
  split_ifs with h1 h2
  · exfalso
    have hc := h h1
    have hn : (tabulate t.dim fun i => t.extendedCells.getD (t.dim - 1 - i) 0).getD 0 0
        = t.extendedCells.getD 0 0 := by
      rw [getD_tabulate _ _ _ _ (by omega), h1]
    rw [hn] at h2
    rcases h2 with h2 | h2
    · exact h2 hc.1
    · exact h2 hc.2
  · rfl
  · rfl

theorem update_ok (fftw : FFTW) (t : Traits)
    (h1 : t.cells.getD (t.dim - 1) 0 % t.commSize = 0)
    (h2 : t.dim = 1 → t.cells.getD 0 0 % (t.commSize * t.commSize) = 0)
    (h3 : (t.updateMesh.getFFTData fftw).2 = none) :
    t.update fftw =
      ((t.updateMesh.storeFFT (t.updateMesh.getFFTData fftw).1).updateLocal.updateSizes,
        none) := by
  rw [Traits.update, if_neg (by simpa using h1), if_neg (by
    rintro ⟨hd, hne⟩
    exact hne (h2 hd))]
  rcases hq : t.updateMesh.getFFTData fftw with ⟨q, _ | e1⟩
  · rfl
  · rw [hq] at h3; simp at h3

theorem double_mod (c P : Nat) (h : c % P = 0) : c * 2 % P = 0 := by
  rw [Nat.mul_mod, h, Nat.zero_mul, Nat.zero_mod]

theorem refine_pre_divisible (t : Traits) (hdiv : t.divisible) :
    Traits.divisible { t with
      cells := tabulate t.dim (fun i => t.cells.getD i 0 * 2)
      level := t.level + 1 } := by
  rcases Nat.eq_zero_or_pos t.dim with h0 | hpos
  · constructor
    · simp [h0, tabulate]
    · intro h; simp [h0] at h
  · constructor
    · show (tabulate t.dim fun i => t.cells.getD i 0 * 2).getD (t.dim - 1) 0 % t.commSize = 0
      rw [getD_tabulate _ _ _ _ (by omega)]
      exact double_mod _ _ hdiv.1
    · intro h
      show (tabulate t.dim fun i => t.cells.getD i 0 * 2).getD 0 0 %
        (t.commSize * t.commSize) = 0
      rw [getD_tabulate _ _ _ _ hpos]
      exact double_mod _ _ (hdiv.2 h)

theorem searchProcPerDim_spec (dim P : Nat) (hdim : 1 ≤ dim) :
    ∀ fuel p, (∀ q, q < p → q ^ dim < P) → P < p + fuel →
      ∃ p1 r, searchProcPerDim dim P fuel p = some (p1, r) ∧
        (r = none ∨ r = some Exn.procsNotPower) ∧
        (r = some Exn.procsNotPower ↔ ¬ ∃ q, q ^ dim = P) ∧
        (r = none → p1 ^ dim = P) := by
  intro fuel
  induction fuel with
  | zero =>
    intro p hinv hfuel
    exfalso
    have hlt := hinv P (by omega)
    have hle : P ≤ P ^ dim := Nat.le_self_pow (by omega) P
    omega
  | succ fuel ih =>
    intro p hinv hfuel
    by_cases heq : p ^ dim = P
    · refine ⟨p, none, ?_, Or.inl rfl, ?_, fun _ => heq⟩
      · simp [searchProcPerDim, powerEval, heq]
      · constructor
        · intro h; cases h
        · intro h; exact absurd ⟨p, heq⟩ h
    · by_cases hgt : p ^ dim > P
      · refine ⟨p, some Exn.procsNotPower, ?_, Or.inr rfl, ?_, fun h => by cases h⟩
        · simp [searchProcPerDim, powerEval, heq, hgt]
        · constructor
          · rintro - ⟨q, hq⟩
            rcases Nat.lt_or_ge q p with hlt | hge
            · have := hinv q hlt
              omega
            · have : p ^ dim ≤ q ^ dim := Nat.pow_le_pow_left hge dim
              omega
          · intro _; rfl
      · have hstep : searchProcPerDim dim P (fuel + 1) p
            = searchProcPerDim dim P fuel (p + 1) := by
          simp [searchProcPerDim, powerEval, heq, hgt]
        rw [hstep]
        apply ih
        · intro q hq
          rcases Nat.lt_or_ge q p with hlt | hge
          · exact hinv q hlt
          · have : q = p := by omega
            subst this
            omega
        · omega

theorem searchProcPerDim_start (dim P : Nat) (hdim : 1 ≤ dim) (hP : 1 ≤ P) :
    ∃ p1 r, searchProcPerDim dim P (P + 1) 1 = some (p1, r) ∧
      (r = none ∨ r = some Exn.procsNotPower) ∧
      (r = some Exn.procsNotPower ↔ ¬ ∃ q, q ^ dim = P) ∧
      (r = none → p1 ^ dim = P) := by
  apply searchProcPerDim_spec dim P hdim
  · intro q hq
    have : q = 0 := by omega
    subst this
    rw [Nat.zero_pow (by omega)]
    omega
  · omega

/-- C8. For `P ≥ 1` processes and `dim ∈ {2,3}` the `procPerDim` search of
`StochasticPart::update` terminates; it throws exactly when no integer `p` has `p^dim = P`,
and otherwise ends with `procPerDim^dim = P`. `cells = [4,6]` on 3 processes is rejected. -/
theorem update_procPerDim_search (t : Traits) (s : StochasticPart) (hP : 1 ≤ t.commSize)
    (hdim : t.dim = 2 ∨ t.dim = 3) :
    (∃ s1 r, s.update t = some (s1, r) ∧
      (r = none ∨ r = some Exn.procsNotPower) ∧
      (r = some Exn.procsNotPower ↔ ¬ ∃ p, p ^ t.dim = t.commSize) ∧
      (r = none → s1.procPerDim ^ t.dim = t.commSize)) ∧
    (s.update (Traits.initial 2 0 3 2 [1, 1] [4, 6])).map Prod.snd
      = some (some Exn.procsNotPower) := by
  refine ⟨?_, by rfl⟩
  obtain ⟨p1, r, hs, hr, hiff, hok⟩ :=
    searchProcPerDim_start t.dim t.commSize (by omega) hP
  rcases hr with rfl | rfl
  · refine ⟨(({ s.copyTraits t with procPerDim := p1 }).updateEvalLayout
      t.dim).updateContainers t.dim, none, ?_, Or.inl rfl, hiff, fun _ => ?_⟩
    · rw [StochasticPart.update, hs]
    · exact hok rfl
  · refine ⟨{ s.copyTraits t with procPerDim := p1 }, some Exn.procsNotPower, ?_,
      Or.inr rfl, hiff, fun h => by cases h⟩
    rw [StochasticPart.update, hs]

theorem update_procPerDim_search_witness :
    (∃ s1 r, StochasticPart.blank.update (Traits.initial 2 0 4 2 [1, 1] [4, 8])
        = some (s1, r) ∧
      (r = none ∨ r = some Exn.procsNotPower) ∧
      (r = some Exn.procsNotPower ↔
        ¬ ∃ p, p ^ (Traits.initial 2 0 4 2 [1, 1] [4, 8]).dim
          = (Traits.initial 2 0 4 2 [1, 1] [4, 8]).commSize) ∧
      (r = none → s1.procPerDim ^ (Traits.initial 2 0 4 2 [1, 1] [4, 8]).dim
          = (Traits.initial 2 0 4 2 [1, 1] [4, 8]).commSize)) ∧
    (StochasticPart.blank.update (Traits.initial 2 0 3 2 [1, 1] [4, 6])).map Prod.snd
      = some (some Exn.procsNotPower) :=
  update_procPerDim_search (Traits.initial 2 0 4 2 [1, 1] [4, 8]) StochasticPart.blank
    (by decide) (by decide)

/-! ## Theorems: the concrete operators are states of the model -/

theorem strip_stochasticPart_updated :
    (StochasticPart.blank.update (Traits.strip 2 true false)).map
        (fun r => ({ r.1 with dataVector := [1, 2] }, r.2))
      = some (StochasticPart.strip 2 [1, 2], none) := by
  decide!

theorem strip_matrix_filled :
    ensureFilled (Traits.strip 2 true false) (Backend.diagonal [4, 9] true)
        (MatrixState.create (Traits.strip 2 true false))
      = ((RandomField.strip [4, 9] [1, 2] [0, 0] [0, 0] true false false false).matrix,
          none) := by
  decide!

theorem diagonal_operators :
    (Matrix.times (Traits.strip 1 true false) (Backend.diagonal [4] true)
        (RandomField.strip [4] [3] [0] [0] true false false false).matrix
        (StochasticPart.strip 1 [3])).2.toOption.map (fun out => out.dataVector)
      = some (scaleBy 4 [3]) ∧
    (Matrix.multiplyRoot (Traits.strip 1 true false) (Backend.diagonal [4] true)
        (RandomField.strip [4] [3] [0] [0] true false false false).matrix
        (StochasticPart.strip 1 [3])).2.toOption.map (fun out => out.dataVector)
      = some (scaleBy 2 [3]) ∧
    (Matrix.multiplyInverse (Traits.strip 1 true false) (Backend.diagonal [4] true)
        (RandomField.strip [4] [3] [0] [0] true false false false).matrix
        (StochasticPart.strip 1 [3])).2.toOption.map (fun out => out.dataVector)
      = some (scaleBy (1 / 4) [3]) := by
  decide!

/-! ## Theorems: the spectral audit -/

theorem auditStep_stored (a : Audit) (index : Nat) :
    (auditStep a index).stored =
      if a.stored.getD index 0 < 0 then a.stored.set index 0 else a.stored := by
  unfold auditStep
  cases hs : a.mySmallest <;> simp only [] <;> split_ifs <;> rfl

theorem auditStep_myNegative (a : Audit) (index : Nat) :
    (auditStep a index).myNegative =
      a.myNegative + if a.stored.getD index 0 ≤ -tolNegative then 1 else 0 := by
  have htol : (0 : ℚ) < tolNegative := by norm_num [tolNegative]
  have hsmall : tolNegative < tolSmall := by norm_num [tolNegative, tolSmall]
  unfold auditStep
  cases hs : a.mySmallest <;> simp only [] <;> split_ifs <;> first | rfl | (exfalso; linarith)

theorem getD_set_zero (l : List ℚ) (k i : Nat) :
    (l.set k 0).getD i 0 = if i = k then 0 else l.getD i 0 := by
  simp only [List.getD_eq_getElem?_getD, List.getElem?_set]
  by_cases h : k = i
  · subst h
    by_cases hl : k < l.length <;> simp [hl]
  · have h2 : ¬ i = k := fun e => h e.symm
    simp [h, h2]

theorem auditLoop_invariant (values : List ℚ) (k : Nat) :
    ((List.range k).foldl auditStep
      { mySmall := 0, myNegative := 0, mySmallNegative := 0, mySmallest := none,
        stored := values }).stored.length = values.length ∧
    (∀ i, ((List.range k).foldl auditStep
      { mySmall := 0, myNegative := 0, mySmallNegative := 0, mySmallest := none,
        stored := values }).stored.getD i 0
        = if i < k then max (values.getD i 0) 0 else values.getD i 0) ∧
    (0 < ((List.range k).foldl auditStep
      { mySmall := 0, myNegative := 0, mySmallNegative := 0, mySmallest := none,
        stored := values }).myNegative ↔ ∃ i, i < k ∧ values.getD i 0 ≤ -tolNegative) := by
  induction k with
  | zero => simp
  | succ k ih =>
    obtain ⟨hlen, hget, hneg⟩ := ih
    rw [List.range_succ, List.foldl_append]
    simp only [List.foldl_cons, List.foldl_nil]
    generalize (List.range k).foldl auditStep
      { mySmall := 0, myNegative := 0, mySmallNegative := 0, mySmallest := none,
        stored := values } = a at hlen hget hneg
    have hk : a.stored.getD k 0 = values.getD k 0 := by
      rw [hget k]; simp
    refine ⟨?_, ?_, ?_⟩
    · rw [auditStep_stored]
      split_ifs <;> simp [hlen]
    · intro i
      rw [auditStep_stored, hk]
      by_cases hv : values.getD k 0 < 0
      · rw [if_pos hv, getD_set_zero, hget i]
        by_cases hik : i = k
        · subst hik
          rw [if_pos rfl, if_pos (Nat.lt_succ_self _), max_eq_right (le_of_lt hv)]
        · by_cases hlt : i < k
          · simp [hik, hlt, Nat.lt_succ_of_lt hlt]
          · have : ¬ i < k + 1 := by omega
            simp [hik, hlt, this]
      · rw [if_neg hv, hget i]
        by_cases hik : i = k
        · subst hik
          rw [if_pos (Nat.lt_succ_self _), if_neg (lt_irrefl _),
            max_eq_left (not_lt.mp hv)]
        · by_cases hlt : i < k
          · simp [hlt, Nat.lt_succ_of_lt hlt]
          · have : ¬ i < k + 1 := by omega
            simp [hlt, this]
    · rw [auditStep_myNegative, hk]
      constructor
      · intro h
        by_cases hv : values.getD k 0 ≤ -tolNegative
        · exact ⟨k, by omega, hv⟩
        · rw [if_neg hv] at h
          obtain ⟨i, hi, hiv⟩ := hneg.mp (by omega)
          exact ⟨i, by omega, hiv⟩
      · rintro ⟨i, hi, hiv⟩
        by_cases hik : i = k
        · subst hik
          rw [if_pos hiv]
          omega
        · have := hneg.mpr ⟨i, by omega, hiv⟩
          omega

theorem auditLoop_stored (values : List ℚ) :
    (auditLoop values).stored = values.map (fun v => max v 0) := by
  obtain ⟨hlen, hget, -⟩ := auditLoop_invariant values values.length
  apply List.ext_getElem?
  intro i
  have h := hget i
  unfold auditLoop
  by_cases hi : i < values.length
  · rw [if_pos hi] at h
    have hi2 : i < ((List.range values.length).foldl auditStep
      { mySmall := 0, myNegative := 0, mySmallNegative := 0, mySmallest := none,
        stored := values }).stored.length := by rw [hlen]; exact hi
    simp only [List.getD_eq_getElem?_getD, List.getElem?_eq_getElem hi2,
      List.getElem?_eq_getElem hi, Option.getD_some] at h
    rw [List.getElem?_eq_getElem hi2, h]
    simp [List.getElem?_eq_getElem hi]
  · have h1 : values.length ≤ i := by omega
    rw [List.getElem?_eq_none (by rw [hlen]; exact h1),
      List.getElem?_eq_none (by simpa using h1)]

theorem auditLoop_myNegative_pos (values : List ℚ) :
    0 < (auditLoop values).myNegative ↔ ∃ x, x ∈ values ∧ x ≤ -tolNegative := by
  have htol : (0 : ℚ) < tolNegative := by norm_num [tolNegative]
  obtain ⟨-, -, hneg⟩ := auditLoop_invariant values values.length
  unfold auditLoop
  rw [hneg]
  constructor
  · rintro ⟨i, hi, hv⟩
    refine ⟨values.getD i 0, ?_, hv⟩
    rw [List.getD_eq_getElem?_getD, List.getElem?_eq_getElem hi, Option.getD_some]
    exact List.getElem_mem hi
  · rintro ⟨x, hx, hv⟩
    obtain ⟨i, hi, rfl⟩ := List.getElem_of_mem hx
    refine ⟨i, hi, ?_⟩
    rw [List.getD_eq_getElem?_getD, List.getElem?_eq_getElem hi, Option.getD_some]
    exact hv

theorem sum_pos_iff (l : List Nat) : 0 < l.sum ↔ ∃ n, n ∈ l ∧ 0 < n := by
  induction l with
  | nil => simp
  | cons a l ih =>
    rw [List.sum_cons]
    constructor
    · intro h
      by_cases ha : 0 < a
      · exact ⟨a, List.mem_cons_self _ _, ha⟩
      · obtain ⟨n, hn, hpos⟩ := ih.mp (by omega)
        exact ⟨n, List.mem_cons_of_mem _ hn, hpos⟩
    · rintro ⟨n, hn, hpos⟩
      rcases List.mem_cons.mp hn with rfl | hn
      · omega
      · have := ih.mpr ⟨n, hn, hpos⟩
        omega

theorem reducedNegative_pos (transformed : List (List ℚ)) :
    0 < reducedNegative transformed ↔
      ∃ values, values ∈ transformed ∧ ∃ x, x ∈ values ∧ x ≤ -tolNegative := by
  unfold reducedNegative
  rw [sum_pos_iff]
  constructor
  · rintro ⟨n, hn, hpos⟩
    obtain ⟨values, hv, rfl⟩ := List.mem_map.mp hn
    exact ⟨values, hv, (auditLoop_myNegative_pos values).mp hpos⟩
  · rintro ⟨values, hv, hx⟩
    exact ⟨_, List.mem_map.mpr ⟨values, hv, rfl⟩, (auditLoop_myNegative_pos values).mpr hx⟩

theorem fillTransformedMatrix_symbol (t : Traits) (B : Backend) (m : MatrixState)
    (hc : m.covariance ∈ knownCovariances) (ha : t.anisotropy ∈ knownAnisotropies) :
    (fillTransformedMatrix t B m).1.symbol = (auditLoop (B.transformed.getD m.rank [])).stored := by
  unfold fillTransformedMatrix
  rw [if_neg (not_not.mpr hc), if_neg (not_not.mpr ha)]
  simp only []
  split_ifs <;> rfl

/-- C1. After the audit loop of `Matrix::fillTransformedMatrix` (known covariance and
anisotropy names) the stored symbol of the rank is the post-transform array with every entry
`v` replaced by `max v 0`, so every stored entry is `≥ 0`, whether or not the routine then
throws the negative-eigenvalue error. -/
theorem fillTransformedMatrix_stored_nonneg (t : Traits) (B : Backend) (m : MatrixState)
    (hc : m.covariance ∈ knownCovariances) (ha : t.anisotropy ∈ knownAnisotropies) :
    (fillTransformedMatrix t B m).1.symbol
        = (B.transformed.getD m.rank []).map (fun v => max v 0) ∧
      ∀ x, x ∈ (fillTransformedMatrix t B m).1.symbol → 0 ≤ x := by
  rw [fillTransformedMatrix_symbol t B m hc ha, auditLoop_stored]
  refine ⟨rfl, ?_⟩
  intro x hx
  obtain ⟨v, -, rfl⟩ := List.mem_map.mp hx
  exact le_max_right v 0

theorem fillTransformedMatrix_stored_nonneg_witness :
    (fillTransformedMatrix (Traits.strip 3 true false)
        (Backend.diagonal [2, -1 / 1000, -1 / 100000000000] true)
        (MatrixState.create (Traits.strip 3 true false))).1.symbol
        = ((Backend.diagonal [2, -1 / 1000, -1 / 100000000000] true).transformed.getD
            (MatrixState.create (Traits.strip 3 true false)).rank []).map
              (fun v => max v 0) ∧
      ∀ x, x ∈ (fillTransformedMatrix (Traits.strip 3 true false)
        (Backend.diagonal [2, -1 / 1000, -1 / 100000000000] true)
        (MatrixState.create (Traits.strip 3 true false))).1.symbol → 0 ≤ x :=
  fillTransformedMatrix_stored_nonneg (Traits.strip 3 true false)
    (Backend.diagonal [2, -1 / 1000, -1 / 100000000000] true)
    (MatrixState.create (Traits.strip 3 true false)) (by decide!) (by decide!)

/-- C2 (as amended). For known covariance and anisotropy names `fillTransformedMatrix` throws
the negative-eigenvalue error exactly when `approximate` is false and some post-transform
symbol entry on some rank is `≤ -1e-10`; with `approximate` true it never throws it. -/
theorem fillTransformedMatrix_raises_iff (t : Traits) (B : Backend) (m : MatrixState)
    (hc : m.covariance ∈ knownCovariances) (ha : t.anisotropy ∈ knownAnisotropies) :
    ((fillTransformedMatrix t B m).2 = some Exn.negativeEigenvalues ↔
      (t.approximate = false ∧
        ∃ values, values ∈ B.transformed ∧ ∃ x, x ∈ values ∧ x ≤ -tolNegative)) ∧
    (t.approximate = true → (fillTransformedMatrix t B m).2 = none) := by
  unfold fillTransformedMatrix
  rw [if_neg (not_not.mpr hc), if_neg (not_not.mpr ha)]
  simp only []
  have hpos := reducedNegative_pos B.transformed
  by_cases hn : 0 < reducedNegative B.transformed
  · by_cases hap : t.approximate = false
    · rw [if_pos ⟨hn, hap⟩]
      refine ⟨⟨fun _ => ⟨hap, hpos.mp hn⟩, fun _ => rfl⟩, ?_⟩
      intro h; rw [h] at hap; cases hap
    · rw [if_neg (fun h => hap h.2)]
      refine ⟨⟨fun h => (by cases h), fun h => absurd h.1 hap⟩, fun _ => rfl⟩
  · rw [if_neg (fun h => hn h.1)]
    refine ⟨⟨fun h => (by cases h), fun h => absurd (hpos.mpr h.2) hn⟩, fun _ => rfl⟩

theorem fillTransformedMatrix_raises_iff_witness :
    ((fillTransformedMatrix (Traits.strip 2 true false)
        (Backend.diagonal [3, -1 / 1000] true)
        (MatrixState.create (Traits.strip 2 true false))).2 = some Exn.negativeEigenvalues ↔
      ((Traits.strip 2 true false).approximate = false ∧
        ∃ values, values ∈ (Backend.diagonal [3, -1 / 1000] true).transformed ∧
          ∃ x, x ∈ values ∧ x ≤ -tolNegative)) ∧
    ((Traits.strip 2 true false).approximate = true →
      (fillTransformedMatrix (Traits.strip 2 true false)
        (Backend.diagonal [3, -1 / 1000] true)
        (MatrixState.create (Traits.strip 2 true false))).2 = none) :=
  fillTransformedMatrix_raises_iff (Traits.strip 2 true false)
    (Backend.diagonal [3, -1 / 1000] true)
    (MatrixState.create (Traits.strip 2 true false)) (by decide!) (by decide!)

/-- C2 (as stated) fails on the boundary: one process whose only symbol entry is exactly
`-1e-10`, `approximate` false. The audit counts the entry as large negative (`value > -1e-10`
is false) and the routine throws, although no entry is `< -1e-10`. -/
theorem fillTransformedMatrix_raises_at_boundary :
    ¬ ((fillTransformedMatrix (Traits.strip 1 true false)
          (Backend.diagonal [-1 / 10000000000] true)
          (MatrixState.create (Traits.strip 1 true false))).2
          = some Exn.negativeEigenvalues ↔
        ((Traits.strip 1 true false).approximate = false ∧
          ∃ values, values ∈ (Backend.diagonal [-1 / 10000000000] true).transformed ∧
            ∃ x, x ∈ values ∧ x < -(1 / 10000000000 : ℚ))) := by
  decide!

/-! ## Theorems: sampling -/

theorem fillTransformedMatrix_ok (t : Traits) (B : Backend) (m m1 : MatrixState)
    (h : fillTransformedMatrix t B m = (m1, none)) :
    m1.matrixValid = true ∧ m1.spareField = m.spareField ∧ m1.rank = m.rank ∧
      m1.cgIterations = m.cgIterations := by
  unfold fillTransformedMatrix at h
  by_cases hc : m.covariance ∉ knownCovariances
  · rw [if_pos hc] at h
    simp at h
  rw [if_neg hc] at h
  by_cases ha : t.anisotropy ∉ knownAnisotropies
  · rw [if_pos ha] at h
    simp at h
  rw [if_neg ha] at h
  by_cases hn : 0 < reducedNegative B.transformed ∧ t.approximate = false
  · rw [if_pos hn] at h
    simp at h
  · rw [if_neg hn] at h
    simp only [Prod.mk.injEq, and_true] at h
    subst h
    exact ⟨rfl, rfl, rfl, rfl⟩

theorem ensureFilled_of_valid (t : Traits) (B : Backend) (m : MatrixState)
    (h : m.matrixValid = true) : ensureFilled t B m = (m, none) := by
  unfold ensureFilled
  rw [if_neg (by simp [h])]

theorem ensureFilled_ok (t : Traits) (B : Backend) (m m1 : MatrixState)
    (h : ensureFilled t B m = (m1, none)) :
    m1.matrixValid = true ∧ m1.spareField = m.spareField ∧ m1.rank = m.rank ∧
      m1.cgIterations = m.cgIterations := by
  unfold ensureFilled at h
  split_ifs at h with hv
  · exact fillTransformedMatrix_ok t B m m1 h
  · simp only [Prod.mk.injEq, and_true] at h
    subst h
    exact ⟨by simpa using hv, rfl, rfl, rfl⟩

/-- C3 (as amended). On a field backend without a spare field, two successive calls
`generateField(s, out)` on the same operator (no spare field cached at the start) write
identical data vectors: once the first call has returned, the second returns as well and its
data vector is the same. -/
theorem generateField_successive_equal (t : Traits) (B : Backend) (seed : Nat)
    (m : MatrixState) (out1 out2 : StochasticPart)
    (hspare : B.hasSpareField = false) (hm : m.spareField = none)
    (h1 : (generateField t B seed m out1).2 = none) :
    (generateField t B seed (generateField t B seed m out1).1.1 out2).2 = none ∧
    (generateField t B seed (generateField t B seed m out1).1.1 out2).1.2.dataVector
      = (generateField t B seed m out1).1.2.dataVector := by
  rcases hq : ensureFilled t B m with ⟨m1, _ | e⟩
  · obtain ⟨hvalid, hsp, -, -⟩ := ensureFilled_ok t B m m1 hq
    have hsp1 : m1.spareField = none := by rw [hsp, hm]
    have hfirst : generateField t B seed m out1 =
        ((m1, { out1 with
          dataVector := B.extendedFieldToField (B.backwardTransform
            (sampleSpectrum t.dim B m1.symbol ((seed + m1.rank) % 2 ^ 32)
              (B.transposeIfNeeded B.allocate))) 0,
          evalValid := false }), none) := by
      simp only [generateField, hq, hsp1, hspare]
      rfl
    have hsecond : generateField t B seed m1 out2 =
        ((m1, { out2 with
          dataVector := B.extendedFieldToField (B.backwardTransform
            (sampleSpectrum t.dim B m1.symbol ((seed + m1.rank) % 2 ^ 32)
              (B.transposeIfNeeded B.allocate))) 0,
          evalValid := false }), none) := by
      simp only [generateField, ensureFilled_of_valid t B m1 hvalid, hsp1, hspare]
      rfl
    rw [hfirst]
    simp only []
    rw [hsecond]
    exact ⟨rfl, rfl⟩
  · exfalso
    have : generateField t B seed m out1 = ((m1, out1), some e) := by
      simp only [generateField, hq]
    rw [this] at h1
    cases h1

theorem generateField_successive_equal_witness :
    (generateField (Traits.strip 2 true false) (Backend.diagonal [4, 9] false) 7
      (generateField (Traits.strip 2 true false) (Backend.diagonal [4, 9] false) 7
        (MatrixState.create (Traits.strip 2 true false))
        (StochasticPart.strip 2 [0, 0])).1.1 (StochasticPart.strip 2 [5, 5])).2 = none ∧
    (generateField (Traits.strip 2 true false) (Backend.diagonal [4, 9] false) 7
      (generateField (Traits.strip 2 true false) (Backend.diagonal [4, 9] false) 7
        (MatrixState.create (Traits.strip 2 true false))
        (StochasticPart.strip 2 [0, 0])).1.1 (StochasticPart.strip 2 [5, 5])).1.2.dataVector
      = (generateField (Traits.strip 2 true false) (Backend.diagonal [4, 9] false) 7
        (MatrixState.create (Traits.strip 2 true false))
        (StochasticPart.strip 2 [0, 0])).1.2.dataVector :=
  generateField_successive_equal (Traits.strip 2 true false) (Backend.diagonal [4, 9] false) 7
    (MatrixState.create (Traits.strip 2 true false)) (StochasticPart.strip 2 [0, 0])
    (StochasticPart.strip 2 [5, 5]) (by decide!) (by decide!) (by decide!)

/-- C3 (as stated) fails on a backend with a spare field: on one process with the single
symbol entry 1 and seed 7, the first `generateField` writes the real part `[8]` and caches the
imaginary part, the second call with the same seed writes the cached `[9]`. -/
theorem generateField_second_call_differs :
    (generateField (Traits.strip 1 true false) (Backend.diagonal [1] true) 7
        (MatrixState.create (Traits.strip 1 true false)) (StochasticPart.strip 1 [0])).2
      = none ∧
    (generateField (Traits.strip 1 true false) (Backend.diagonal [1] true) 7
        (MatrixState.create (Traits.strip 1 true false))
        (StochasticPart.strip 1 [0])).1.2.dataVector = [8] ∧
    (generateField (Traits.strip 1 true false) (Backend.diagonal [1] true) 7
      (generateField (Traits.strip 1 true false) (Backend.diagonal [1] true) 7
        (MatrixState.create (Traits.strip 1 true false)) (StochasticPart.strip 1 [0])).1.1
      (StochasticPart.strip 1 [0])).2 = none ∧
    (generateField (Traits.strip 1 true false) (Backend.diagonal [1] true) 7
      (generateField (Traits.strip 1 true false) (Backend.diagonal [1] true) 7
        (MatrixState.create (Traits.strip 1 true false)) (StochasticPart.strip 1 [0])).1.1
      (StochasticPart.strip 1 [0])).1.2.dataVector = [9] := by
  decide!

/-! ## Theorems: the cached inverse applications of a random field -/

theorem multiplyExtended_ok (t : Traits) (B : Backend) (m m1 : MatrixState)
    (input out : List ℚ) (h : multiplyExtended t B m input = (m1, .ok out)) :
    m1.matrixValid = true := by
  unfold multiplyExtended at h
  rcases hq : ensureFilled t B m with ⟨m2, _ | e⟩
  · rw [hq] at h
    simp only [Prod.mk.injEq] at h
    rw [← h.1]
    exact (ensureFilled_ok t B m m2 hq).1
  · rw [hq] at h
    simp at h

theorem times_ok (t : Traits) (B : Backend) (m m1 : MatrixState)
    (input out : StochasticPart) (h : Matrix.times t B m input = (m1, .ok out)) :
    m1.matrixValid = true := by
  unfold Matrix.times at h
  rcases hq : multiplyExtended t B m input.dataVector with ⟨m2, e | data⟩
  · rw [hq] at h
    simp at h
  · rw [hq] at h
    simp only [Prod.mk.injEq] at h
    rw [← h.1]
    exact multiplyExtended_ok t B m m2 _ _ hq

theorem multiplyRoot_of_valid (t : Traits) (B : Backend) (m : MatrixState)
    (input : StochasticPart) (h : m.matrixValid = true) :
    ∃ out, Matrix.multiplyRoot t B m input = (m, .ok out) := by
  unfold Matrix.multiplyRoot multiplyRootExtended
  rw [ensureFilled_of_valid t B m h]
  exact ⟨_, rfl⟩

theorem timesMatrix_ok (B : Backend) (f : RandomField)
    (hcache : f.traits.cacheInvMatvec = true) (h : (f.timesMatrix B).2 = none) :
    (f.timesMatrix B).1.traits = f.traits ∧
    (f.timesMatrix B).1.invMatvecPart = f.stochasticPart ∧
    (f.timesMatrix B).1.invMatvecValid = true ∧
    (f.timesMatrix B).1.matrix.matrixValid = true := by
  unfold RandomField.timesMatrix at h ⊢
  simp only [hcache, if_true] at h ⊢
  by_cases hroot : f.traits.cacheInvRootMatvec = true
  · simp only [hroot, if_true] at h ⊢
    rcases hq : Matrix.multiplyRoot f.traits B f.matrix f.stochasticPart with ⟨m1, e | out⟩
    · simp [RandomField.afterMatrix, RandomField.andThen, hq] at h
    · simp only [RandomField.afterMatrix, RandomField.andThen, hq] at h ⊢
      rcases hq2 : Matrix.times f.traits B m1 f.stochasticPart with ⟨m2, e | out2⟩
      · simp [hq2] at h
      · simp only [hq2]
        refine ⟨?_, ?_, ?_, ?_⟩ <;>
          first | trivial | rfl | exact times_ok _ _ _ _ _ _ hq2
  · have hroot2 : f.traits.cacheInvRootMatvec = false := by simpa using hroot
    simp only [hroot2, Bool.false_eq_true, if_false, RandomField.afterMatrix,
      RandomField.andThen] at h ⊢
    rcases hq2 : Matrix.times f.traits B f.matrix f.stochasticPart with ⟨m2, e | out2⟩
    · simp [hq2] at h
    · simp only [hq2]
      refine ⟨?_, ?_, ?_, ?_⟩ <;>
        first | trivial | rfl | exact times_ok _ _ _ _ _ _ hq2

theorem timesInverseMatrix_cached (B : Backend) (g : RandomField)
    (hcache : g.traits.cacheInvMatvec = true) (hvalid : g.invMatvecValid = true)
    (hm : g.matrix.matrixValid = true) :
    (g.timesInverseMatrix B).2 = none ∧
    (g.timesInverseMatrix B).1.stochasticPart = g.invMatvecPart := by
  unfold RandomField.timesInverseMatrix
  rw [if_pos ⟨hcache, hvalid⟩]
  by_cases hroot : g.traits.cacheInvRootMatvec = true
  · obtain ⟨out, hq⟩ := multiplyRoot_of_valid g.traits B g.matrix g.invMatvecPart hm
    simp only [hroot, if_true, RandomField.afterMatrix, RandomField.andThen, hq]
    refine ⟨?_, ?_⟩ <;> trivial
  · have hroot2 : g.traits.cacheInvRootMatvec = false := by simpa using hroot
    simp only [hroot2, Bool.false_eq_true, if_false, RandomField.andThen]
    refine ⟨?_, ?_⟩ <;> trivial

/-- C4. With `cacheInvMatvec` switched on, `timesMatrix()` followed by `timesInverseMatrix()`
restores the data vector of the stochastic part exactly, for every covariance operator: once
`timesMatrix` has returned, `timesInverseMatrix` returns as well and the data vector is the one
from before the two calls. -/
theorem timesMatrix_timesInverseMatrix_restores (B : Backend) (f : RandomField)
    (hcache : f.traits.cacheInvMatvec = true) (h : (f.timesMatrix B).2 = none) :
    ((f.timesMatrix B).1.timesInverseMatrix B).2 = none ∧
    ((f.timesMatrix B).1.timesInverseMatrix B).1.stochasticPart.dataVector
      = f.stochasticPart.dataVector := by
  obtain ⟨htraits, hinv, hvalid, hm⟩ := timesMatrix_ok B f hcache h
  obtain ⟨hok, hsp⟩ := timesInverseMatrix_cached B (f.timesMatrix B).1
    (by rw [htraits]; exact hcache) hvalid hm
  exact ⟨hok, by rw [hsp, hinv]⟩

theorem timesMatrix_timesInverseMatrix_restores_witness :
    (((RandomField.strip [4, 9] [1, 2] [0, 0] [0, 0] true true false false).timesMatrix
      (Backend.diagonal [4, 9] true)).1.timesInverseMatrix (Backend.diagonal [4, 9] true)).2
      = none ∧
    (((RandomField.strip [4, 9] [1, 2] [0, 0] [0, 0] true true false false).timesMatrix
      (Backend.diagonal [4, 9] true)).1.timesInverseMatrix
        (Backend.diagonal [4, 9] true)).1.stochasticPart.dataVector
      = (RandomField.strip [4, 9] [1, 2] [0, 0] [0, 0] true true false
          false).stochasticPart.dataVector :=
  timesMatrix_timesInverseMatrix_restores (Backend.diagonal [4, 9] true)
    (RandomField.strip [4, 9] [1, 2] [0, 0] [0, 0] true true false false)
    (by decide!) (by decide!)

/-- C5: the code departs from the claim. `RandomField::generate(seed)` assigns neither
`invMatvecValid` nor `invRootMatvecValid`: both keep their value. On the single-cell field
after `zero()` (inverse cache valid, holding 0) `generate(0)` returns with the new sample `[1]`
in the stochastic part while `invMatvecValid` is still true and the cache still holds `[0]`,
which `timesInverseMatrix` then hands out as `C^{-1} x`. -/
theorem generate_keeps_validity_flags (B : Backend) (seed : Nat) (allowNonWorldComm : Bool)
    (f : RandomField) :
    ((f.generate B seed allowNonWorldComm).1.invMatvecValid = f.invMatvecValid ∧
      (f.generate B seed allowNonWorldComm).1.invRootMatvecValid = f.invRootMatvecValid) ∧
    ((RandomField.strip [1] [5] [3] [0] true false false false).zero.invMatvecValid = true ∧
      ((RandomField.strip [1] [5] [3] [0] true false false false).zero.generate
        (Backend.diagonal [1] true) 0 false).2 = none ∧
      ((RandomField.strip [1] [5] [3] [0] true false false false).zero.generate
        (Backend.diagonal [1] true) 0 false).1.stochasticPart.dataVector = [1] ∧
      ((RandomField.strip [1] [5] [3] [0] true false false false).zero.generate
        (Backend.diagonal [1] true) 0 false).1.invMatvecValid = true ∧
      ((RandomField.strip [1] [5] [3] [0] true false false false).zero.generate
        (Backend.diagonal [1] true) 0 false).1.invMatvecPart.dataVector = [0] ∧
      (((RandomField.strip [1] [5] [3] [0] true false false false).zero.generate
        (Backend.diagonal [1] true) 0 false).1.timesInverseMatrix
          (Backend.diagonal [1] true)).1.stochasticPart.dataVector = [0]) := by
  refine ⟨?_, by decide!⟩
  unfold RandomField.generate
  split_ifs
  · exact ⟨rfl, rfl⟩
  · exact ⟨rfl, rfl⟩

/-- C6: the code departs from the claim. With the diagonal operator `C = 4`
(`C^{1/2} = 2`, `C^{-1} = 1/4`, `C^{-1/2} = 1/2`) on one cell:

* `cacheInvMatvec` on, `cacheInvRootMatvec` off, `x = [1]`, valid cache `[1/4]`: the predicate
  holds, and after `timesMatrixRoot` the stochastic part is `[2]` while the cache is still
  flagged valid and still `[1/4]`, not `C^{-1} [2] = [1/2]`;
* both caches on and valid, `x = [1]`, caches `[1/4]` and `[1/2]`: the predicate holds, and
  after `timesInverseMatrix` the stochastic part is `[1/4]` while the root cache is flagged
  valid with `C^{1/2} [1/4] = [1/2]`, not `C^{-1/2} [1/4] = [1/8]`. -/
theorem cacheConsistent_not_preserved :
    ((RandomField.strip [4] [1] [1 / 4] [0] true false true false).cacheConsistent
        (scaleBy (1 / 4)) (scaleBy (1 / 2)) ∧
      ((RandomField.strip [4] [1] [1 / 4] [0] true false true false).timesMatrixRoot
        (Backend.diagonal [4] true)).2 = none ∧
      ((RandomField.strip [4] [1] [1 / 4] [0] true false true false).timesMatrixRoot
        (Backend.diagonal [4] true)).1.stochasticPart.dataVector = [2] ∧
      ¬ ((RandomField.strip [4] [1] [1 / 4] [0] true false true false).timesMatrixRoot
        (Backend.diagonal [4] true)).1.cacheConsistent (scaleBy (1 / 4)) (scaleBy (1 / 2))) ∧
    ((RandomField.strip [4] [1] [1 / 4] [1 / 2] true true true true).cacheConsistent
        (scaleBy (1 / 4)) (scaleBy (1 / 2)) ∧
      ((RandomField.strip [4] [1] [1 / 4] [1 / 2] true true true true).timesInverseMatrix
        (Backend.diagonal [4] true)).2 = none ∧
      ((RandomField.strip [4] [1] [1 / 4] [1 / 2] true true true true).timesInverseMatrix
        (Backend.diagonal [4] true)).1.stochasticPart.dataVector = [1 / 4] ∧
      ¬ ((RandomField.strip [4] [1] [1 / 4] [1 / 2] true true true true).timesInverseMatrix
        (Backend.diagonal [4] true)).1.cacheConsistent (scaleBy (1 / 4)) (scaleBy (1 / 2))) := by
  decide!

/-- C7: the code departs from the claim. `Matrix::update` does not assign `spareField`. On
one process, `generate(7)` on a single-cell field caches the spare sample `[9]`;
`refineMatrix()` then succeeds with `cells = [2,2]` and the cache still holds `[9]`; the next
`generate(7)` on the refined operator writes that one-entry sample of the old geometry. -/
theorem refineMatrix_keeps_spareField :
    ((RandomField.strip [1] [0] [0] [0] true false false false).generate
      (Backend.diagonal [1] true) 7 false).1.matrix.spareField = some [9] ∧
    (((RandomField.strip [1] [0] [0] [0] true false false false).generate
      (Backend.diagonal [1] true) 7 false).1.refineMatrix FFTW.serial).2 = none ∧
    (((RandomField.strip [1] [0] [0] [0] true false false false).generate
      (Backend.diagonal [1] true) 7 false).1.refineMatrix FFTW.serial).1.traits.cells
      = [2, 2] ∧
    (((RandomField.strip [1] [0] [0] [0] true false false false).generate
      (Backend.diagonal [1] true) 7 false).1.refineMatrix FFTW.serial).1.matrix.spareField
      = some [9] ∧
    ((((RandomField.strip [1] [0] [0] [0] true false false false).generate
      (Backend.diagonal [1] true) 7 false).1.refineMatrix FFTW.serial).1.generate
        (Backend.diagonal [1, 1, 1, 1] true) 7 false).2 = none ∧
    ((((RandomField.strip [1] [0] [0] [0] true false false false).generate
      (Backend.diagonal [1] true) 7 false).1.refineMatrix FFTW.serial).1.generate
        (Backend.diagonal [1, 1, 1, 1] true) 7 false).1.stochasticPart.dataVector = [9] := by
  decide!

/-! ## Theorems: coarsening the descriptor -/

theorem getD_set_eq {α : Type} (l : List α) (i j : Nat) (v d : α) :
    (l.set i v).getD j d = if j = i ∧ i < l.length then v else l.getD j d := by
  simp only [List.getD_eq_getElem?_getD, List.getElem?_set]
  by_cases h : i = j
  · subst h
    by_cases hl : i < l.length
    · simp [hl]
    · simp [hl, List.getElem?_eq_none (not_lt.mp hl)]
  · have h2 : ¬ j = i := fun e => h e.symm
    simp [h, h2]

theorem coarsenCells_odd : ∀ (remaining i : Nat) (cells : List Nat),
    (∃ j, i ≤ j ∧ j < i + remaining ∧ cells.getD j 0 % 2 ≠ 0) →
      (coarsenCells remaining i cells).2 = some Exn.oddCells := by
  intro remaining
  induction remaining with
  | zero =>
    rintro i cells ⟨j, h1, h2, -⟩
    omega
  | succ n ih =>
    rintro i cells ⟨j, h1, h2, hodd⟩
    by_cases hi : cells.getD i 0 % 2 ≠ 0
    · rw [coarsenCells, if_pos hi]
    · rw [coarsenCells, if_neg hi]
      apply ih
      have hne : j ≠ i := by
        rintro rfl
        exact hi hodd
      refine ⟨j, by omega, by omega, ?_⟩
      rw [getD_set_eq, if_neg (fun h => hne h.1)]
      exact hodd

theorem coarsenCells_even : ∀ (remaining i : Nat) (cells : List Nat),
    (∀ j, i ≤ j → j < i + remaining → cells.getD j 0 % 2 = 0) →
      (coarsenCells remaining i cells).2 = none ∧
      ∀ j, (coarsenCells remaining i cells).1.getD j 0 =
        if i ≤ j ∧ j < i + remaining then cells.getD j 0 / 2 else cells.getD j 0 := by
  intro remaining
  induction remaining with
  | zero =>
    intro i cells _
    refine ⟨rfl, fun j => ?_⟩
    rw [if_neg (by omega)]
    rfl
  | succ n ih =>
    intro i cells heven
    have hi : ¬ cells.getD i 0 % 2 ≠ 0 := by
      simpa using heven i (le_refl i) (by omega)
    rw [coarsenCells, if_neg hi]
    have hset : ∀ j, (cells.set i (cells.getD i 0 / 2)).getD j 0 =
        if j = i then cells.getD i 0 / 2 else cells.getD j 0 := by
      intro j
      rw [getD_set_eq]
      by_cases hji : j = i
      · subst hji
        by_cases hl : j < cells.length
        · rw [if_pos ⟨rfl, hl⟩, if_pos rfl]
        · rw [if_neg (fun h => hl h.2), if_pos rfl]
          have : cells.getD j 0 = 0 := by
            rw [List.getD_eq_getElem?_getD, List.getElem?_eq_none (not_lt.mp hl)]
            rfl
          rw [this]
      · rw [if_neg (fun h => hji h.1), if_neg hji]
    obtain ⟨hok, hget⟩ := ih (i + 1) (cells.set i (cells.getD i 0 / 2)) (by
      intro j h1 h2
      rw [hset, if_neg (by omega)]
      exact heven j (by omega) (by omega))
    refine ⟨hok, fun j => ?_⟩
    rw [hget j, hset j]
    by_cases hji : j = i
    · subst hji
      rw [if_neg (by omega), if_pos rfl, if_pos (by omega)]
    · rw [if_neg hji]
      by_cases hr : i + 1 ≤ j ∧ j < i + 1 + n
      · rw [if_pos hr, if_pos (by omega)]
      · rw [if_neg hr, if_neg (by omega)]

theorem coarsen_even (fftw : FFTW) (t : Traits) (hdim : 1 ≤ t.dim)
    (heven : ∀ i, i < t.dim → t.cells.getD i 0 % 2 = 0)
    (h1 : t.cells.getD (t.dim - 1) 0 / 2 % t.commSize = 0)
    (h2 : t.dim = 1 → t.cells.getD 0 0 / 2 % (t.commSize * t.commSize) = 0)
    (hfft : t.dim = 1 → fftw.consistent1d (t.embeddingFactor * (t.cells.getD 0 0 / 2))) :
    (t.coarsen fftw).2 = none ∧
    (∀ i, i < t.dim → (t.coarsen fftw).1.cells.getD i 0 = t.cells.getD i 0 / 2) ∧
    (t.coarsen fftw).1.level = decrementLevel t.level ∧
    (t.coarsen fftw).1.dim = t.dim ∧
    (t.coarsen fftw).1.commSize = t.commSize ∧
    (t.coarsen fftw).1.embeddingFactor = t.embeddingFactor := by
  obtain ⟨hok, hget⟩ := coarsenCells_even t.dim 0 t.cells (by
    intro j _ hj
    exact heven j (by omega))
  rcases hc : coarsenCells t.dim 0 t.cells with ⟨cells, _ | e⟩
  swap
  · rw [hc] at hok
    cases hok
  rw [hc] at hget
  have hcells : ∀ j, j < t.dim → cells.getD j 0 = t.cells.getD j 0 / 2 := by
    intro j hj
    have := hget j
    rw [if_pos ⟨Nat.zero_le j, by omega⟩] at this
    exact this
  have hq : (Traits.getFFTData fftw (Traits.updateMesh
      { t with cells := cells, level := decrementLevel t.level })).2 = none := by
    apply getFFTData_ok
    intro hd
    have hd1 : t.dim = 1 := hd
    show fftw.consistent1d ((tabulate t.dim fun i => t.embeddingFactor *
      cells.getD i 0).getD 0 0)
    rw [getD_tabulate _ _ _ _ (by omega), hcells 0 (by omega)]
    exact hfft hd1
  have hup := update_ok fftw { t with cells := cells, level := decrementLevel t.level }
    (by
      show cells.getD (t.dim - 1) 0 % t.commSize = 0
      rw [hcells _ (by omega)]
      exact h1)
    (by
      intro hd
      have hd1 : t.dim = 1 := hd
      show cells.getD 0 0 % (t.commSize * t.commSize) = 0
      rw [hcells 0 (by omega)]
      exact h2 hd1)
    hq
  have hco : t.coarsen fftw =
      Traits.update fftw { t with cells := cells, level := decrementLevel t.level } := by
    rw [Traits.coarsen, hc]
  rw [hco, hup]
  exact ⟨rfl, hcells, rfl, rfl, rfl, rfl⟩

theorem refine_fields (fftw : FFTW) (t : Traits) (hdiv : t.divisible)
    (hfft : t.dim = 1 → fftw.consistent1d (t.embeddingFactor * (t.cells.getD 0 0 * 2))) :
    (t.refine fftw).2 = none ∧
    (∀ i, i < t.dim → (t.refine fftw).1.cells.getD i 0 = t.cells.getD i 0 * 2) ∧
    (t.refine fftw).1.level = t.level + 1 ∧
    (t.refine fftw).1.dim = t.dim ∧
    (t.refine fftw).1.commSize = t.commSize ∧
    (t.refine fftw).1.embeddingFactor = t.embeddingFactor := by
  have hpre := refine_pre_divisible t hdiv
  have hq : (Traits.getFFTData fftw (Traits.updateMesh { t with
      cells := tabulate t.dim (fun i => t.cells.getD i 0 * 2)
      level := t.level + 1 })).2 = none := by
    apply getFFTData_ok
    intro h1
    have h1t : t.dim = 1 := h1
    show fftw.consistent1d ((tabulate t.dim fun i => t.embeddingFactor *
      (tabulate t.dim fun i => t.cells.getD i 0 * 2).getD i 0).getD 0 0)
    rw [getD_tabulate _ _ _ _ (by omega), getD_tabulate _ _ _ _ (by omega)]
    exact hfft h1t
  have hup := update_ok fftw _ hpre.1 hpre.2 hq
  rw [Traits.refine, hup]
  refine ⟨rfl, ?_, rfl, rfl, rfl, rfl⟩
  intro i hi
  show (tabulate t.dim fun i => t.cells.getD i 0 * 2).getD i 0 = t.cells.getD i 0 * 2
  rw [getD_tabulate _ _ _ _ hi]

theorem decrementLevel_spec (level : Nat) :
    (decrementLevel level + 1) % 2 ^ 32 = level % 2 ^ 32 ∧
    (1 ≤ level → decrementLevel level = level - 1) ∧
    decrementLevel (level + 1) = level := by
  unfold decrementLevel
  refine ⟨?_, ?_, ?_⟩
  · split_ifs with h
    · subst h
      norm_num
    · have : level - 1 + 1 = level := by omega
      rw [this]
  · intro h
    rw [if_neg (by omega)]
  · rw [if_neg (by omega)]
    rfl

theorem list_length_one {α : Type} (l : List α) (h : l.length = 1) : ∃ a, l = [a] := by
  match l, h with
  | [a], _ => exact ⟨a, rfl⟩

theorem list_length_two {α : Type} (l : List α) (h : l.length = 2) : ∃ a b, l = [a, b] := by
  match l, h with
  | [a, b], _ => exact ⟨a, b, rfl⟩

theorem list_length_three {α : Type} (l : List α) (h : l.length = 3) :
    ∃ a b c, l = [a, b, c] := by
  match l, h with
  | [a, b, c], _ => exact ⟨a, b, c, rfl⟩

theorem indicesToIndex_two (i0 i1 b0 b1 : Nat) :
    indicesToIndex 2 [i0, i1] [b0, b1] = i0 + b0 * i1 := by
  simp [indicesToIndex, indicesToIndexFrom]

theorem indicesToIndex_three (i0 i1 i2 b0 b1 b2 : Nat) :
    indicesToIndex 3 [i0, i1, i2] [b0, b1, b2] = i0 + b0 * (i1 + b1 * i2) := by
  simp [indicesToIndex, indicesToIndexFrom]

theorem indexToIndices_two (k b0 b1 : Nat) :
    indexToIndices 2 k [b0, b1] = [k % b0, k / b0 % b1] := by
  simp [indexToIndices, indexToIndicesFrom, List.replicate]

theorem indexToIndices_three (k b0 b1 b2 : Nat) :
    indexToIndices 3 k [b0, b1, b2] = [k % b0, k / b0 % b1, k / b0 / b1 % b2] := by
  simp [indexToIndices, indexToIndicesFrom, List.replicate]

theorem mixed_radix_mod (i b x : Nat) (h : i < b) : (i + b * x) % b = i := by
  rw [Nat.add_mul_mod_self_left, Nat.mod_eq_of_lt h]

theorem mixed_radix_div (i b x : Nat) (h : i < b) : (i + b * x) / b = x := by
  rw [Nat.add_mul_div_left _ _ (by omega : 0 < b), Nat.div_eq_of_lt h, Nat.zero_add]

theorem mixed_radix_lt (i b x n : Nat) (h : i < b) (hx : x < n) : i + b * x < b * n := by
  have : b * (x + 1) ≤ b * n := Nat.mul_le_mul_left b hx
  rw [Nat.mul_add, Nat.mul_one] at this
  omega

theorem mixed_radix_back (k b : Nat) : k % b + b * (k / b) = k := Nat.mod_add_div k b
theorem indicesToIndex_one (i0 b0 : Nat) : indicesToIndex 1 [i0] [b0] = i0 := by
  simp [indicesToIndex, indicesToIndexFrom]

theorem indexToIndices_one (k b0 : Nat) : indexToIndices 1 k [b0] = [k % b0] := by
  simp [indexToIndices, indexToIndicesFrom, List.replicate]

/-- C12. For `dim ∈ {1,2,3}` and a bound with positive entries, `indicesToIndex(indices, bound)`
is `indices[0] + bound[0] * (indices[1] + bound[1] * indices[2])` (entries beyond `dim` read
as 0); on tuples with `indices[i] < bound[i]` it lands in `[0, prod(bound))` and
`indexToIndices` recovers the tuple; for `k < prod(bound)` the tuple `indexToIndices(k, bound)`
is within the bound and `indicesToIndex` maps it back to `k`. -/
theorem indicesToIndex_indexToIndices_inverse (dim : Nat) (bound : List Nat)
    (hdim : dim = 1 ∨ dim = 2 ∨ dim = 3) (hb : bound.length = dim)
    (hpos : ∀ i, i < dim → 0 < bound.getD i 0) :
    (∀ indices : List Nat, indices.length = dim →
      indicesToIndex dim indices bound
        = indices.getD 0 0 + bound.getD 0 0 * (indices.getD 1 0 + bound.getD 1 0 * indices.getD 2 0) ∧
      ((∀ i, i < dim → indices.getD i 0 < bound.getD i 0) →
        indicesToIndex dim indices bound < bound.prod ∧
        indexToIndices dim (indicesToIndex dim indices bound) bound = indices)) ∧
    (∀ k, k < bound.prod →
      (indexToIndices dim k bound).length = dim ∧
      (∀ i, i < dim → (indexToIndices dim k bound).getD i 0 < bound.getD i 0) ∧
      indicesToIndex dim (indexToIndices dim k bound) bound = k) := by
  rcases hdim with rfl | rfl | rfl
  · obtain ⟨b0, rfl⟩ := list_length_one bound hb
    have h0 : 0 < b0 := hpos 0 (by omega)
    refine ⟨?_, ?_⟩
    · intro indices hi
      obtain ⟨i0, rfl⟩ := list_length_one indices hi
      rw [indicesToIndex_one]
      refine ⟨by simp, fun hlt => ?_⟩
      have hl0 : i0 < b0 := hlt 0 (by omega)
      rw [indexToIndices_one, Nat.mod_eq_of_lt hl0]
      exact ⟨by simpa using hl0, rfl⟩
    · intro k hk
      have hk0 : k < b0 := by simpa using hk
      rw [indexToIndices_one, indicesToIndex_one, Nat.mod_eq_of_lt hk0]
      refine ⟨rfl, ?_, rfl⟩
      intro i hi
      have : i = 0 := by omega
      subst this
      simpa using hk0
  · obtain ⟨b0, b1, rfl⟩ := list_length_two bound hb
    have h0 : 0 < b0 := hpos 0 (by omega)
    have h1 : 0 < b1 := hpos 1 (by omega)
    refine ⟨?_, ?_⟩
    · intro indices hi
      obtain ⟨i0, i1, rfl⟩ := list_length_two indices hi
      rw [indicesToIndex_two]
      refine ⟨by simp, fun hlt => ?_⟩
      have hl0 : i0 < b0 := hlt 0 (by omega)
      have hl1 : i1 < b1 := hlt 1 (by omega)
      rw [indexToIndices_two, mixed_radix_mod _ _ _ hl0, mixed_radix_div _ _ _ hl0,
        Nat.mod_eq_of_lt hl1]
      refine ⟨?_, rfl⟩
      have := mixed_radix_lt i0 b0 i1 b1 hl0 hl1
      simpa using this
    · intro k hk
      have hk0 : k < b0 * b1 := by simpa using hk
      have hq : k / b0 < b1 := Nat.div_lt_of_lt_mul hk0
      rw [indexToIndices_two, indicesToIndex_two, Nat.mod_eq_of_lt hq, mixed_radix_back]
      refine ⟨rfl, ?_, rfl⟩
      intro i hi
      rcases (by omega : i = 0 ∨ i = 1) with rfl | rfl
      · simpa using Nat.mod_lt k h0
      · simpa using hq
  · obtain ⟨b0, b1, b2, rfl⟩ := list_length_three bound hb
    have h0 : 0 < b0 := hpos 0 (by omega)
    have h1 : 0 < b1 := hpos 1 (by omega)
    have h2 : 0 < b2 := hpos 2 (by omega)
    refine ⟨?_, ?_⟩
    · intro indices hi
      obtain ⟨i0, i1, i2, rfl⟩ := list_length_three indices hi
      rw [indicesToIndex_three]
      refine ⟨by simp, fun hlt => ?_⟩
      have hl0 : i0 < b0 := hlt 0 (by omega)
      have hl1 : i1 < b1 := hlt 1 (by omega)
      have hl2 : i2 < b2 := hlt 2 (by omega)
      rw [indexToIndices_three, mixed_radix_mod _ _ _ hl0, mixed_radix_div _ _ _ hl0,
        mixed_radix_mod _ _ _ hl1, mixed_radix_div _ _ _ hl1, Nat.mod_eq_of_lt hl2]
      refine ⟨?_, rfl⟩
      have hin := mixed_radix_lt i1 b1 i2 b2 hl1 hl2
      have := mixed_radix_lt i0 b0 (i1 + b1 * i2) (b1 * b2) hl0 hin
      simpa [Nat.mul_assoc] using this
    · intro k hk
      have hk0 : k < b0 * (b1 * b2) := by simpa [Nat.mul_assoc] using hk
      have hq : k / b0 < b1 * b2 := Nat.div_lt_of_lt_mul hk0
      have hq2 : k / b0 / b1 < b2 := Nat.div_lt_of_lt_mul hq
      rw [indexToIndices_three, indicesToIndex_three, Nat.mod_eq_of_lt hq2, mixed_radix_back,
        mixed_radix_back]
      refine ⟨rfl, ?_, rfl⟩
      intro i hi
      rcases (by omega : i = 0 ∨ i = 1 ∨ i = 2) with rfl | rfl | rfl
      · simpa using Nat.mod_lt k h0
      · simpa using Nat.mod_lt (k / b0) h1
      · simpa using hq2

theorem indicesToIndex_indexToIndices_inverse_witness :
    (∀ indices : List Nat, indices.length = 3 →
      indicesToIndex 3 indices [2, 3, 4]
        = indices.getD 0 0 + ([2, 3, 4] : List Nat).getD 0 0 *
          (indices.getD 1 0 + ([2, 3, 4] : List Nat).getD 1 0 * indices.getD 2 0) ∧
      ((∀ i, i < 3 → indices.getD i 0 < ([2, 3, 4] : List Nat).getD i 0) →
        indicesToIndex 3 indices [2, 3, 4] < ([2, 3, 4] : List Nat).prod ∧
        indexToIndices 3 (indicesToIndex 3 indices [2, 3, 4]) [2, 3, 4] = indices)) ∧
    (∀ k, k < ([2, 3, 4] : List Nat).prod →
      (indexToIndices 3 k [2, 3, 4]).length = 3 ∧
      (∀ i, i < 3 → (indexToIndices 3 k [2, 3, 4]).getD i 0
        < ([2, 3, 4] : List Nat).getD i 0) ∧
      indicesToIndex 3 (indexToIndices 3 k [2, 3, 4]) [2, 3, 4] = k) :=
  indicesToIndex_indexToIndices_inverse 3 [2, 3, 4] (by decide) (by decide) (by decide)

/-! ## Theorems: coordinates and cell indices -/

theorem tabulate_eq_of_getD {α : Type} (dim : Nat) (f : Nat → α) (l : List α) (d : α)
    (hl : l.length = dim) (h : ∀ i, i < dim → f i = l.getD i d) : tabulate dim f = l := by
  apply List.ext_getElem
  · rw [length_tabulate, hl]
  · intro i h1 h2
    have hi : i < dim := by rw [length_tabulate] at h1; exact h1
    have h3 := h i hi
    rw [List.getD_eq_getElem?_getD, List.getElem?_eq_getElem h2, Option.getD_some] at h3
    rw [← h3]
    simp [tabulate]

theorem cell_centre_floor (g c : Nat) (e : ℚ) (he : 0 < e) (hg : g < c) :
    toUnsigned ((((g : Nat) : ℚ) + 1 / 2) * e / (c : ℚ) * ((c : ℚ) + 1 / 1000000) / e) = g := by
  have hc : (0 : ℚ) < c := by exact_mod_cast (by omega : 0 < c)
  have hgc : (g : ℚ) + 1 ≤ c := by exact_mod_cast hg
  have hg0 : (0 : ℚ) ≤ g := by exact_mod_cast Nat.zero_le g
  have hx : ((g : ℚ) + 1 / 2) * e / (c : ℚ) * ((c : ℚ) + 1 / 1000000) / e
      = ((g : ℚ) + 1 / 2) * ((c : ℚ) + 1 / 1000000) / c := by
    field_simp
    ring
  unfold toUnsigned
  rw [hx, Nat.floor_eq_iff (by positivity)]
  constructor
  · rw [le_div_iff₀ hc]
    nlinarith
  · rw [div_lt_iff₀ hc]
    nlinarith

/-- C13. In exact arithmetic, for a descriptor with `extensions[i] > 0` and `cells[i] > 0`,
every offset and every local index tuple with `indices[i] + offset[i] < cells[i]`:
`coordsToIndices(indicesToCoords(indices, offset), offset) = indices`. -/
theorem coordsToIndices_indicesToCoords (t : Traits) (indices offset : List Nat)
    (hlen : indices.length = t.dim)
    (hext : ∀ i, i < t.dim → 0 < t.extensions.getD i 0)
    (hcells : ∀ i, i < t.dim → 0 < t.cells.getD i 0)
    (hin : ∀ i, i < t.dim → indices.getD i 0 + offset.getD i 0 < t.cells.getD i 0) :
    t.coordsToIndices (t.indicesToCoords indices offset) offset = indices := by
  have _ := hcells
  unfold Traits.coordsToIndices
  apply tabulate_eq_of_getD _ _ _ 0 hlen
  intro i hi
  unfold Traits.indicesToCoords
  rw [getD_tabulate _ _ _ _ hi, cell_centre_floor _ _ _ (hext i hi) (hin i hi)]
  unfold unsignedSub
  rw [if_pos (by omega)]
  omega

theorem coordsToIndices_indicesToCoords_witness :
    (Traits.initial 2 0 1 2 [3, 1 / 2] [4, 6]).coordsToIndices
      ((Traits.initial 2 0 1 2 [3, 1 / 2] [4, 6]).indicesToCoords [1, 2] [2, 3]) [2, 3]
      = [1, 2] :=
  coordsToIndices_indicesToCoords (Traits.initial 2 0 1 2 [3, 1 / 2] [4, 6]) [1, 2] [2, 3]
    (by decide) (by decide!) (by decide) (by decide)

/-! ## Theorems: vector space operations of the stochastic field -/

theorem updateEach_spec (g : Nat → ℚ → ℚ) (v : List ℚ) (n : Nat) :
    (updateEach n g v).length = v.length ∧
    ∀ i, (updateEach n g v).getD i 0 =
      if i < n ∧ i < v.length then g i (v.getD i 0) else v.getD i 0 := by
  unfold updateEach
  induction n with
  | zero => simp
  | succ n ih =>
    obtain ⟨hlen, hget⟩ := ih
    rw [List.range_succ, List.foldl_append]
    simp only [List.foldl_cons, List.foldl_nil]
    generalize (List.range n).foldl (fun w i => w.set i (g i (w.getD i 0))) v = w at hlen hget
    refine ⟨by rw [List.length_set, hlen], fun i => ?_⟩
    rw [getD_set_eq, hlen]
    by_cases hin : i = n
    · subst hin
      by_cases hl : i < v.length
      · rw [if_pos ⟨rfl, hl⟩, if_pos ⟨by omega, hl⟩, hget i, if_neg (by omega)]
      · rw [if_neg (fun h => hl h.2), if_neg (fun h => hl h.2), hget i, if_neg (by omega)]
    · rw [if_neg (fun h => hin h.1), hget i]
      by_cases hc : i < n ∧ i < v.length
      · rw [if_pos hc, if_pos ⟨by omega, hc.2⟩]
      · rw [if_neg hc, if_neg (by omega)]

theorem updateEach_getD (g : Nat → ℚ → ℚ) (v : List ℚ) (n i : Nat) (hi : i < n)
    (hv : v.length = n) : (updateEach n g v).getD i 0 = g i (v.getD i 0) := by
  rw [(updateEach_spec g v n).2 i, if_pos ⟨hi, by omega⟩]

/-- C16 (as amended). For every field state and every argument, `operator+=`, `operator-=`,
`operator*=` and `axpy` leave `evalValid` false and `evalVector` and the overlap panels
unchanged, and change `dataVector` elementwise to `x + y`, `x - y`, `alpha * x` and
`x + alpha * y`; the inner product `operator*` leaves the whole field, `evalValid` included,
as it is. -/
theorem vector_operations_effect (s other : StochasticPart) (alpha rest : ℚ)
    (hsize : s.dataVector.length = s.localDomainSize) :
    ((s.addAssign other).evalValid = false ∧ (s.addAssign other).evalVector = s.evalVector ∧
      (s.addAssign other).overlap = s.overlap ∧
      ∀ i, i < s.localDomainSize → (s.addAssign other).dataVector.getD i 0
        = s.dataVector.getD i 0 + other.dataVector.getD i 0) ∧
    ((s.subAssign other).evalValid = false ∧ (s.subAssign other).evalVector = s.evalVector ∧
      (s.subAssign other).overlap = s.overlap ∧
      ∀ i, i < s.localDomainSize → (s.subAssign other).dataVector.getD i 0
        = s.dataVector.getD i 0 - other.dataVector.getD i 0) ∧
    ((s.scale alpha).evalValid = false ∧ (s.scale alpha).evalVector = s.evalVector ∧
      (s.scale alpha).overlap = s.overlap ∧
      ∀ i, i < s.localDomainSize → (s.scale alpha).dataVector.getD i 0
        = alpha * s.dataVector.getD i 0) ∧
    ((s.axpy other alpha).evalValid = false ∧ (s.axpy other alpha).evalVector = s.evalVector ∧
      (s.axpy other alpha).overlap = s.overlap ∧
      ∀ i, i < s.localDomainSize → (s.axpy other alpha).dataVector.getD i 0
        = s.dataVector.getD i 0 + alpha * other.dataVector.getD i 0) ∧
    (s.scalarProduct other rest).1 = s := by
  refine ⟨⟨rfl, rfl, rfl, ?_⟩, ⟨rfl, rfl, rfl, ?_⟩, ⟨rfl, rfl, rfl, ?_⟩, ⟨rfl, rfl, rfl, ?_⟩,
    rfl⟩
  · intro i hi
    exact updateEach_getD (fun i x => x + other.dataVector.getD i 0) _ _ _ hi hsize
  · intro i hi
    exact updateEach_getD (fun i x => x - other.dataVector.getD i 0) _ _ _ hi hsize
  · intro i hi
    show (updateEach s.localDomainSize (fun _ x => x * alpha) s.dataVector).getD i 0 = _
    rw [updateEach_getD _ _ _ _ hi hsize, mul_comm]
  · intro i hi
    show (updateEach s.localDomainSize
      (fun i x => x + other.dataVector.getD i 0 * alpha) s.dataVector).getD i 0 = _
    rw [updateEach_getD _ _ _ _ hi hsize, mul_comm]

theorem vector_operations_effect_witness :
    (((StochasticPart.strip 2 [1, 2]).addAssign (StochasticPart.strip 2 [3, 5])).evalValid
        = false ∧
      ((StochasticPart.strip 2 [1, 2]).addAssign (StochasticPart.strip 2 [3, 5])).evalVector
        = (StochasticPart.strip 2 [1, 2]).evalVector ∧
      ((StochasticPart.strip 2 [1, 2]).addAssign (StochasticPart.strip 2 [3, 5])).overlap
        = (StochasticPart.strip 2 [1, 2]).overlap ∧
      ∀ i, i < (StochasticPart.strip 2 [1, 2]).localDomainSize →
        ((StochasticPart.strip 2 [1, 2]).addAssign
          (StochasticPart.strip 2 [3, 5])).dataVector.getD i 0
          = (StochasticPart.strip 2 [1, 2]).dataVector.getD i 0
            + (StochasticPart.strip 2 [3, 5]).dataVector.getD i 0) ∧
    ((StochasticPart.strip 2 [1, 2]).scalarProduct (StochasticPart.strip 2 [3, 5]) 0).1
      = StochasticPart.strip 2 [1, 2] :=
  ⟨(vector_operations_effect (StochasticPart.strip 2 [1, 2]) (StochasticPart.strip 2 [3, 5])
      7 0 (by decide)).1,
    (vector_operations_effect (StochasticPart.strip 2 [1, 2]) (StochasticPart.strip 2 [3, 5])
      7 0 (by decide)).2.2.2.2⟩

/-- C16 (as stated) fails for the inner product: on a field whose eval view is valid,
`operator*` returns `1 * 3 + 2 * 5 = 13` and `evalValid` is still true afterwards. -/
theorem scalarProduct_keeps_evalValid :
    (({ StochasticPart.strip 2 [1, 2] with evalValid := true }).scalarProduct
      (StochasticPart.strip 2 [3, 5]) 0).2 = 13 ∧
    ¬ (({ StochasticPart.strip 2 [1, 2] with evalValid := true }).scalarProduct
      (StochasticPart.strip 2 [3, 5]) 0).1.evalValid = false := by
  decide!

/-! ## Theorems: the communicator guard -/

theorem fillTransformedMatrix_error (t : Traits) (B : Backend) (m : MatrixState) (e : Exn)
    (h : (fillTransformedMatrix t B m).2 = some e) : e ≠ Exn.nonWorldComm := by
  unfold fillTransformedMatrix at h
  by_cases hc : m.covariance ∉ knownCovariances
  · rw [if_pos hc] at h
    simp only [Option.some.injEq] at h
    rw [← h]
    decide
  rw [if_neg hc] at h
  by_cases ha : t.anisotropy ∉ knownAnisotropies
  · rw [if_pos ha] at h
    simp only [Option.some.injEq] at h
    rw [← h]
    decide
  rw [if_neg ha] at h
  by_cases hn : 0 < reducedNegative B.transformed ∧ t.approximate = false
  · rw [if_pos hn] at h
    simp only [Option.some.injEq] at h
    rw [← h]
    decide
  · rw [if_neg hn] at h
    cases h

theorem ensureFilled_error (t : Traits) (B : Backend) (m : MatrixState) (e : Exn)
    (h : (ensureFilled t B m).2 = some e) : e ≠ Exn.nonWorldComm := by
  unfold ensureFilled at h
  split_ifs at h
  exact fillTransformedMatrix_error t B m e h

theorem generateField_error (t : Traits) (B : Backend) (seed : Nat) (m : MatrixState)
    (sp : StochasticPart) (e : Exn) (h : (generateField t B seed m sp).2 = some e) :
    e ≠ Exn.nonWorldComm ∧ (generateField t B seed m sp).1.2 = sp := by
  rcases hq : ensureFilled t B m with ⟨m1, _ | e1⟩
  · exfalso
    unfold generateField at h
    rw [hq] at h
    simp only [] at h
    cases hs : m1.spareField with
    | none =>
      rw [hs] at h
      simp only [] at h
      split_ifs at h
    | some spare =>
      rw [hs] at h
      cases h
  · have hres : generateField t B seed m sp = ((m1, sp), some e1) := by
      simp only [generateField, hq]
    rw [hres] at h ⊢
    simp only [Option.some.injEq] at h
    subst h
    exact ⟨ensureFilled_error t B m e1 (by rw [hq]), rfl⟩

/-- C15 (as amended). `generate(seed, allowNonWorldComm)` and
`generateUncorrelated(seed, allowNonWorldComm)` throw the communicator error exactly when the
communicator is not the world communicator and `allowNonWorldComm` is false, and then the
field is unchanged. `generateUncorrelated` throws nothing else. `generate` may also throw the
errors of the symbol fill; whenever it throws, the stochastic part, the caches and the
validity flags are unchanged. -/
theorem generate_communicator_guard (B : Backend) (normal : Nat → Nat → ℚ) (seed : Nat)
    (allowNonWorldComm : Bool) (f : RandomField) :
    ((f.generate B seed allowNonWorldComm).2 = some Exn.nonWorldComm ↔
      (f.traits.worldComm = false ∧ allowNonWorldComm = false)) ∧
    ((f.generateUncorrelated normal seed allowNonWorldComm).2 ≠ none ↔
      (f.traits.worldComm = false ∧ allowNonWorldComm = false)) ∧
    ((f.generateUncorrelated normal seed allowNonWorldComm).2 ≠ none →
      (f.generateUncorrelated normal seed allowNonWorldComm).2 = some Exn.nonWorldComm ∧
      (f.generateUncorrelated normal seed allowNonWorldComm).1 = f) ∧
    ((f.traits.worldComm = false ∧ allowNonWorldComm = false) →
      (f.generate B seed allowNonWorldComm).1 = f) ∧
    ((f.generate B seed allowNonWorldComm).2 ≠ none →
      (f.generate B seed allowNonWorldComm).1.stochasticPart = f.stochasticPart ∧
      (f.generate B seed allowNonWorldComm).1.invMatvecPart = f.invMatvecPart ∧
      (f.generate B seed allowNonWorldComm).1.invRootMatvecPart = f.invRootMatvecPart ∧
      (f.generate B seed allowNonWorldComm).1.invMatvecValid = f.invMatvecValid ∧
      (f.generate B seed allowNonWorldComm).1.invRootMatvecValid = f.invRootMatvecValid) := by
  by_cases hg : f.traits.worldComm = false ∧ allowNonWorldComm = false
  · have h1 : f.generate B seed allowNonWorldComm = (f, some Exn.nonWorldComm) := by
      rw [RandomField.generate, if_pos hg]
    have h2 : f.generateUncorrelated normal seed allowNonWorldComm
        = (f, some Exn.nonWorldComm) := by
      rw [RandomField.generateUncorrelated, if_pos hg]
    rw [h1, h2]
    refine ⟨⟨fun _ => hg, fun _ => rfl⟩, ⟨fun _ => hg, fun _ => by simp⟩,
      fun _ => ⟨rfl, rfl⟩, fun _ => rfl, fun _ => ⟨rfl, rfl, rfl, rfl, rfl⟩⟩
  · have h2 : f.generateUncorrelated normal seed allowNonWorldComm
        = ({ f with stochasticPart :=
            generateUncorrelatedField normal seed f.matrix f.stochasticPart }, none) := by
      rw [RandomField.generateUncorrelated, if_neg hg]
    have h1 : f.generate B seed allowNonWorldComm =
        ({ f with matrix := (generateField f.traits B seed f.matrix f.stochasticPart).1.1,
                  stochasticPart :=
                    (generateField f.traits B seed f.matrix f.stochasticPart).1.2 },
          (generateField f.traits B seed f.matrix f.stochasticPart).2) := by
      rw [RandomField.generate, if_neg hg]
    rw [h2]
    refine ⟨⟨fun h => ?_, fun h => absurd h hg⟩, ⟨fun h => absurd rfl h, fun h => absurd h hg⟩,
      fun h => absurd rfl h, fun h => absurd h hg, fun h => ?_⟩
    · exfalso
      rw [h1] at h
      exact (generateField_error _ _ _ _ _ _ h).1 rfl
    · rw [h1] at h ⊢
      simp only [] at h ⊢
      cases he : (generateField f.traits B seed f.matrix f.stochasticPart).2 with
      | none => exact absurd he h
      | some e =>
        refine ⟨(generateField_error _ _ _ _ _ _ he).2, ?_, ?_, ?_, ?_⟩ <;>
          trivial

/-- C15 (as stated) fails for `generate`: on the world communicator, with a symbol that is not
yet filled and has the entry `-1`, `generate(0)` throws the negative-eigenvalue error. -/
theorem generate_raises_on_world_communicator :
    ¬ ((({ RandomField.strip [1] [0] [0] [0] true false false false with
          matrix := MatrixState.create (Traits.strip 1 true false) }).generate
          (Backend.diagonal [-1] true) 0 false).2 ≠ none ↔
        ((RandomField.strip [1] [0] [0] [0] true false false false).traits.worldComm = false ∧
          false = false)) := by
  decide!

/-! ## Theorems: arithmetic of field lists -/

theorem forActive_error (op : RandomField → RandomField → RandomField)
    (other : RandomFieldList) : ∀ (types : List String) (l : RandomFieldList),
    ((RandomFieldList.forActive op other types l).2 = some Exn.listMismatch ↔
      ∃ type, type ∈ types ∧ other.find type = none) ∧
    ((RandomFieldList.forActive op other types l).2 = none ↔
      ¬ ∃ type, type ∈ types ∧ other.find type = none) := by
  intro types
  induction types with
  | nil =>
    intro l
    simp [RandomFieldList.forActive]
  | cons type rest ih =>
    intro l
    cases hg : other.find type with
    | none =>
      have hres : RandomFieldList.forActive op other (type :: rest) l
          = (l, some Exn.listMismatch) := by
        rw [RandomFieldList.forActive, hg]
      rw [hres]
      have hex : ∃ ty, ty ∈ type :: rest ∧ other.find ty = none :=
        ⟨type, List.mem_cons_self _ _, hg⟩
      exact ⟨⟨fun _ => hex, fun _ => rfl⟩, ⟨fun h => (by cases h), fun h => absurd hex h⟩⟩
    | some g =>
      have hiff : (∃ ty, ty ∈ type :: rest ∧ other.find ty = none) ↔
          ∃ ty, ty ∈ rest ∧ other.find ty = none := by
        constructor
        · rintro ⟨ty, hty, hnone⟩
          rcases List.mem_cons.mp hty with rfl | hin
          · rw [hg] at hnone
            cases hnone
          · exact ⟨ty, hin, hnone⟩
        · rintro ⟨ty, hty, hnone⟩
          exact ⟨ty, List.mem_cons_of_mem _ hty, hnone⟩
      cases hf : l.find type with
      | none =>
        have hres : RandomFieldList.forActive op other (type :: rest) l
            = RandomFieldList.forActive op other rest l := by
          rw [RandomFieldList.forActive, hg, hf]
        rw [hres, hiff]
        exact ih l
      | some f =>
        have hres : RandomFieldList.forActive op other (type :: rest) l
            = RandomFieldList.forActive op other rest (l.store type (op f g)) := by
          rw [RandomFieldList.forActive, hg, hf]
        rw [hres, hiff]
        exact ih _

theorem scalarProductFrom_error (l other : RandomFieldList) :
    ∀ (types : List String) (output : ℚ),
    ((RandomFieldList.scalarProductFrom l other types output).toOption = none ↔
      ∃ type, type ∈ types ∧ other.find type = none) ∧
    (∀ e, RandomFieldList.scalarProductFrom l other types output = .error e →
      e = Exn.listMismatch) := by
  intro types
  induction types with
  | nil =>
    intro output
    simp [RandomFieldList.scalarProductFrom, Except.toOption]
  | cons type rest ih =>
    intro output
    cases hg : other.find type with
    | none =>
      have hres : RandomFieldList.scalarProductFrom l other (type :: rest) output
          = .error Exn.listMismatch := by
        rw [RandomFieldList.scalarProductFrom, hg]
      rw [hres]
      refine ⟨⟨fun _ => ⟨type, List.mem_cons_self _ _, hg⟩, fun _ => rfl⟩, ?_⟩
      intro e he
      cases he
      rfl
    | some g =>
      have hiff : (∃ ty, ty ∈ type :: rest ∧ other.find ty = none) ↔
          ∃ ty, ty ∈ rest ∧ other.find ty = none := by
        constructor
        · rintro ⟨ty, hty, hnone⟩
          rcases List.mem_cons.mp hty with rfl | hin
          · rw [hg] at hnone
            cases hnone
          · exact ⟨ty, hin, hnone⟩
        · rintro ⟨ty, hty, hnone⟩
          exact ⟨ty, List.mem_cons_of_mem _ hty, hnone⟩
      cases hf : l.find type with
      | none =>
        have hres : RandomFieldList.scalarProductFrom l other (type :: rest) output
            = RandomFieldList.scalarProductFrom l other rest output := by
          rw [RandomFieldList.scalarProductFrom, hg, hf]
        rw [hres, hiff]
        exact ih output
      | some f =>
        have hres : RandomFieldList.scalarProductFrom l other (type :: rest) output
            = RandomFieldList.scalarProductFrom l other rest (output + f.scalarProduct g) := by
          rw [RandomFieldList.scalarProductFrom, hg, hf]
        rw [hres, hiff]
        exact ih _

/-- C19 (as amended). `operator+=`, `operator-=`, `axpy` and the inner product of
`RandomFieldList` throw the mismatch error exactly when some active name of the left list is
not a field name of the right list, active there or not, and throw nothing otherwise. In
particular no mismatch error is thrown when the active names of both lists agree (every active
name of the right list being one of its fields). -/
theorem list_mismatch_iff (l other : RandomFieldList) (alpha : ℚ) :
    (((l.addAssign other).2 = some Exn.listMismatch ↔
        ∃ type, type ∈ l.activeTypes ∧ other.find type = none) ∧
      ((l.addAssign other).2 = none ↔
        ¬ ∃ type, type ∈ l.activeTypes ∧ other.find type = none)) ∧
    (((l.subAssign other).2 = some Exn.listMismatch ↔
        ∃ type, type ∈ l.activeTypes ∧ other.find type = none) ∧
      ((l.subAssign other).2 = none ↔
        ¬ ∃ type, type ∈ l.activeTypes ∧ other.find type = none)) ∧
    (((l.axpy other alpha).2 = some Exn.listMismatch ↔
        ∃ type, type ∈ l.activeTypes ∧ other.find type = none) ∧
      ((l.axpy other alpha).2 = none ↔
        ¬ ∃ type, type ∈ l.activeTypes ∧ other.find type = none)) ∧
    (((l.scalarProduct other).toOption = none ↔
        ∃ type, type ∈ l.activeTypes ∧ other.find type = none) ∧
      (∀ e, l.scalarProduct other = .error e → e = Exn.listMismatch)) ∧
    (l.activeTypes = other.activeTypes →
      (∀ type, type ∈ other.activeTypes → other.find type ≠ none) →
        ¬ ∃ type, type ∈ l.activeTypes ∧ other.find type = none) := by
  refine ⟨forActive_error _ other l.activeTypes l, forActive_error _ other l.activeTypes l,
    forActive_error _ other l.activeTypes l, scalarProductFrom_error l other l.activeTypes 0,
    ?_⟩
  rintro hagree hwf ⟨type, hty, hnone⟩
  rw [hagree] at hty
  exact hwf type hty hnone

/-- C19 (as stated) fails when the active names differ but the right list has every active
field of the left one: with `a` active on the left and `a`, `b` active on the right, none of
the four operations throws. -/
theorem list_operations_accept_different_active_names :
    (RandomFieldList.pair 1 2 1).activeTypes ≠ (RandomFieldList.pair 3 4 2).activeTypes ∧
    ((RandomFieldList.pair 1 2 1).addAssign (RandomFieldList.pair 3 4 2)).2 = none ∧
    ((RandomFieldList.pair 1 2 1).subAssign (RandomFieldList.pair 3 4 2)).2 = none ∧
    ((RandomFieldList.pair 1 2 1).axpy (RandomFieldList.pair 3 4 2) 5).2 = none ∧
    ((RandomFieldList.pair 1 2 1).scalarProduct (RandomFieldList.pair 3 4 2)).toOption
      = some 3 := by
  decide!

/-! ## Theorems: the names of a field list -/

theorem blankSeparated_eq_nil (s : List Char) : blankSeparated s = [] ↔ s = [] := by
  cases s with
  | nil => simp [blankSeparated]
  | cons c cs =>
    simp only [blankSeparated]
    split_ifs
    · simp
    · cases blankSeparated cs <;> simp

theorem blankSeparated_getline (c : Char) (cs : List Char) :
    blankSeparated (c :: cs) =
      (c :: cs).takeWhile (fun x => x ≠ ' ')
        :: blankSeparated (((c :: cs).dropWhile (fun x => x ≠ ' ')).drop 1) := by
  induction cs generalizing c with
  | nil =>
    by_cases hc : c = ' '
    · subst hc
      simp [blankSeparated]
    · simp [blankSeparated, hc]
  | cons d ds ih =>
    by_cases hc : c = ' '
    · subst hc
      simp [blankSeparated]
    · have h := ih d
      rw [blankSeparated, if_neg hc, h]
      simp [List.takeWhile, List.dropWhile, hc]

theorem getline_rest_length (stream type rest : List Char)
    (h : getline ' ' stream = some (type, rest)) : rest.length < stream.length := by
  cases stream with
  | nil => simp [getline] at h
  | cons c cs =>
    simp only [getline, Option.some.injEq, Prod.mk.injEq] at h
    rw [← h.2, List.length_drop]
    have := (List.dropWhile_sublist (fun x => decide (x ≠ ' ')) (l := c :: cs)).length_le
    simp only [List.length_cons] at this ⊢
    omega

theorem readFields_spec (makeField : String → Option RandomField) :
    ∀ (fuel : Nat) (stream : List Char) (l : RandomFieldList), stream.length < fuel →
      ∃ r, RandomFieldList.readFields makeField fuel stream l = some r ∧
        (r.2 = none ∨ r.2 = some Exn.subFieldFailed) ∧
        (stream = [] → r.2 = none ∧ r.1.fieldNames = l.fieldNames) ∧
        (r.2 = none →
          r.1.fieldNames = l.fieldNames ++ (blankSeparated stream).map String.mk) := by
  intro fuel
  induction fuel with
  | zero =>
    intro stream l h
    omega
  | succ fuel ih =>
    intro stream l hfuel
    cases stream with
    | nil =>
      refine ⟨(l, none), by simp [RandomFieldList.readFields, getline], Or.inl rfl,
        fun _ => ⟨rfl, rfl⟩, fun _ => by simp [blankSeparated]⟩
    | cons c cs =>
      have hg : getline ' ' (c :: cs) = some ((c :: cs).takeWhile (fun x => x ≠ ' '),
          ((c :: cs).dropWhile (fun x => x ≠ ' ')).drop 1) := rfl
      have hlen := getline_rest_length _ _ _ hg
      cases hm : makeField (String.mk ((c :: cs).takeWhile (fun x => x ≠ ' '))) with
      | none =>
        refine ⟨({ l with fieldNames := l.fieldNames ++
            [String.mk ((c :: cs).takeWhile (fun x => x ≠ ' '))] },
            some Exn.subFieldFailed), ?_, Or.inr rfl, (fun h => by cases h), (fun h => by cases h)⟩
        rw [RandomFieldList.readFields, hg]
        simp only [hm]
      | some f =>
        obtain ⟨r, hr, hcase, -, hnames⟩ := ih
          (((c :: cs).dropWhile (fun x => x ≠ ' ')).drop 1)
          (RandomFieldList.insertEntry
            { l with fieldNames := l.fieldNames ++
              [String.mk ((c :: cs).takeWhile (fun x => x ≠ ' '))] }
            (String.mk ((c :: cs).takeWhile (fun x => x ≠ ' '))) f)
          (by simp only [List.length_cons] at hfuel hlen ⊢; omega)
        refine ⟨r, ?_, hcase, (fun h => by cases h), fun hok => ?_⟩
        · rw [RandomFieldList.readFields, hg]
          simp only [hm]
          exact hr
        · rw [hnames hok, blankSeparated_getline]
          have hins : (RandomFieldList.insertEntry
              { l with fieldNames := l.fieldNames ++
                [String.mk ((c :: cs).takeWhile (fun x => x ≠ ' '))] }
              (String.mk ((c :: cs).takeWhile (fun x => x ≠ ' '))) f).fieldNames
              = l.fieldNames ++ [String.mk ((c :: cs).takeWhile (fun x => x ≠ ' '))] := by
            unfold RandomFieldList.insertEntry
            split <;> rfl
          rw [hins]
          simp
/-- C20 (amended). For every value `types` of `randomField.types` the constructors of
`RandomFieldList` finish. They raise "List of randomField types is empty" exactly when the
string is empty, and unless a sub-field constructor throws, `fieldNames` is the list of the
pieces of the string between its blank characters, in order: only `' '` separates, and two
blanks in a row or a leading blank give an empty name. -/
theorem fieldNames_blank_separated (types : String) (active : Option Nat)
    (makeField : String → Option RandomField) :
    ∃ r, RandomFieldList.construct types active makeField = some r ∧
      (r.2 = some Exn.listEmpty ↔ types.data = []) ∧
      (r.2 ≠ some Exn.subFieldFailed →
        r.1.fieldNames = (blankSeparated types.data).map String.mk) := by
  obtain ⟨r, hr, hcase, hnil, hnames⟩ := readFields_spec makeField (types.data.length + 1)
    types.data { fieldNames := [], activeTypes := [], list := [] } (Nat.lt_succ_self _)
  rcases r with ⟨l, _ | e⟩
  · have hn : l.fieldNames = (blankSeparated types.data).map String.mk := by
      have := hnames rfl
      simpa using this
    by_cases hempty : l.fieldNames = []
    · have hdata : types.data = [] := by
        rw [hn, List.map_eq_nil_iff, blankSeparated_eq_nil] at hempty
        exact hempty
      refine ⟨(l, some Exn.listEmpty), ?_, ?_, fun _ => hn⟩
      · rw [RandomFieldList.construct, hr]
        simp only [hempty, if_true]
      · exact ⟨fun _ => hdata, fun _ => rfl⟩
    · have hdata : types.data ≠ [] := by
        intro h
        apply hempty
        rw [hn, h]
        rfl
      refine ⟨l.activateFields (active.getD l.fieldNames.length), ?_, ?_, fun _ => ?_⟩
      · rw [RandomFieldList.construct, hr]
        simp only [hempty, if_false]
      · unfold RandomFieldList.activateFields
        split_ifs
        · exact ⟨(fun h => by cases h), fun h => absurd h hdata⟩
        · exact ⟨(fun h => by cases h), fun h => absurd h hdata⟩
      · unfold RandomFieldList.activateFields
        split_ifs
        · exact hn
        · exact hn
  · have he : e = Exn.subFieldFailed := by
      rcases hcase with h | h
      · cases h
      · cases h
        rfl
    subst he
    have hdata : types.data ≠ [] := by
      intro h
      have := (hnil h).1
      cases this
    refine ⟨(l, some Exn.subFieldFailed), ?_, ?_, fun h => absurd rfl h⟩
    · rw [RandomFieldList.construct, hr]
    · exact ⟨(fun h => by cases h), fun h => absurd h hdata⟩

/-- C20 (as stated) fails for a string with two blanks in a row or with a tab: the names read
from `"a  b"` are `a`, the empty name and `b`, and `"a\tb"` is read as the single name
`a<tab>b`, where the maximal whitespace-free tokens are `a`, `b` in both cases. -/
theorem fieldNames_keep_empty_and_tabbed_names :
    (RandomFieldList.construct "a  b" none
        (fun _ => some (RandomField.strip [1] [0] [0] [0] false false false false))).map
      (fun r => (r.1.fieldNames, r.2)) = some (["a", "", "b"], none) ∧
    (RandomFieldList.construct "a\tb" none
        (fun _ => some (RandomField.strip [1] [0] [0] [0] false false false false))).map
      (fun r => (r.1.fieldNames, r.2)) = some (["a\tb"], none) := by
  decide!

/-! ## Theorems: refinement of the stochastic field -/

theorem mixed_radix_inj (i j b x y : Nat) (hi : i < b) (hj : j < b)
    (h : i + b * x = j + b * y) : i = j ∧ x = y := by
  have h1 := congrArg (fun z => z % b) h
  have h2 := congrArg (fun z => z / b) h
  simp only [mixed_radix_mod _ _ _ hi, mixed_radix_mod _ _ _ hj, mixed_radix_div _ _ _ hi,
    mixed_radix_div _ _ _ hj] at h1 h2
  exact ⟨h1, h2⟩

theorem length_resize {α : Type} (n : Nat) (d : α) (v : List α) : (resize n d v).length = n := by
  simp [resize]

theorem indicesToIndex_two_getD (n b : List Nat) :
    indicesToIndex 2 n b = n.getD 0 0 + b.getD 0 0 * n.getD 1 0 := by
  simp [indicesToIndex, indicesToIndexFrom]

theorem indicesToIndex_three_getD (n b : List Nat) :
    indicesToIndex 3 n b
      = n.getD 0 0 + b.getD 0 0 * (n.getD 1 0 + b.getD 1 0 * n.getD 2 0) := by
  simp [indicesToIndex, indicesToIndexFrom]

theorem foldl_written {C : Type} (step : List ℚ → C → List ℚ) (L k : Nat) (v : ℚ)
    (owns : C → Prop) (cs : List C)
    (hstep : ∀ d c, c ∈ cs → d.length = L →
      (step d c).length = L ∧ (owns c → (step d c).getD k 0 = v) ∧
        (¬ owns c → (step d c).getD k 0 = d.getD k 0)) :
    ∀ d, d.length = L →
      (cs.foldl step d).length = L ∧
      ((∃ c, c ∈ cs ∧ owns c) → (cs.foldl step d).getD k 0 = v) ∧
      ((∀ c, c ∈ cs → ¬ owns c) → (cs.foldl step d).getD k 0 = d.getD k 0) := by
  induction cs with
  | nil =>
    intro d hd
    refine ⟨hd, ?_, fun _ => rfl⟩
    rintro ⟨c, hc, -⟩
    cases hc
  | cons c cs ih =>
    intro d hd
    obtain ⟨hl, hown, hnot⟩ := hstep d c (List.mem_cons_self c cs) hd
    obtain ⟨hl2, hown2, hnot2⟩ := ih
      (fun d1 c1 hc1 hd1 => hstep d1 c1 (List.mem_cons_of_mem c hc1) hd1) (step d c) hl
    rw [List.foldl_cons]
    refine ⟨hl2, ?_, ?_⟩
    · rintro ⟨c1, hc1, ho⟩
      by_cases hex : ∃ c2, c2 ∈ cs ∧ owns c2
      · exact hown2 hex
      · have hnone : ∀ c2, c2 ∈ cs → ¬ owns c2 := fun c2 h2 ho2 => hex ⟨c2, h2, ho2⟩
        rw [hnot2 hnone]
        rcases List.mem_cons.mp hc1 with rfl | hmem
        · exact hown ho
        · exact absurd ho (hnone c1 hmem)
    · intro hall
      rw [hnot2 (fun c2 h2 => hall c2 (List.mem_cons_of_mem c h2)),
        hnot (hall c (List.mem_cons_self c cs))]
theorem child_two (a0 n0 n1 i0 i1 : Nat) (h0 : n0 < 2 * a0) (hi0 : i0 < a0) :
    (n0 + 2 * a0 * n1 = 2 * i0 + 2 * a0 * (2 * i1) ∨
      n0 + 2 * a0 * n1 = 2 * i0 + 2 * a0 * (2 * i1) + 1 ∨
      n0 + 2 * a0 * n1 = 2 * i0 + 2 * a0 * (2 * i1) + 2 * a0 ∨
      n0 + 2 * a0 * n1 = 2 * i0 + 2 * a0 * (2 * i1) + 2 * a0 + 1) ↔
    (i0 = n0 / 2 ∧ i1 = n1 / 2) := by
  constructor
  · intro h
    have key : ∀ e0 e1, e0 ≤ 1 → e1 ≤ 1 →
        n0 + 2 * a0 * n1 = (2 * i0 + e0) + 2 * a0 * (2 * i1 + e1) →
        i0 = n0 / 2 ∧ i1 = n1 / 2 := by
      intro e0 e1 he0 he1 he
      obtain ⟨h1, h2⟩ := mixed_radix_inj _ _ _ _ _ h0 (by omega) he
      omega
    rcases h with h | h | h | h
    · exact key 0 0 (by omega) (by omega) (by rw [h]; ring)
    · exact key 1 0 (by omega) (by omega) (by rw [h]; ring)
    · exact key 0 1 (by omega) (by omega) (by rw [h]; ring)
    · exact key 1 1 (by omega) (by omega) (by rw [h]; ring)
  · rintro ⟨hi, hj⟩
    have hn0 : n0 = 2 * i0 ∨ n0 = 2 * i0 + 1 := by omega
    have hn1 : n1 = 2 * i1 ∨ n1 = 2 * i1 + 1 := by omega
    rcases hn0 with e0 | e0 <;> rcases hn1 with e1 | e1 <;> rw [e0, e1]
    · left; ring
    · right; right; left; ring
    · right; left; ring
    · right; right; right; ring

theorem child_three (a0 a1 n0 n1 n2 i0 i1 i2 : Nat) (h0 : n0 < 2 * a0) (h1 : n1 < 2 * a1)
    (hi0 : i0 < a0) (hi1 : i1 < a1) :
    (n0 + 2 * a0 * (n1 + 2 * a1 * n2) = 2 * i0 + 2 * a0 * (2 * i1 + 2 * a1 * (2 * i2)) ∨
      n0 + 2 * a0 * (n1 + 2 * a1 * n2)
        = 2 * i0 + 2 * a0 * (2 * i1 + 2 * a1 * (2 * i2)) + 1 ∨
      n0 + 2 * a0 * (n1 + 2 * a1 * n2)
        = 2 * i0 + 2 * a0 * (2 * i1 + 2 * a1 * (2 * i2)) + 2 * a0 ∨
      n0 + 2 * a0 * (n1 + 2 * a1 * n2)
        = 2 * i0 + 2 * a0 * (2 * i1 + 2 * a1 * (2 * i2)) + 2 * a0 + 1 ∨
      n0 + 2 * a0 * (n1 + 2 * a1 * n2)
        = 2 * i0 + 2 * a0 * (2 * i1 + 2 * a1 * (2 * i2)) + 2 * a1 * (2 * a0) ∨
      n0 + 2 * a0 * (n1 + 2 * a1 * n2)
        = 2 * i0 + 2 * a0 * (2 * i1 + 2 * a1 * (2 * i2)) + 2 * a1 * (2 * a0) + 1 ∨
      n0 + 2 * a0 * (n1 + 2 * a1 * n2)
        = 2 * i0 + 2 * a0 * (2 * i1 + 2 * a1 * (2 * i2)) + 2 * a1 * (2 * a0) + 2 * a0 ∨
      n0 + 2 * a0 * (n1 + 2 * a1 * n2)
        = 2 * i0 + 2 * a0 * (2 * i1 + 2 * a1 * (2 * i2)) + 2 * a1 * (2 * a0) + 2 * a0 + 1) ↔
    (i0 = n0 / 2 ∧ i1 = n1 / 2 ∧ i2 = n2 / 2) := by
  constructor
  · intro h
    have key : ∀ e0 e1 e2, e0 ≤ 1 → e1 ≤ 1 → e2 ≤ 1 →
        n0 + 2 * a0 * (n1 + 2 * a1 * n2)
          = (2 * i0 + e0) + 2 * a0 * ((2 * i1 + e1) + 2 * a1 * (2 * i2 + e2)) →
        i0 = n0 / 2 ∧ i1 = n1 / 2 ∧ i2 = n2 / 2 := by
      intro e0 e1 e2 he0 he1 he2 he
      obtain ⟨h1a, h2a⟩ := mixed_radix_inj _ _ _ _ _ h0 (by omega) he
      obtain ⟨h1b, h2b⟩ := mixed_radix_inj _ _ _ _ _ h1 (by omega) h2a
      omega
    rcases h with h | h | h | h | h | h | h | h
    · exact key 0 0 0 (by omega) (by omega) (by omega) (by rw [h]; ring)
    · exact key 1 0 0 (by omega) (by omega) (by omega) (by rw [h]; ring)
    · exact key 0 1 0 (by omega) (by omega) (by omega) (by rw [h]; ring)
    · exact key 1 1 0 (by omega) (by omega) (by omega) (by rw [h]; ring)
    · exact key 0 0 1 (by omega) (by omega) (by omega) (by rw [h]; ring)
    · exact key 1 0 1 (by omega) (by omega) (by omega) (by rw [h]; ring)
    · exact key 0 1 1 (by omega) (by omega) (by omega) (by rw [h]; ring)
    · exact key 1 1 1 (by omega) (by omega) (by omega) (by rw [h]; ring)
  · rintro ⟨hi, hj, hl⟩
    have hn0 : n0 = 2 * i0 ∨ n0 = 2 * i0 + 1 := by omega
    have hn1 : n1 = 2 * i1 ∨ n1 = 2 * i1 + 1 := by omega
    have hn2 : n2 = 2 * i2 ∨ n2 = 2 * i2 + 1 := by omega
    rcases hn0 with e0 | e0 <;> rcases hn1 with e1 | e1 <;> rcases hn2 with e2 | e2 <;>
      rw [e0, e1, e2]
    · left; ring
    · right; right; right; right; left; ring
    · right; right; left; ring
    · right; right; right; right; right; right; left; ring
    · right; left; ring
    · right; right; right; right; right; left; ring
    · right; right; right; left; ring
    · right; right; right; right; right; right; right; ring

theorem refineCell2_getD (oldData : List ℚ) (oc lc : List Nat) (d : List ℚ)
    (a0 a1 n0 n1 i0 i1 : Nat) (hoc0 : oc.getD 0 0 = a0) (hlc0 : lc.getD 0 0 = 2 * a0)
    (hd : d.length = 2 * a0 * (2 * a1)) (h0 : n0 < 2 * a0) (h1 : n1 < 2 * a1)
    (hi0 : i0 < a0) :
    (refineCell2 2 oldData oc lc d i1 i0).length = 2 * a0 * (2 * a1) ∧
    ((i0 = n0 / 2 ∧ i1 = n1 / 2) →
      (refineCell2 2 oldData oc lc d i1 i0).getD (n0 + 2 * a0 * n1) 0
        = oldData.getD (n0 / 2 + a0 * (n1 / 2)) 0) ∧
    (¬ (i0 = n0 / 2 ∧ i1 = n1 / 2) →
      (refineCell2 2 oldData oc lc d i1 i0).getD (n0 + 2 * a0 * n1) 0
        = d.getD (n0 + 2 * a0 * n1) 0) := by
  have hk : n0 + 2 * a0 * n1 < 2 * a0 * (2 * a1) := mixed_radix_lt _ _ _ _ h0 h1
  have hchild := child_two a0 n0 n1 i0 i1 h0 hi0
  have e1 : ((List.replicate 2 0).set 1 i1).set 0 i0 = [i0, i1] := rfl
  have e2 : ((List.replicate 2 0).set 0 (2 * i0)).set 1 (2 * i1) = [2 * i0, 2 * i1] := rfl
  unfold refineCell2
  simp only [e1, e2, indicesToIndex_two_getD, hoc0, hlc0, List.getD_cons_zero,
    List.getD_cons_succ, List.length_set, getD_set_eq, hd]
  generalize 2 * i0 + 2 * a0 * (2 * i1) = p at hchild ⊢
  generalize n0 + 2 * a0 * n1 = k at hchild hk ⊢
  generalize 2 * a0 * (2 * a1) = L at hk ⊢
  refine ⟨trivial, ?_, ?_⟩
  · intro hown
    have hpos := hchild.mpr hown
    rw [hown.1, hown.2]
    split_ifs <;> first | rfl | (exfalso; omega)
  · intro hown
    have hpos := fun h => hown (hchild.mp h)
    split_ifs <;> first | rfl | (exfalso; omega)

theorem refineData_two (oldData : List ℚ) (oc lc : List Nat) (data : List ℚ)
    (a0 a1 n0 n1 : Nat) (hoc0 : oc.getD 0 0 = a0) (hoc1 : oc.getD 1 0 = a1)
    (hlc0 : lc.getD 0 0 = 2 * a0) (hd : data.length = 2 * a0 * (2 * a1))
    (h0 : n0 < 2 * a0) (h1 : n1 < 2 * a1) :
    (refineData 2 oldData oc lc data).length = 2 * a0 * (2 * a1) ∧
    (refineData 2 oldData oc lc data).getD (n0 + 2 * a0 * n1) 0
      = oldData.getD (n0 / 2 + a0 * (n1 / 2)) 0 := by
  have hinner : ∀ i1 d, d.length = 2 * a0 * (2 * a1) →
      ((List.range a0).foldl (fun d0 i0 => refineCell2 2 oldData oc lc d0 i1 i0) d).length
        = 2 * a0 * (2 * a1) ∧
      ((∃ i0, i0 ∈ List.range a0 ∧ (i0 = n0 / 2 ∧ i1 = n1 / 2)) →
        ((List.range a0).foldl (fun d0 i0 => refineCell2 2 oldData oc lc d0 i1 i0) d).getD
          (n0 + 2 * a0 * n1) 0 = oldData.getD (n0 / 2 + a0 * (n1 / 2)) 0) ∧
      ((∀ i0, i0 ∈ List.range a0 → ¬ (i0 = n0 / 2 ∧ i1 = n1 / 2)) →
        ((List.range a0).foldl (fun d0 i0 => refineCell2 2 oldData oc lc d0 i1 i0) d).getD
          (n0 + 2 * a0 * n1) 0 = d.getD (n0 + 2 * a0 * n1) 0) := by
    intro i1
    apply foldl_written
    intro d i0 hi0 hd0
    exact refineCell2_getD oldData oc lc d a0 a1 n0 n1 i0 i1 hoc0 hlc0 hd0 h0 h1
      (List.mem_range.mp hi0)
  have houter := foldl_written
    (fun d1 i1 => (List.range a0).foldl (fun d0 i0 => refineCell2 2 oldData oc lc d0 i1 i0) d1)
    (2 * a0 * (2 * a1)) (n0 + 2 * a0 * n1) (oldData.getD (n0 / 2 + a0 * (n1 / 2)) 0)
    (fun i1 => i1 = n1 / 2) (List.range a1)
    (by
      intro d i1 _ hd1
      obtain ⟨hl, hown, hnot⟩ := hinner i1 d hd1
      refine ⟨hl, fun ho => hown ⟨n0 / 2, List.mem_range.mpr (by omega), rfl, ho⟩,
        fun ho => hnot (fun i0 _ h => ho h.2)⟩)
    data hd
  have hr : refineData 2 oldData oc lc data = (List.range a1).foldl
      (fun d1 i1 => (List.range a0).foldl
        (fun d0 i0 => refineCell2 2 oldData oc lc d0 i1 i0) d1) data := by
    rw [refineData, if_neg (by decide), hoc0, hoc1]
  rw [hr]
  exact ⟨houter.1, houter.2.1 ⟨n1 / 2, List.mem_range.mpr (by omega), rfl⟩⟩
theorem refineCell3_getD (oldData : List ℚ) (oc lc : List Nat) (d : List ℚ)
    (a0 a1 a2 n0 n1 n2 i0 i1 i2 : Nat) (hoc0 : oc.getD 0 0 = a0) (hoc1 : oc.getD 1 0 = a1)
    (hlc0 : lc.getD 0 0 = 2 * a0) (hlc1 : lc.getD 1 0 = 2 * a1)
    (hd : d.length = 2 * a0 * (2 * a1 * (2 * a2)))
    (h0 : n0 < 2 * a0) (h1 : n1 < 2 * a1) (h2 : n2 < 2 * a2)
    (hi0 : i0 < a0) (hi1 : i1 < a1) :
    (refineCell3 3 oldData oc lc d i2 i1 i0).length = 2 * a0 * (2 * a1 * (2 * a2)) ∧
    ((i0 = n0 / 2 ∧ i1 = n1 / 2 ∧ i2 = n2 / 2) →
      (refineCell3 3 oldData oc lc d i2 i1 i0).getD (n0 + 2 * a0 * (n1 + 2 * a1 * n2)) 0
        = oldData.getD (n0 / 2 + a0 * (n1 / 2 + a1 * (n2 / 2))) 0) ∧
    (¬ (i0 = n0 / 2 ∧ i1 = n1 / 2 ∧ i2 = n2 / 2) →
      (refineCell3 3 oldData oc lc d i2 i1 i0).getD (n0 + 2 * a0 * (n1 + 2 * a1 * n2)) 0
        = d.getD (n0 + 2 * a0 * (n1 + 2 * a1 * n2)) 0) := by
  have hk : n0 + 2 * a0 * (n1 + 2 * a1 * n2) < 2 * a0 * (2 * a1 * (2 * a2)) :=
    mixed_radix_lt _ _ _ _ h0 (mixed_radix_lt _ _ _ _ h1 h2)
  have hchild := child_three a0 a1 n0 n1 n2 i0 i1 i2 h0 h1 hi0 hi1
  have e1 : (((List.replicate 3 0).set 2 i2).set 1 i1).set 0 i0 = [i0, i1, i2] := rfl
  have e2 : (((List.replicate 3 0).set 0 (2 * i0)).set 1 (2 * i1)).set 2 (2 * i2)
      = [2 * i0, 2 * i1, 2 * i2] := rfl
  have hsets : ∀ (v : ℚ) (p M A : Nat),
      (((((((d.set p v).set (p + 1) v).set (p + A) v).set (p + A + 1) v).set (p + M) v).set
        (p + M + 1) v).set (p + M + A) v).set (p + M + A + 1) v
      = [p, p + 1, p + A, p + A + 1, p + M, p + M + 1, p + M + A, p + M + A + 1].foldl
          (fun l q => l.set q v) d := fun _ _ _ _ => rfl
  unfold refineCell3
  simp only [e1, e2, indicesToIndex_three_getD, hoc0, hoc1, hlc0, hlc1, List.getD_cons_zero,
    List.getD_cons_succ, hsets]
  generalize 2 * i0 + 2 * a0 * (2 * i1 + 2 * a1 * (2 * i2)) = p at hchild ⊢
  generalize n0 + 2 * a0 * (n1 + 2 * a1 * n2) = k at hchild hk ⊢
  generalize 2 * a0 * (2 * a1 * (2 * a2)) = L at hk hd ⊢
  generalize 2 * a1 * (2 * a0) = M at hchild ⊢
  have hvEq : (i0 = n0 / 2 ∧ i1 = n1 / 2 ∧ i2 = n2 / 2) →
      oldData.getD (n0 / 2 + a0 * (n1 / 2 + a1 * (n2 / 2))) 0
        = oldData.getD (i0 + a0 * (i1 + a1 * i2)) 0 := by
    rintro ⟨rfl, rfl, rfl⟩
    rfl
  generalize oldData.getD (i0 + a0 * (i1 + a1 * i2)) 0 = v at hvEq ⊢
  have hfold := foldl_written (fun l q => l.set q v) L k v (fun q => k = q)
    [p, p + 1, p + 2 * a0, p + 2 * a0 + 1, p + M, p + M + 1, p + M + 2 * a0,
      p + M + 2 * a0 + 1]
    (by
      intro l q _ hl
      refine ⟨by rw [List.length_set, hl], fun hq => ?_, fun hq => ?_⟩
      · rw [getD_set_eq, if_pos ⟨hq, by omega⟩]
      · rw [getD_set_eq, if_neg (fun h => hq h.1)])
    d hd
  refine ⟨hfold.1, ?_, ?_⟩
  · intro hown
    have hpos := hchild.mpr hown
    rw [hvEq hown]
    apply hfold.2.1
    rcases hpos with h | h | h | h | h | h | h | h <;> exact ⟨_, by simp, h⟩
  · intro hown
    apply hfold.2.2
    intro q hq hkq
    subst hkq
    simp only [List.mem_cons, List.mem_singleton, List.not_mem_nil, or_false] at hq
    exact hown (hchild.mp hq)

theorem refineData_three (oldData : List ℚ) (oc lc : List Nat) (data : List ℚ)
    (a0 a1 a2 n0 n1 n2 : Nat) (hoc0 : oc.getD 0 0 = a0) (hoc1 : oc.getD 1 0 = a1)
    (hoc2 : oc.getD 2 0 = a2) (hlc0 : lc.getD 0 0 = 2 * a0) (hlc1 : lc.getD 1 0 = 2 * a1)
    (hd : data.length = 2 * a0 * (2 * a1 * (2 * a2)))
    (h0 : n0 < 2 * a0) (h1 : n1 < 2 * a1) (h2 : n2 < 2 * a2) :
    (refineData 3 oldData oc lc data).length = 2 * a0 * (2 * a1 * (2 * a2)) ∧
    (refineData 3 oldData oc lc data).getD (n0 + 2 * a0 * (n1 + 2 * a1 * n2)) 0
      = oldData.getD (n0 / 2 + a0 * (n1 / 2 + a1 * (n2 / 2))) 0 := by
  have hinner : ∀ i2 i1, i1 < a1 → ∀ d, d.length = 2 * a0 * (2 * a1 * (2 * a2)) →
      ((List.range a0).foldl (fun d0 i0 => refineCell3 3 oldData oc lc d0 i2 i1 i0) d).length
        = 2 * a0 * (2 * a1 * (2 * a2)) ∧
      ((∃ i0, i0 ∈ List.range a0 ∧ (i0 = n0 / 2 ∧ i1 = n1 / 2 ∧ i2 = n2 / 2)) →
        ((List.range a0).foldl (fun d0 i0 => refineCell3 3 oldData oc lc d0 i2 i1 i0) d).getD
          (n0 + 2 * a0 * (n1 + 2 * a1 * n2)) 0
          = oldData.getD (n0 / 2 + a0 * (n1 / 2 + a1 * (n2 / 2))) 0) ∧
      ((∀ i0, i0 ∈ List.range a0 → ¬ (i0 = n0 / 2 ∧ i1 = n1 / 2 ∧ i2 = n2 / 2)) →
        ((List.range a0).foldl (fun d0 i0 => refineCell3 3 oldData oc lc d0 i2 i1 i0) d).getD
          (n0 + 2 * a0 * (n1 + 2 * a1 * n2)) 0
          = d.getD (n0 + 2 * a0 * (n1 + 2 * a1 * n2)) 0) := by
    intro i2 i1 hi1
    apply foldl_written
    intro d i0 hi0 hd0
    exact refineCell3_getD oldData oc lc d a0 a1 a2 n0 n1 n2 i0 i1 i2 hoc0 hoc1 hlc0 hlc1 hd0
      h0 h1 h2 (List.mem_range.mp hi0) hi1
  have hmiddle : ∀ i2 d, d.length = 2 * a0 * (2 * a1 * (2 * a2)) →
      ((List.range a1).foldl (fun d1 i1 => (List.range a0).foldl
        (fun d0 i0 => refineCell3 3 oldData oc lc d0 i2 i1 i0) d1) d).length
        = 2 * a0 * (2 * a1 * (2 * a2)) ∧
      ((∃ i1, i1 ∈ List.range a1 ∧ (i1 = n1 / 2 ∧ i2 = n2 / 2)) →
        ((List.range a1).foldl (fun d1 i1 => (List.range a0).foldl
          (fun d0 i0 => refineCell3 3 oldData oc lc d0 i2 i1 i0) d1) d).getD
          (n0 + 2 * a0 * (n1 + 2 * a1 * n2)) 0
          = oldData.getD (n0 / 2 + a0 * (n1 / 2 + a1 * (n2 / 2))) 0) ∧
      ((∀ i1, i1 ∈ List.range a1 → ¬ (i1 = n1 / 2 ∧ i2 = n2 / 2)) →
        ((List.range a1).foldl (fun d1 i1 => (List.range a0).foldl
          (fun d0 i0 => refineCell3 3 oldData oc lc d0 i2 i1 i0) d1) d).getD
          (n0 + 2 * a0 * (n1 + 2 * a1 * n2)) 0
          = d.getD (n0 + 2 * a0 * (n1 + 2 * a1 * n2)) 0) := by
    intro i2
    apply foldl_written
    intro d i1 hi1 hd1
    obtain ⟨hl, hown, hnot⟩ := hinner i2 i1 (List.mem_range.mp hi1) d hd1
    exact ⟨hl, fun ho => hown ⟨n0 / 2, List.mem_range.mpr (by omega), rfl, ho⟩,
      fun ho => hnot (fun i0 _ h => ho h.2)⟩
  have houter := foldl_written
    (fun d2 i2 => (List.range a1).foldl (fun d1 i1 => (List.range a0).foldl
      (fun d0 i0 => refineCell3 3 oldData oc lc d0 i2 i1 i0) d1) d2)
    (2 * a0 * (2 * a1 * (2 * a2))) (n0 + 2 * a0 * (n1 + 2 * a1 * n2))
    (oldData.getD (n0 / 2 + a0 * (n1 / 2 + a1 * (n2 / 2))) 0)
    (fun i2 => i2 = n2 / 2) (List.range a2)
    (by
      intro d i2 _ hd2
      obtain ⟨hl, hown, hnot⟩ := hmiddle i2 d hd2
      exact ⟨hl, fun ho => hown ⟨n1 / 2, List.mem_range.mpr (by omega), rfl, ho⟩,
        fun ho => hnot (fun i1 _ h => ho h.2)⟩)
    data hd
  have hr : refineData 3 oldData oc lc data = (List.range a2).foldl
      (fun d2 i2 => (List.range a1).foldl (fun d1 i1 => (List.range a0).foldl
        (fun d0 i0 => refineCell3 3 oldData oc lc d0 i2 i1 i0) d1) d2) data := by
    rw [refineData, if_pos rfl, hoc0, hoc1, hoc2]
  rw [hr]
  exact ⟨houter.1, houter.2.1 ⟨n2 / 2, List.mem_range.mpr (by omega), rfl⟩⟩
theorem refine_unfold (t : Traits) (s : StochasticPart) (hP : 1 ≤ t.commSize)
    (hdim : 1 ≤ t.dim) (hp : ∃ p, p ^ t.dim = t.commSize) (hlevel : s.level ≠ t.level) :
    ∃ r, s.refine t = some (r, none) ∧ r.evalValid = false ∧ r.level = t.level ∧
      r.localCells = t.localCells ∧
      r.dataVector = refineData t.dim s.dataVector
        (tabulate t.dim (fun i => t.localCells.getD i 0 / 2)) t.localCells
        (resize t.localDomainSize 0 (resize t.localDomainSize 0 s.dataVector)) := by
  obtain ⟨p1, r, hs, hr, hiff, -⟩ := searchProcPerDim_start t.dim t.commSize hdim hP
  rcases hr with rfl | rfl
  · rw [StochasticPart.refine, if_pos hlevel, StochasticPart.update, hs]
    exact ⟨_, rfl, rfl, rfl, rfl, rfl⟩
  · exact absurd hp (hiff.mp rfl)

theorem prod_tabulate_two (f : Nat → Nat) : (tabulate 2 f).prod = f 0 * f 1 := by
  simp [tabulate, List.range_succ]

theorem prod_tabulate_three (f : Nat → Nat) : (tabulate 3 f).prod = f 0 * (f 1 * f 2) := by
  simp [tabulate, List.range_succ, Nat.mul_assoc]

theorem foldl_length {C : Type} (step : List ℚ → C → List ℚ)
    (hstep : ∀ d c, (step d c).length = d.length) (cs : List C) :
    ∀ d, (cs.foldl step d).length = d.length := by
  induction cs with
  | nil => intro d; rfl
  | cons c cs ih =>
    intro d
    rw [List.foldl_cons, ih, hstep]

theorem refineData_length (dim : Nat) (oldData : List ℚ) (oc lc : List Nat) (data : List ℚ) :
    (refineData dim oldData oc lc data).length = data.length := by
  unfold refineData
  split_ifs
  · apply foldl_length
    intro d2 i2
    apply foldl_length
    intro d1 i1
    apply foldl_length
    intro d0 i0
    simp [refineCell3]
  · apply foldl_length
    intro d1 i1
    apply foldl_length
    intro d0 i0
    simp [refineCell2]

/-- C18. `StochasticPart::refine` replicates cell values in 2D and 3D: when the descriptor is
one level ahead of the field and every new `localCells[i]` is twice the old one, `refine`
returns with `evalValid == false` and a `dataVector` of the new local size
`prod(localCells)`, in which every index tuple `n` below the new `localCells` holds the old
value at the tuple `n / 2` (integer division per axis). -/
theorem refine_replicates_cells (t : Traits) (s : StochasticPart)
    (hdim : t.dim = 2 ∨ t.dim = 3) (hP : 1 ≤ t.commSize)
    (hp : ∃ p, p ^ t.dim = t.commSize) (hlevel : t.level = s.level + 1)
    (hcells : ∀ i, i < t.dim → t.localCells.getD i 0 = 2 * s.localCells.getD i 0)
    (hsize : t.localDomainSize = (tabulate t.dim (fun i => t.localCells.getD i 0)).prod) :
    ∃ r, s.refine t = some (r, none) ∧ r.evalValid = false ∧ r.level = t.level ∧
      r.localCells = t.localCells ∧
      r.dataVector.length = (tabulate t.dim (fun i => t.localCells.getD i 0)).prod ∧
      ∀ n : List Nat, n.length = t.dim →
        (∀ i, i < t.dim → n.getD i 0 < t.localCells.getD i 0) →
        r.dataVector.getD (indicesToIndex t.dim n t.localCells) 0
          = s.dataVector.getD
              (indicesToIndex t.dim (n.map (fun x => x / 2)) s.localCells) 0 := by
  obtain ⟨r, hr, hvalid, hlev, hlc, hdata⟩ := refine_unfold t s hP (by omega) hp (by omega)
  refine ⟨r, hr, hvalid, hlev, hlc, ?_, ?_⟩
  · rw [hdata, refineData_length, length_resize, hsize]
  rw [hdata]
  rcases hdim with hd | hd
  · rw [hd] at hcells hsize ⊢
    have hc0 := hcells 0 (by omega)
    have hc1 := hcells 1 (by omega)
    rw [prod_tabulate_two] at hsize
    intro n hn hlt
    obtain ⟨n0, n1, rfl⟩ := list_length_two n hn
    have h0 := hlt 0 (by omega)
    have h1 := hlt 1 (by omega)
    simp only [List.getD_cons_zero, List.getD_cons_succ] at h0 h1
    rw [hc0] at h0
    rw [hc1] at h1
    have hall := refineData_two s.dataVector
      (tabulate 2 (fun i => t.localCells.getD i 0 / 2)) t.localCells
      (resize t.localDomainSize 0 (resize t.localDomainSize 0 s.dataVector))
      (s.localCells.getD 0 0) (s.localCells.getD 1 0) n0 n1
      (by rw [getD_tabulate _ _ _ _ (by omega)]; omega)
      (by rw [getD_tabulate _ _ _ _ (by omega)]; omega)
      hc0 (by rw [length_resize, hsize, hc0, hc1]) h0 h1
    rw [indicesToIndex_two_getD, indicesToIndex_two_getD, hc0]
    exact hall.2
  · rw [hd] at hcells hsize ⊢
    have hc0 := hcells 0 (by omega)
    have hc1 := hcells 1 (by omega)
    have hc2 := hcells 2 (by omega)
    rw [prod_tabulate_three] at hsize
    intro n hn hlt
    obtain ⟨n0, n1, n2, rfl⟩ := list_length_three n hn
    have h0 := hlt 0 (by omega)
    have h1 := hlt 1 (by omega)
    have h2 := hlt 2 (by omega)
    simp only [List.getD_cons_zero, List.getD_cons_succ] at h0 h1 h2
    rw [hc0] at h0
    rw [hc1] at h1
    rw [hc2] at h2
    have hall := refineData_three s.dataVector
      (tabulate 3 (fun i => t.localCells.getD i 0 / 2)) t.localCells
      (resize t.localDomainSize 0 (resize t.localDomainSize 0 s.dataVector))
      (s.localCells.getD 0 0) (s.localCells.getD 1 0) (s.localCells.getD 2 0) n0 n1 n2
      (by rw [getD_tabulate _ _ _ _ (by omega)]; omega)
      (by rw [getD_tabulate _ _ _ _ (by omega)]; omega)
      (by rw [getD_tabulate _ _ _ _ (by omega)]; omega)
      hc0 hc1 (by rw [length_resize, hsize, hc0, hc1, hc2]) h0 h1 h2
    rw [indicesToIndex_three_getD, indicesToIndex_three_getD, hc0, hc1]
    exact hall.2
theorem refine_replicates_cells_witness :
    ∃ r, (StochasticPart.strip 2 [5, 7]).refine
        ((Traits.strip 2 true false).refine FFTW.serial).1 = some (r, none) ∧
      r.evalValid = false ∧
      r.level = ((Traits.strip 2 true false).refine FFTW.serial).1.level ∧
      r.localCells = ((Traits.strip 2 true false).refine FFTW.serial).1.localCells ∧
      r.dataVector.length = (tabulate ((Traits.strip 2 true false).refine FFTW.serial).1.dim
        (fun i => ((Traits.strip 2 true false).refine FFTW.serial).1.localCells.getD i 0)).prod ∧
      ∀ n : List Nat, n.length = ((Traits.strip 2 true false).refine FFTW.serial).1.dim →
        (∀ i, i < ((Traits.strip 2 true false).refine FFTW.serial).1.dim →
          n.getD i 0 < ((Traits.strip 2 true false).refine FFTW.serial).1.localCells.getD i 0) →
        r.dataVector.getD (indicesToIndex ((Traits.strip 2 true false).refine FFTW.serial).1.dim
            n ((Traits.strip 2 true false).refine FFTW.serial).1.localCells) 0
          = (StochasticPart.strip 2 [5, 7]).dataVector.getD
              (indicesToIndex ((Traits.strip 2 true false).refine FFTW.serial).1.dim
                (n.map (fun x => x / 2)) (StochasticPart.strip 2 [5, 7]).localCells) 0 :=
  refine_replicates_cells ((Traits.strip 2 true false).refine FFTW.serial).1
    (StochasticPart.strip 2 [5, 7]) (Or.inl rfl) (by decide) ⟨1, by decide⟩ (by decide)
    (by decide) (by decide)

theorem refine_example :
    ((StochasticPart.strip 2 [5, 7]).refine
        ((Traits.strip 2 true false).refine FFTW.serial).1).map (fun r => r.1.dataVector)
      = some [5, 5, 7, 7, 5, 5, 7, 7] := by
  decide!

/-! ## Theorems: evaluation of the field -/

theorem lookup_two (s : StochasticPart) (e0 e1 : Nat) :
    (e0 < s.localEvalCells.getD 0 0 → e1 < s.localEvalCells.getD 1 0 →
      s.lookup 2 [e0, e1]
        = s.evalVector.getD (indicesToIndex 2 [e0, e1] s.localEvalCells) 0) ∧
    (e1 < s.localEvalCells.getD 1 0 →
      (e0 = s.localEvalCells.getD 0 0 →
        s.lookup 2 [e0, e1] = (s.overlap.getD 1 []).getD e1 0) ∧
      (s.localEvalCells.getD 0 0 < e0 →
        s.lookup 2 [e0, e1] = (s.overlap.getD 0 []).getD e1 0)) ∧
    (e0 < s.localEvalCells.getD 0 0 →
      (e1 = s.localEvalCells.getD 1 0 →
        s.lookup 2 [e0, e1] = (s.overlap.getD 3 []).getD e0 0) ∧
      (s.localEvalCells.getD 1 0 < e1 →
        s.lookup 2 [e0, e1] = (s.overlap.getD 2 []).getD e0 0)) := by
  have ht : ∀ f : Nat → Nat, tabulate 2 f = [f 0, f 1] := fun _ => rfl
  unfold StochasticPart.lookup
  simp only [ht, List.getD_cons_zero, List.getD_cons_succ, indicesToIndex_two_getD]
  generalize s.localEvalCells.getD 0 0 = c0
  generalize s.localEvalCells.getD 1 0 = c1
  refine ⟨?_, ?_, ?_⟩
  · intro h0 h1
    have a0 : countIndex 2 0 e0 c0 = 4 := by unfold countIndex; split_ifs <;> omega
    have a1 : countIndex 2 1 e1 c1 = 4 := by unfold countIndex; split_ifs <;> omega
    have b0 : adjustIndex e0 c0 = e0 := by unfold adjustIndex; split_ifs <;> omega
    have b1 : adjustIndex e1 c1 = e1 := by unfold adjustIndex; split_ifs <;> omega
    simp [a0, a1, b0, b1]
  · intro h1
    have a1 : countIndex 2 1 e1 c1 = 4 := by unfold countIndex; split_ifs <;> omega
    refine ⟨fun h0 => ?_, fun h0 => ?_⟩
    · have a0 : countIndex 2 0 e0 c0 = 1 := by unfold countIndex; split_ifs <;> omega
      simp [a0, a1]
    · have a0 : countIndex 2 0 e0 c0 = 0 := by unfold countIndex; split_ifs <;> omega
      simp [a0, a1]
  · intro h0
    have a0 : countIndex 2 0 e0 c0 = 4 := by unfold countIndex; split_ifs <;> omega
    refine ⟨fun h1 => ?_, fun h1 => ?_⟩
    · have a1 : countIndex 2 1 e1 c1 = 3 := by unfold countIndex; split_ifs <;> omega
      simp [a0, a1]
    · have a1 : countIndex 2 1 e1 c1 = 2 := by unfold countIndex; split_ifs <;> omega
      simp [a0, a1]
theorem countIndex_inside (dim i e c : Nat) (h : e < c) : countIndex dim i e c = 2 * dim := by
  unfold countIndex
  split_ifs <;> omega

theorem countIndex_above (dim i e c : Nat) (h : e = c) : countIndex dim i e c = 2 * i + 1 := by
  unfold countIndex
  split_ifs <;> omega

theorem countIndex_below (dim i e c : Nat) (h : c < e) : countIndex dim i e c = 2 * i := by
  unfold countIndex
  split_ifs <;> omega

theorem adjustIndex_inside (e c : Nat) (h : e < c) : adjustIndex e c = e := by
  unfold adjustIndex
  split_ifs <;> omega

theorem lookup_three (s : StochasticPart) (e0 e1 e2 : Nat) :
    (e0 < s.localEvalCells.getD 0 0 → e1 < s.localEvalCells.getD 1 0 →
      e2 < s.localEvalCells.getD 2 0 →
      s.lookup 3 [e0, e1, e2]
        = s.evalVector.getD (indicesToIndex 3 [e0, e1, e2] s.localEvalCells) 0) ∧
    (e1 < s.localEvalCells.getD 1 0 → e2 < s.localEvalCells.getD 2 0 →
      (e0 = s.localEvalCells.getD 0 0 →
        s.lookup 3 [e0, e1, e2]
          = (s.overlap.getD 1 []).getD (e1 + e2 * s.localEvalCells.getD 1 0) 0) ∧
      (s.localEvalCells.getD 0 0 < e0 →
        s.lookup 3 [e0, e1, e2]
          = (s.overlap.getD 0 []).getD (e1 + e2 * s.localEvalCells.getD 1 0) 0)) ∧
    (e0 < s.localEvalCells.getD 0 0 → e2 < s.localEvalCells.getD 2 0 →
      (e1 = s.localEvalCells.getD 1 0 →
        s.lookup 3 [e0, e1, e2]
          = (s.overlap.getD 3 []).getD (e2 + e0 * s.localEvalCells.getD 2 0) 0) ∧
      (s.localEvalCells.getD 1 0 < e1 →
        s.lookup 3 [e0, e1, e2]
          = (s.overlap.getD 2 []).getD (e2 + e0 * s.localEvalCells.getD 2 0) 0)) ∧
    (e0 < s.localEvalCells.getD 0 0 → e1 < s.localEvalCells.getD 1 0 →
      (e2 = s.localEvalCells.getD 2 0 →
        s.lookup 3 [e0, e1, e2]
          = (s.overlap.getD 5 []).getD (e0 + e1 * s.localEvalCells.getD 0 0) 0) ∧
      (s.localEvalCells.getD 2 0 < e2 →
        s.lookup 3 [e0, e1, e2]
          = (s.overlap.getD 4 []).getD (e0 + e1 * s.localEvalCells.getD 0 0) 0)) := by
  have ht : ∀ f : Nat → Nat, tabulate 3 f = [f 0, f 1, f 2] := fun _ => rfl
  unfold StochasticPart.lookup
  simp only [ht, List.getD_cons_zero, List.getD_cons_succ, indicesToIndex_three_getD]
  generalize s.localEvalCells.getD 0 0 = c0
  generalize s.localEvalCells.getD 1 0 = c1
  generalize s.localEvalCells.getD 2 0 = c2
  refine ⟨?_, ?_, ?_, ?_⟩
  · intro h0 h1 h2
    simp [countIndex_inside _ _ _ _ h0, countIndex_inside _ _ _ _ h1,
      countIndex_inside _ _ _ _ h2, adjustIndex_inside _ _ h0, adjustIndex_inside _ _ h1,
      adjustIndex_inside _ _ h2]
  · intro h1 h2
    refine ⟨fun h0 => ?_, fun h0 => ?_⟩
    · simp [countIndex_above _ _ _ _ h0, countIndex_inside _ _ _ _ h1,
        countIndex_inside _ _ _ _ h2]
    · simp [countIndex_below _ _ _ _ h0, countIndex_inside _ _ _ _ h1,
        countIndex_inside _ _ _ _ h2]
  · intro h0 h2
    refine ⟨fun h1 => ?_, fun h1 => ?_⟩
    · simp [countIndex_inside _ _ _ _ h0, countIndex_above _ _ _ _ h1,
        countIndex_inside _ _ _ _ h2]
    · simp [countIndex_inside _ _ _ _ h0, countIndex_below _ _ _ _ h1,
        countIndex_inside _ _ _ _ h2]
  · intro h0 h1
    refine ⟨fun h2 => ?_, fun h2 => ?_⟩
    · simp [countIndex_inside _ _ _ _ h0, countIndex_inside _ _ _ _ h1,
        countIndex_above _ _ _ _ h2]
    · simp [countIndex_inside _ _ _ _ h0, countIndex_inside _ _ _ _ h1,
        countIndex_below _ _ _ _ h2]
theorem foldl_read {S C V : Type} (step : S → C → S) (inv : S → Prop) (read : S → V) (v : V)
    (owns : C → Prop) (cs : List C)
    (hstep : ∀ d c, c ∈ cs → inv d →
      inv (step d c) ∧ (owns c → read (step d c) = v) ∧
        (¬ owns c → read (step d c) = read d)) :
    ∀ d, inv d →
      inv (cs.foldl step d) ∧
      ((∃ c, c ∈ cs ∧ owns c) → read (cs.foldl step d) = v) ∧
      ((∀ c, c ∈ cs → ¬ owns c) → read (cs.foldl step d) = read d) := by
  induction cs with
  | nil =>
    intro d hd
    refine ⟨hd, ?_, fun _ => rfl⟩
    rintro ⟨c, hc, -⟩
    cases hc
  | cons c cs ih =>
    intro d hd
    obtain ⟨hl, hown, hnot⟩ := hstep d c (List.mem_cons_self c cs) hd
    obtain ⟨hl2, hown2, hnot2⟩ := ih
      (fun d1 c1 hc1 hd1 => hstep d1 c1 (List.mem_cons_of_mem c hc1) hd1) (step d c) hl
    rw [List.foldl_cons]
    refine ⟨hl2, ?_, ?_⟩
    · rintro ⟨c1, hc1, ho⟩
      by_cases hex : ∃ c2, c2 ∈ cs ∧ owns c2
      · exact hown2 hex
      · have hnone : ∀ c2, c2 ∈ cs → ¬ owns c2 := fun c2 h2 ho2 => hex ⟨c2, h2, ho2⟩
        rw [hnot2 hnone]
        rcases List.mem_cons.mp hc1 with rfl | hmem
        · exact hown ho
        · exact absurd ho (hnone c1 hmem)
    · intro hall
      rw [hnot2 (fun c2 h2 => hall c2 (List.mem_cons_of_mem c h2)),
        hnot (hall c (List.mem_cons_self c cs))]

theorem setAt_length (ex : List (List ℚ)) (k j : Nat) (v : ℚ) :
    (setAt ex k j v).length = ex.length := by
  simp [setAt]

theorem setAt_panel_ne (ex : List (List ℚ)) (k j k1 : Nat) (v : ℚ) (h : k1 ≠ k) :
    (setAt ex k j v).getD k1 [] = ex.getD k1 [] := by
  rw [setAt, getD_set_eq, if_neg (fun hh => h hh.1)]

theorem setAt_panel_eq (ex : List (List ℚ)) (k j : Nat) (v : ℚ) (h : k < ex.length) :
    (setAt ex k j v).getD k [] = (ex.getD k []).set j v := by
  rw [setAt, getD_set_eq, if_pos ⟨rfl, h⟩]

theorem setAt_pair (ex : List (List ℚ)) (n i i1 f p0 p1 : Nat) (v0 v1 : ℚ)
    (hfit : panelsFit n i f ex) (hi1 : 2 * i1 + 1 < n) :
    panelsFit n i f (setAt (setAt ex (2 * i1) p0 v0) (2 * i1 + 1) p1 v1) ∧
    ((i1 = i ∧ p0 = f ∧ p1 = f) →
      panelsAt i f (setAt (setAt ex (2 * i1) p0 v0) (2 * i1 + 1) p1 v1) = (v0, v1)) ∧
    ((i1 ≠ i ∨ (p0 ≠ f ∧ p1 ≠ f)) →
      panelsAt i f (setAt (setAt ex (2 * i1) p0 v0) (2 * i1 + 1) p1 v1)
        = panelsAt i f ex) := by
  obtain ⟨hn, hf0, hf1⟩ := hfit
  have hA : (setAt (setAt ex (2 * i1) p0 v0) (2 * i1 + 1) p1 v1).getD (2 * i1) []
      = (ex.getD (2 * i1) []).set p0 v0 := by
    rw [setAt_panel_ne _ _ _ _ _ (by omega), setAt_panel_eq _ _ _ _ (by omega)]
  have hB : (setAt (setAt ex (2 * i1) p0 v0) (2 * i1 + 1) p1 v1).getD (2 * i1 + 1) []
      = (ex.getD (2 * i1 + 1) []).set p1 v1 := by
    rw [setAt_panel_eq _ _ _ _ (by rw [setAt_length]; omega),
      setAt_panel_ne _ _ _ _ _ (by omega)]
  have hC : ∀ k, k ≠ 2 * i1 → k ≠ 2 * i1 + 1 →
      (setAt (setAt ex (2 * i1) p0 v0) (2 * i1 + 1) p1 v1).getD k [] = ex.getD k [] := by
    intro k h0 h1
    rw [setAt_panel_ne _ _ _ _ _ h1, setAt_panel_ne _ _ _ _ _ h0]
  by_cases hi : i1 = i
  · subst hi
    refine ⟨⟨by rw [setAt_length, setAt_length, hn], by rw [hA, List.length_set]; exact hf0,
      by rw [hB, List.length_set]; exact hf1⟩, ?_, ?_⟩
    · rintro ⟨-, rfl, rfl⟩
      unfold panelsAt
      rw [hA, hB, getD_set_eq, getD_set_eq, if_pos ⟨rfl, hf0⟩, if_pos ⟨rfl, hf1⟩]
    · intro h
      rcases h with h | ⟨h0, h1⟩
      · exact absurd rfl h
      · unfold panelsAt
        rw [hA, hB, getD_set_eq, getD_set_eq, if_neg (fun hh => h0 hh.1.symm),
          if_neg (fun hh => h1 hh.1.symm)]
  · have e0 := hC (2 * i) (by omega) (by omega)
    have e1 := hC (2 * i + 1) (by omega) (by omega)
    refine ⟨⟨by rw [setAt_length, setAt_length, hn], by rw [e0]; exact hf0,
      by rw [e1]; exact hf1⟩, fun h => absurd h.1 hi, fun _ => ?_⟩
    unfold panelsAt
    rw [e0, e1]
theorem extract_positions3 (i a b c : Nat) (hi : i < 3) :
    ((((List.replicate 3 0).set ((i + 1) % 3) a).set ((i + 2) % 3) b).set i 0).getD
        ((i + 1) % 3) 0 = a ∧
    ((((List.replicate 3 0).set ((i + 1) % 3) a).set ((i + 2) % 3) b).set i 0).getD
        ((i + 2) % 3) 0 = b ∧
    (((((List.replicate 3 0).set ((i + 1) % 3) a).set ((i + 2) % 3) b).set i 0).set i c).getD
        ((i + 1) % 3) 0 = a ∧
    (((((List.replicate 3 0).set ((i + 1) % 3) a).set ((i + 2) % 3) b).set i 0).set i c).getD
        ((i + 2) % 3) 0 = b := by
  rcases (by omega : i = 0 ∨ i = 1 ∨ i = 2) with rfl | rfl | rfl <;>
    exact ⟨rfl, rfl, rfl, rfl⟩

theorem extract_positions2 (i a c : Nat) (hi : i < 2) :
    (((List.replicate 2 0).set ((i + 1) % 2) a).set i 0).getD ((i + 1) % 2) 0 = a ∧
    ((((List.replicate 2 0).set ((i + 1) % 2) a).set i 0).set i c).getD ((i + 1) % 2) 0
      = a := by
  rcases (by omega : i = 0 ∨ i = 1) with rfl | rfl <;> exact ⟨rfl, rfl⟩

theorem extractCell3_read (lec : List Nat) (ev : List ℚ) (ex : List (List ℚ))
    (i i1 a b a1 b1 : Nat) (hi1 : i1 < 3)
    (ha : a < lec.getD ((i1 + 1) % 3) 0) (ha1 : a1 < lec.getD ((i + 1) % 3) 0)
    (hfit : panelsFit 6 i (a1 + b1 * lec.getD ((i + 1) % 3) 0) ex) :
    panelsFit 6 i (a1 + b1 * lec.getD ((i + 1) % 3) 0) (extractCell3 3 lec ev ex i1 a b) ∧
    ((i1 = i ∧ a = a1 ∧ b = b1) →
      panelsAt i (a1 + b1 * lec.getD ((i + 1) % 3) 0) (extractCell3 3 lec ev ex i1 a b)
        = (ev.getD (indicesToIndex 3
            ((((List.replicate 3 0).set ((i + 1) % 3) a1).set ((i + 2) % 3) b1).set i 0)
            lec) 0,
          ev.getD (indicesToIndex 3
            (((((List.replicate 3 0).set ((i + 1) % 3) a1).set ((i + 2) % 3) b1).set i 0).set
              i (unsignedSub (lec.getD i 0) 1)) lec) 0)) ∧
    (¬ (i1 = i ∧ a = a1 ∧ b = b1) →
      panelsAt i (a1 + b1 * lec.getD ((i + 1) % 3) 0) (extractCell3 3 lec ev ex i1 a b)
        = panelsAt i (a1 + b1 * lec.getD ((i + 1) % 3) 0) ex) := by
  obtain ⟨q0, q1, q2, q3⟩ := extract_positions3 i1 a b (unsignedSub (lec.getD i1 0) 1) hi1
  unfold extractCell3
  simp only [q0, q1, q2, q3]
  have key := setAt_pair ex 6 i i1 (a1 + b1 * lec.getD ((i + 1) % 3) 0)
    (a + b * lec.getD ((i1 + 1) % 3) 0) (a + b * lec.getD ((i1 + 1) % 3) 0)
    (ev.getD (indicesToIndex 3
      ((((List.replicate 3 0).set ((i1 + 1) % 3) a).set ((i1 + 2) % 3) b).set i1 0) lec) 0)
    (ev.getD (indicesToIndex 3
      (((((List.replicate 3 0).set ((i1 + 1) % 3) a).set ((i1 + 2) % 3) b).set i1 0).set
        i1 (unsignedSub (lec.getD i1 0) 1)) lec) 0) hfit (by omega)
  refine ⟨key.1, ?_, ?_⟩
  · rintro ⟨rfl, rfl, rfl⟩
    exact key.2.1 ⟨rfl, rfl, rfl⟩
  · intro h
    apply key.2.2
    by_cases hi : i1 = i
    · subst hi
      have hne : a + b * lec.getD ((i1 + 1) % 3) 0 ≠ a1 + b1 * lec.getD ((i1 + 1) % 3) 0 := by
        intro heq
        rw [Nat.mul_comm b, Nat.mul_comm b1] at heq
        obtain ⟨e1, e2⟩ := mixed_radix_inj _ _ _ _ _ ha ha1 heq
        exact h ⟨rfl, e1, e2⟩
      exact Or.inr ⟨hne, hne⟩
    · exact Or.inl hi

theorem extractCell2_read (lec : List Nat) (ev : List ℚ) (ex : List (List ℚ))
    (i i1 a a1 : Nat) (hi1 : i1 < 2) (hfit : panelsFit 4 i a1 ex) :
    panelsFit 4 i a1 (extractCell2 2 lec ev ex i1 a) ∧
    ((i1 = i ∧ a = a1) →
      panelsAt i a1 (extractCell2 2 lec ev ex i1 a)
        = (ev.getD (indicesToIndex 2
            (((List.replicate 2 0).set ((i + 1) % 2) a1).set i 0) lec) 0,
          ev.getD (indicesToIndex 2
            ((((List.replicate 2 0).set ((i + 1) % 2) a1).set i 0).set
              i (unsignedSub (lec.getD i 0) 1)) lec) 0)) ∧
    (¬ (i1 = i ∧ a = a1) →
      panelsAt i a1 (extractCell2 2 lec ev ex i1 a) = panelsAt i a1 ex) := by
  obtain ⟨q0, q1⟩ := extract_positions2 i1 a (unsignedSub (lec.getD i1 0) 1) hi1
  unfold extractCell2
  simp only [q0, q1]
  have key := setAt_pair ex 4 i i1 a1 a a
    (ev.getD (indicesToIndex 2 (((List.replicate 2 0).set ((i1 + 1) % 2) a).set i1 0) lec) 0)
    (ev.getD (indicesToIndex 2
      ((((List.replicate 2 0).set ((i1 + 1) % 2) a).set i1 0).set
        i1 (unsignedSub (lec.getD i1 0) 1)) lec) 0) hfit (by omega)
  refine ⟨key.1, ?_, ?_⟩
  · rintro ⟨rfl, rfl⟩
    exact key.2.1 ⟨rfl, rfl, rfl⟩
  · intro h
    apply key.2.2
    by_cases hi : i1 = i
    · subst hi
      have hne : a ≠ a1 := fun heq => h ⟨rfl, heq⟩
      exact Or.inr ⟨hne, hne⟩
    · exact Or.inl hi

theorem extractFaces_two (s : StochasticPart) (i a1 : Nat) (hi : i < 2)
    (ha1 : a1 < s.localEvalCells.getD ((i + 1) % 2) 0) (hfit : panelsFit 4 i a1 s.overlap) :
    panelsAt i a1 (extractFaces 2 s)
      = (s.evalVector.getD (indicesToIndex 2
            (((List.replicate 2 0).set ((i + 1) % 2) a1).set i 0) s.localEvalCells) 0,
          s.evalVector.getD (indicesToIndex 2
            ((((List.replicate 2 0).set ((i + 1) % 2) a1).set i 0).set
              i (unsignedSub (s.localEvalCells.getD i 0) 1)) s.localEvalCells) 0) := by
  have hinner := fun i1 (hi1 : i1 < 2) => foldl_read
    (fun ex0 a => extractCell2 2 s.localEvalCells s.evalVector ex0 i1 a)
    (panelsFit 4 i a1) (panelsAt i a1)
    (s.evalVector.getD (indicesToIndex 2
        (((List.replicate 2 0).set ((i + 1) % 2) a1).set i 0) s.localEvalCells) 0,
      s.evalVector.getD (indicesToIndex 2
        ((((List.replicate 2 0).set ((i + 1) % 2) a1).set i 0).set
          i (unsignedSub (s.localEvalCells.getD i 0) 1)) s.localEvalCells) 0)
    (fun a => i1 = i ∧ a = a1) (List.range (s.localEvalCells.getD ((i1 + 1) % 2) 0))
    (fun d a _ hd => extractCell2_read s.localEvalCells s.evalVector d i i1 a a1 hi1 hd)
  have houter := foldl_read
    (fun ex1 i1 => (List.range (s.localEvalCells.getD ((i1 + 1) % 2) 0)).foldl
      (fun ex0 a => extractCell2 2 s.localEvalCells s.evalVector ex0 i1 a) ex1)
    (panelsFit 4 i a1) (panelsAt i a1)
    (s.evalVector.getD (indicesToIndex 2
        (((List.replicate 2 0).set ((i + 1) % 2) a1).set i 0) s.localEvalCells) 0,
      s.evalVector.getD (indicesToIndex 2
        ((((List.replicate 2 0).set ((i + 1) % 2) a1).set i 0).set
          i (unsignedSub (s.localEvalCells.getD i 0) 1)) s.localEvalCells) 0)
    (fun i1 => i1 = i) (List.range 2)
    (by
      intro d i1 hmem hd
      obtain ⟨hl, hown, hnot⟩ := hinner i1 (List.mem_range.mp hmem) d hd
      refine ⟨hl, fun ho => hown ⟨a1, List.mem_range.mpr ?_, ho, rfl⟩,
        fun ho => hnot (fun a _ h => ho h.1)⟩
      rw [ho]
      exact ha1)
    s.overlap hfit
  have hr : extractFaces 2 s = (List.range 2).foldl
      (fun ex1 i1 => (List.range (s.localEvalCells.getD ((i1 + 1) % 2) 0)).foldl
        (fun ex0 a => extractCell2 2 s.localEvalCells s.evalVector ex0 i1 a) ex1)
      s.overlap := by
    rw [extractFaces, if_neg (by decide)]
  rw [hr]
  exact houter.2.1 ⟨i, List.mem_range.mpr hi, rfl⟩

theorem extractFaces_three (s : StochasticPart) (i a1 b1 : Nat) (hi : i < 3)
    (ha1 : a1 < s.localEvalCells.getD ((i + 1) % 3) 0)
    (hb1 : b1 < s.localEvalCells.getD ((i + 2) % 3) 0)
    (hfit : panelsFit 6 i (a1 + b1 * s.localEvalCells.getD ((i + 1) % 3) 0) s.overlap) :
    panelsAt i (a1 + b1 * s.localEvalCells.getD ((i + 1) % 3) 0) (extractFaces 3 s)
      = (s.evalVector.getD (indicesToIndex 3
            ((((List.replicate 3 0).set ((i + 1) % 3) a1).set ((i + 2) % 3) b1).set i 0)
            s.localEvalCells) 0,
          s.evalVector.getD (indicesToIndex 3
            (((((List.replicate 3 0).set ((i + 1) % 3) a1).set ((i + 2) % 3) b1).set i 0).set
              i (unsignedSub (s.localEvalCells.getD i 0) 1)) s.localEvalCells) 0) := by
  have hinner := fun i1 (hi1 : i1 < 3) a (ha : a < s.localEvalCells.getD ((i1 + 1) % 3) 0) =>
    foldl_read
    (fun ex0 b => extractCell3 3 s.localEvalCells s.evalVector ex0 i1 a b)
    (panelsFit 6 i (a1 + b1 * s.localEvalCells.getD ((i + 1) % 3) 0))
    (panelsAt i (a1 + b1 * s.localEvalCells.getD ((i + 1) % 3) 0))
    (s.evalVector.getD (indicesToIndex 3
        ((((List.replicate 3 0).set ((i + 1) % 3) a1).set ((i + 2) % 3) b1).set i 0)
        s.localEvalCells) 0,
      s.evalVector.getD (indicesToIndex 3
        (((((List.replicate 3 0).set ((i + 1) % 3) a1).set ((i + 2) % 3) b1).set i 0).set
          i (unsignedSub (s.localEvalCells.getD i 0) 1)) s.localEvalCells) 0)
    (fun b => i1 = i ∧ a = a1 ∧ b = b1)
    (List.range (s.localEvalCells.getD ((i1 + 2) % 3) 0))
    (fun d b _ hd =>
      extractCell3_read s.localEvalCells s.evalVector d i i1 a b a1 b1 hi1 ha ha1 hd)
  have hmiddle := fun i1 (hi1 : i1 < 3) => foldl_read
    (fun ex1 a => (List.range (s.localEvalCells.getD ((i1 + 2) % 3) 0)).foldl
      (fun ex0 b => extractCell3 3 s.localEvalCells s.evalVector ex0 i1 a b) ex1)
    (panelsFit 6 i (a1 + b1 * s.localEvalCells.getD ((i + 1) % 3) 0))
    (panelsAt i (a1 + b1 * s.localEvalCells.getD ((i + 1) % 3) 0))
    (s.evalVector.getD (indicesToIndex 3
        ((((List.replicate 3 0).set ((i + 1) % 3) a1).set ((i + 2) % 3) b1).set i 0)
        s.localEvalCells) 0,
      s.evalVector.getD (indicesToIndex 3
        (((((List.replicate 3 0).set ((i + 1) % 3) a1).set ((i + 2) % 3) b1).set i 0).set
          i (unsignedSub (s.localEvalCells.getD i 0) 1)) s.localEvalCells) 0)
    (fun a => i1 = i ∧ a = a1)
    (List.range (s.localEvalCells.getD ((i1 + 1) % 3) 0))
    (by
      intro d a hmem hd
      obtain ⟨hl, hown, hnot⟩ := hinner i1 hi1 a (List.mem_range.mp hmem) d hd
      refine ⟨hl, fun ho => hown ⟨b1, List.mem_range.mpr ?_, ho.1, ho.2, rfl⟩,
        fun ho => hnot (fun b _ h => ho ⟨h.1, h.2.1⟩)⟩
      rw [ho.1]
      exact hb1)
  have houter := foldl_read
    (fun ex2 i1 => (List.range (s.localEvalCells.getD ((i1 + 1) % 3) 0)).foldl
      (fun ex1 a => (List.range (s.localEvalCells.getD ((i1 + 2) % 3) 0)).foldl
        (fun ex0 b => extractCell3 3 s.localEvalCells s.evalVector ex0 i1 a b) ex1) ex2)
    (panelsFit 6 i (a1 + b1 * s.localEvalCells.getD ((i + 1) % 3) 0))
    (panelsAt i (a1 + b1 * s.localEvalCells.getD ((i + 1) % 3) 0))
    (s.evalVector.getD (indicesToIndex 3
        ((((List.replicate 3 0).set ((i + 1) % 3) a1).set ((i + 2) % 3) b1).set i 0)
        s.localEvalCells) 0,
      s.evalVector.getD (indicesToIndex 3
        (((((List.replicate 3 0).set ((i + 1) % 3) a1).set ((i + 2) % 3) b1).set i 0).set
          i (unsignedSub (s.localEvalCells.getD i 0) 1)) s.localEvalCells) 0)
    (fun i1 => i1 = i) (List.range 3)
    (by
      intro d i1 hmem hd
      obtain ⟨hl, hown, hnot⟩ := hmiddle i1 (List.mem_range.mp hmem) d hd
      refine ⟨hl, fun ho => hown ⟨a1, List.mem_range.mpr ?_, ho, rfl⟩,
        fun ho => hnot (fun a _ h => ho h.1)⟩
      rw [ho]
      exact ha1)
    s.overlap hfit
  have hr : extractFaces 3 s = (List.range 3).foldl
      (fun ex2 i1 => (List.range (s.localEvalCells.getD ((i1 + 1) % 3) 0)).foldl
        (fun ex1 a => (List.range (s.localEvalCells.getD ((i1 + 2) % 3) 0)).foldl
          (fun ex0 b => extractCell3 3 s.localEvalCells s.evalVector ex0 i1 a b) ex1) ex2)
      s.overlap := by
    rw [extractFaces, if_pos rfl]
  rw [hr]
  exact houter.2.1 ⟨i, List.mem_range.mpr hi, rfl⟩
theorem unsignedSub_pred (c n : Nat) (h : n + 1 = c) : unsignedSub c 1 = n := by
  unfold unsignedSub
  rw [if_pos (by omega)]
  omega

theorem evaluate_valid (t : Traits) (received : StochasticPart → List ℚ × List (List ℚ))
    (s : StochasticPart) (location : List ℚ) (hvalid : s.evalValid = true) :
    s.evaluate t received location
      = (s, s.lookup t.dim (t.coordsToIndices location s.localEvalOffset)) := by
  unfold StochasticPart.evaluate
  simp only [hvalid, if_true]

theorem extract_panels_two (u : StochasticPart) (i : Nat) (n : List Nat) (hi : i < 2)
    (hn : n.length = 2) (hin : ∀ j, j < 2 → n.getD j 0 < u.localEvalCells.getD j 0)
    (hfit : panelsFit (2 * 2) i (faceIndex 2 i n u.localEvalCells) u.overlap) :
    (n.getD i 0 = 0 →
      ((extractFaces 2 u).getD (2 * i) []).getD (faceIndex 2 i n u.localEvalCells) 0
        = u.evalVector.getD (indicesToIndex 2 n u.localEvalCells) 0) ∧
    (n.getD i 0 + 1 = u.localEvalCells.getD i 0 →
      ((extractFaces 2 u).getD (2 * i + 1) []).getD (faceIndex 2 i n u.localEvalCells) 0
        = u.evalVector.getD (indicesToIndex 2 n u.localEvalCells) 0) := by
  obtain ⟨n0, n1, rfl⟩ := list_length_two n hn
  have h0 := hin 0 (by omega)
  have h1 := hin 1 (by omega)
  rcases (by omega : i = 0 ∨ i = 1) with rfl | rfl
  · have key := extractFaces_two u 0 n1 (by omega) h1 hfit
    have k1 := congrArg Prod.fst key
    have k2 := congrArg Prod.snd key
    refine ⟨fun hz => ?_, fun hz => ?_⟩
    · have hz0 : n0 = 0 := hz
      subst hz0
      exact k1
    · have hz0 : n0 + 1 = u.localEvalCells.getD 0 0 := hz
      rw [unsignedSub_pred _ _ hz0] at k2
      exact k2
  · have key := extractFaces_two u 1 n0 (by omega) h0 hfit
    have k1 := congrArg Prod.fst key
    have k2 := congrArg Prod.snd key
    refine ⟨fun hz => ?_, fun hz => ?_⟩
    · have hz0 : n1 = 0 := hz
      subst hz0
      exact k1
    · have hz0 : n1 + 1 = u.localEvalCells.getD 1 0 := hz
      rw [unsignedSub_pred _ _ hz0] at k2
      exact k2

theorem extract_panels_three (u : StochasticPart) (i : Nat) (n : List Nat) (hi : i < 3)
    (hn : n.length = 3) (hin : ∀ j, j < 3 → n.getD j 0 < u.localEvalCells.getD j 0)
    (hfit : panelsFit (2 * 3) i (faceIndex 3 i n u.localEvalCells) u.overlap) :
    (n.getD i 0 = 0 →
      ((extractFaces 3 u).getD (2 * i) []).getD (faceIndex 3 i n u.localEvalCells) 0
        = u.evalVector.getD (indicesToIndex 3 n u.localEvalCells) 0) ∧
    (n.getD i 0 + 1 = u.localEvalCells.getD i 0 →
      ((extractFaces 3 u).getD (2 * i + 1) []).getD (faceIndex 3 i n u.localEvalCells) 0
        = u.evalVector.getD (indicesToIndex 3 n u.localEvalCells) 0) := by
  obtain ⟨n0, n1, n2, rfl⟩ := list_length_three n hn
  have h0 := hin 0 (by omega)
  have h1 := hin 1 (by omega)
  have h2 := hin 2 (by omega)
  rcases (by omega : i = 0 ∨ i = 1 ∨ i = 2) with rfl | rfl | rfl
  · have key := extractFaces_three u 0 n1 n2 (by omega) h1 h2 hfit
    have k1 := congrArg Prod.fst key
    have k2 := congrArg Prod.snd key
    refine ⟨fun hz => ?_, fun hz => ?_⟩
    · have hz0 : n0 = 0 := hz
      subst hz0
      exact k1
    · have hz0 : n0 + 1 = u.localEvalCells.getD 0 0 := hz
      rw [unsignedSub_pred _ _ hz0] at k2
      exact k2
  · have key := extractFaces_three u 1 n2 n0 (by omega) h2 h0 hfit
    have k1 := congrArg Prod.fst key
    have k2 := congrArg Prod.snd key
    refine ⟨fun hz => ?_, fun hz => ?_⟩
    · have hz0 : n1 = 0 := hz
      subst hz0
      exact k1
    · have hz0 : n1 + 1 = u.localEvalCells.getD 1 0 := hz
      rw [unsignedSub_pred _ _ hz0] at k2
      exact k2
  · have key := extractFaces_three u 2 n0 n1 (by omega) h0 h1 hfit
    have k1 := congrArg Prod.fst key
    have k2 := congrArg Prod.snd key
    refine ⟨fun hz => ?_, fun hz => ?_⟩
    · have hz0 : n2 = 0 := hz
      subst hz0
      exact k1
    · have hz0 : n2 + 1 = u.localEvalCells.getD 2 0 := hz
      rw [unsignedSub_pred _ _ hz0] at k2
      exact k2

/-- C17. Lookup rule of `StochasticPart::evaluate` in 2D and 3D with a valid eval view, for the
block-local index tuple `e` that `coordsToIndices` returns. If every component is below
`localEvalCells[i]` the result is `evalVector[indicesToIndex(e, localEvalCells)]`. If only the
component of axis `i` is outside, the result is read at the face index formed from the other
components, from panel `2i+1` when `e[i] == localEvalCells[i]` and from panel `2i` when
`e[i] > localEvalCells[i]`, which is the case of an index one below 0: the `unsigned`
difference `g - (g + 1)` is `2^32 - 1`. The extraction loops of `exchangeOverlap` store the
lowest and the highest layer of a block under the same face index in the panels `2i` and
`2i+1` that they send. -/
theorem evaluate_lookup_rule (t : Traits)
    (received : StochasticPart → List ℚ × List (List ℚ)) (s : StochasticPart)
    (location : List ℚ) (e : List Nat) (hdim : t.dim = 2 ∨ t.dim = 3)
    (hvalid : s.evalValid = true)
    (he : t.coordsToIndices location s.localEvalOffset = e) :
    ((∀ i, i < t.dim → e.getD i 0 < s.localEvalCells.getD i 0) →
      (s.evaluate t received location).2
        = s.evalVector.getD (indicesToIndex t.dim e s.localEvalCells) 0) ∧
    (∀ i, i < t.dim →
      (∀ j, j < t.dim → j ≠ i → e.getD j 0 < s.localEvalCells.getD j 0) →
      (e.getD i 0 = s.localEvalCells.getD i 0 →
        (s.evaluate t received location).2
          = (s.overlap.getD (2 * i + 1) []).getD (faceIndex t.dim i e s.localEvalCells) 0) ∧
      (s.localEvalCells.getD i 0 < e.getD i 0 →
        (s.evaluate t received location).2
          = (s.overlap.getD (2 * i) []).getD (faceIndex t.dim i e s.localEvalCells) 0)) ∧
    (∀ g, unsignedSub g (g + 1) = 2 ^ 32 - 1) ∧
    (∀ (u : StochasticPart) (i : Nat) (n : List Nat), i < t.dim → n.length = t.dim →
      (∀ j, j < t.dim → n.getD j 0 < u.localEvalCells.getD j 0) →
      panelsFit (2 * t.dim) i (faceIndex t.dim i n u.localEvalCells) u.overlap →
      (n.getD i 0 = 0 →
        ((extractFaces t.dim u).getD (2 * i) []).getD
            (faceIndex t.dim i n u.localEvalCells) 0
          = u.evalVector.getD (indicesToIndex t.dim n u.localEvalCells) 0) ∧
      (n.getD i 0 + 1 = u.localEvalCells.getD i 0 →
        ((extractFaces t.dim u).getD (2 * i + 1) []).getD
            (faceIndex t.dim i n u.localEvalCells) 0
          = u.evalVector.getD (indicesToIndex t.dim n u.localEvalCells) 0)) := by
  have hlen : e.length = t.dim := by
    rw [← he, Traits.coordsToIndices, length_tabulate]
  rw [evaluate_valid t received s location hvalid, he]
  have hsub : ∀ g, unsignedSub g (g + 1) = 2 ^ 32 - 1 := by
    intro g
    unfold unsignedSub
    rw [if_neg (by omega)]
    omega
  rcases hdim with hd | hd
  · rw [hd] at hlen ⊢
    obtain ⟨e0, e1, rfl⟩ := list_length_two e hlen
    obtain ⟨hA, hB, hC⟩ := lookup_two s e0 e1
    refine ⟨fun h => hA (h 0 (by omega)) (h 1 (by omega)), ?_, hsub, ?_⟩
    · intro i hi hj
      rcases (by omega : i = 0 ∨ i = 1) with rfl | rfl
      · exact hB (hj 1 (by omega) (by omega))
      · exact hC (hj 0 (by omega) (by omega))
    · intro u i n hi hn hin hfit
      exact extract_panels_two u i n hi hn hin hfit
  · rw [hd] at hlen ⊢
    obtain ⟨e0, e1, e2, rfl⟩ := list_length_three e hlen
    obtain ⟨hA, hB, hC, hD⟩ := lookup_three s e0 e1 e2
    refine ⟨fun h => hA (h 0 (by omega)) (h 1 (by omega)) (h 2 (by omega)), ?_, hsub, ?_⟩
    · intro i hi hj
      rcases (by omega : i = 0 ∨ i = 1 ∨ i = 2) with rfl | rfl | rfl
      · exact hB (hj 1 (by omega) (by omega)) (hj 2 (by omega) (by omega))
      · exact hC (hj 0 (by omega) (by omega)) (hj 2 (by omega) (by omega))
      · exact hD (hj 0 (by omega) (by omega)) (hj 1 (by omega) (by omega))
    · intro u i n hi hn hin hfit
      exact extract_panels_three u i n hi hn hin hfit
theorem evaluate_lookup_rule_witness :
    ((∀ i, i < (Traits.strip 2 true false).dim →
        ([1, 0] : List Nat).getD i 0
          < ({ StochasticPart.strip 2 [5, 7] with
              evalValid := true, evalVector := [5, 7] }).localEvalCells.getD i 0) →
      (({ StochasticPart.strip 2 [5, 7] with
          evalValid := true, evalVector := [5, 7] }).evaluate (Traits.strip 2 true false)
          (fun u => (u.evalVector, u.overlap)) [3 / 4, 1 / 2]).2
        = ({ StochasticPart.strip 2 [5, 7] with
            evalValid := true, evalVector := [5, 7] }).evalVector.getD
          (indicesToIndex (Traits.strip 2 true false).dim [1, 0]
            ({ StochasticPart.strip 2 [5, 7] with
              evalValid := true, evalVector := [5, 7] }).localEvalCells) 0) ∧
    (({ StochasticPart.strip 2 [5, 7] with
        evalValid := true, evalVector := [5, 7] }).evaluate (Traits.strip 2 true false)
        (fun u => (u.evalVector, u.overlap)) [3 / 4, 1 / 2]).2 = 7 :=
  ⟨(evaluate_lookup_rule (Traits.strip 2 true false) (fun u => (u.evalVector, u.overlap))
      { StochasticPart.strip 2 [5, 7] with evalValid := true, evalVector := [5, 7] }
      [3 / 4, 1 / 2] [1, 0] (Or.inl rfl) rfl (by decide!)).1,
    by decide!⟩

/-! ## Theorems: the default load balancer -/

theorem foldMax_spec (f : Nat → ℚ) (m0 : ℚ) (n : Nat) :
    m0 ≤ (List.range n).foldl (fun m k => if f k > m then f k else m) m0 ∧
    (∀ k, k < n → f k ≤ (List.range n).foldl (fun m k => if f k > m then f k else m) m0) ∧
    ((List.range n).foldl (fun m k => if f k > m then f k else m) m0 = m0 ∨
      ∃ k, k < n ∧ (List.range n).foldl (fun m k => if f k > m then f k else m) m0 = f k) := by
  induction n with
  | zero =>
    refine ⟨le_refl _, ?_, Or.inl rfl⟩
    intro k hk
    omega
  | succ n ih =>
    obtain ⟨h1, h2, h3⟩ := ih
    rw [List.range_succ, List.foldl_append]
    simp only [List.foldl_cons, List.foldl_nil]
    generalize (List.range n).foldl (fun m k => if f k > m then f k else m) m0 = r at h1 h2 h3 ⊢
    split_ifs with h
    · refine ⟨le_trans h1 (le_of_lt h), ?_, Or.inr ⟨n, by omega, rfl⟩⟩
      intro k hk
      rcases Nat.lt_succ_iff_lt_or_eq.mp hk with hlt | rfl
      · exact le_trans (h2 k hlt) (le_of_lt h)
      · exact le_refl _
    · refine ⟨h1, ?_, ?_⟩
      · intro k hk
        rcases Nat.lt_succ_iff_lt_or_eq.mp hk with hlt | rfl
        · exact h2 k hlt
        · exact not_lt.mp h
      · rcases h3 with h3 | ⟨k, hk, h3⟩
        · exact Or.inl h3
        · exact Or.inr ⟨k, by omega, h3⟩

theorem axisCost_spec (size c : List Nat) (k : Nat) (hc : 0 < c.getD k 0) :
    axisCost size c k
      = (if c.getD k 0 ∣ size.getD k 0 then (size.getD k 0 : ℚ) / (c.getD k 0 : ℚ)
          else (size.getD k 0 : ℚ) / (c.getD k 0 : ℚ) * 3) ∧
    0 ≤ axisCost size c k ∧ axisCost size c k ≤ 3 * (size.getD k 0 : ℚ) := by
  have hq : (0 : ℚ) ≤ (size.getD k 0 : ℚ) / (c.getD k 0 : ℚ) :=
    div_nonneg (Nat.cast_nonneg _) (Nat.cast_nonneg _)
  have hle : (size.getD k 0 : ℚ) / (c.getD k 0 : ℚ) ≤ (size.getD k 0 : ℚ) := by
    apply div_le_self (Nat.cast_nonneg _)
    exact_mod_cast hc
  unfold axisCost
  by_cases hd : c.getD k 0 ∣ size.getD k 0
  · have hm : size.getD k 0 % c.getD k 0 = 0 := Nat.mod_eq_zero_of_dvd hd
    rw [hm, if_pos hd, if_neg (by norm_num)]
    exact ⟨rfl, hq, by linarith⟩
  · have hm : 1 ≤ size.getD k 0 % c.getD k 0 := by
      rcases Nat.eq_zero_or_pos (size.getD k 0 % c.getD k 0) with h0 | h0
      · exact absurd (Nat.dvd_of_mod_eq_zero h0) hd
      · exact h0
    have hm2 : (1 : ℚ) ≤ ((size.getD k 0 % c.getD k 0 : Nat) : ℚ) := by exact_mod_cast hm
    rw [if_neg hd, if_pos (by linarith)]
    exact ⟨rfl, by linarith, by linarith⟩

theorem slabCost_spec (dim : Nat) (size c : List Nat) (hdim : 1 ≤ dim)
    (hc : ∀ k, k < dim → 0 < c.getD k 0) :
    (∀ k, k < dim → axisCost size c k ≤ slabCost dim size c) ∧
    (∃ k, k < dim ∧ slabCost dim size c = axisCost size c k) := by
  obtain ⟨h1, h2, h3⟩ := foldMax_spec (axisCost size c) (-1) dim
  refine ⟨h2, ?_⟩
  rcases h3 with h3 | h3
  · exfalso
    have hle := h2 0 (by omega)
    have h0 := (axisCost_spec size c 0 (hc 0 (by omega))).2.1
    rw [h3] at hle
    linarith
  · exact h3

theorem slabCost_bound (dim : Nat) (size c : List Nat) (hdim : 1 ≤ dim)
    (hc : ∀ k, k < dim → 0 < c.getD k 0) (hsize : ∀ k, k < dim → size.getD k 0 < 2 ^ 31) :
    slabCost dim size c < ((10 ^ 100 : Nat) : ℚ) := by
  obtain ⟨k, hk, heq⟩ := (slabCost_spec dim size c hdim hc).2
  have h1 := (axisCost_spec size c k (hc k hk)).2.2
  have h2 : (size.getD k 0 : ℚ) < 2 ^ 31 := by exact_mod_cast hsize k hk
  rw [heq]
  have h3 : (3 : ℚ) * 2 ^ 31 < ((10 ^ 100 : Nat) : ℚ) := by norm_num
  linarith
theorem list_eq_of_getD (l1 l2 : List Nat) (hlen : l1.length = l2.length)
    (h : ∀ j, l1.getD j 0 = l2.getD j 0) : l1 = l2 := by
  apply List.ext_getElem hlen
  intro j h1 h2
  have := h j
  rw [List.getD_eq_getElem _ _ h1, List.getD_eq_getElem _ _ h2] at this
  exact this

theorem candidate_zero (P : Nat) (t c : List Nat) (ht : 0 < t.length)
    (h : Candidate 0 P t c) : c = t.set 0 P := by
  obtain ⟨hlen, habove, -, hprod⟩ := h
  apply list_eq_of_getD
  · rw [List.length_set, hlen]
  · intro j
    rw [getD_set_eq]
    split_ifs with hj
    · rw [hj.1]
      exact hprod
    · apply habove
      rcases Nat.eq_zero_or_pos j with h0 | h0
      · exact absurd ⟨h0, ht⟩ hj
      · exact h0

theorem candidate_leaf (P : Nat) (t : List Nat) (ht : 0 < t.length) (hP : 1 ≤ P) :
    Candidate 0 P t (t.set 0 P) := by
  refine ⟨List.length_set _ _ _, ?_, ?_, ?_⟩
  · intro j hj
    rw [getD_set_eq, if_neg (fun h => by omega)]
  · intro j hj
    have : j = 0 := by omega
    subst this
    rw [getD_set_eq, if_pos ⟨rfl, ht⟩]
    exact hP
  · show (t.set 0 P).getD 0 0 = P
    rw [getD_set_eq, if_pos ⟨rfl, ht⟩]

theorem candidate_descend (i P k : Nat) (t0 t1 c : List Nat) (h : Candidate (i + 1) P t0 c)
    (hk : c.getD (i + 1) 0 = k) (hlen : t1.length = t0.length)
    (hframe : ∀ j, i + 1 < j → t1.getD j 0 = t0.getD j 0) (hi : i + 1 < t1.length) :
    Candidate i (P / k) (t1.set (i + 1) k) c ∧ P % k = 0 ∧ 1 ≤ k := by
  obtain ⟨hl, habove, hpos, hprod⟩ := h
  have hkpos : 0 < k := by
    rw [← hk]
    exact hpos (i + 1) (le_refl _)
  have hP : P = k * lowerProduct c i := by
    rw [← hprod, ← hk]
    rfl
  refine ⟨⟨?_, ?_, ?_, ?_⟩, ?_, hkpos⟩
  · rw [List.length_set, hlen, hl]
  · intro j hj
    rw [getD_set_eq]
    split_ifs with h1
    · rw [h1.1]
      exact hk
    · have hne : j ≠ i + 1 := fun e => h1 ⟨e, hi⟩
      rw [hframe j (by omega)]
      exact habove j (by omega)
  · intro j hj
    exact hpos j (by omega)
  · rw [hP, Nat.mul_div_cancel_left _ hkpos]
  · rw [hP, Nat.mul_mod_right]

theorem candidate_ascend (i P k : Nat) (t0 t1 c : List Nat)
    (h : Candidate i (P / k) (t1.set (i + 1) k) c) (hdiv : P % k = 0) (hk : 1 ≤ k)
    (hlen : t1.length = t0.length)
    (hframe : ∀ j, i + 1 < j → t1.getD j 0 = t0.getD j 0) (hi : i + 1 < t1.length) :
    Candidate (i + 1) P t0 c := by
  obtain ⟨hl, habove, hpos, hprod⟩ := h
  have hci : c.getD (i + 1) 0 = k := by
    rw [habove (i + 1) (by omega), getD_set_eq, if_pos ⟨rfl, hi⟩]
  refine ⟨?_, ?_, ?_, ?_⟩
  · rw [hl, List.length_set, hlen]
  · intro j hj
    rw [habove j (by omega), getD_set_eq, if_neg (fun h => by omega)]
    exact hframe j hj
  · intro j hj
    rcases Nat.lt_succ_iff_lt_or_eq.mp (Nat.lt_succ_of_le hj) with hlt | rfl
    · exact hpos j (by omega)
    · rw [hci]
      exact hk
  · show c.getD (i + 1) 0 * lowerProduct c i = P
    rw [hci, hprod]
    exact Nat.mul_div_cancel' (Nat.dvd_of_mod_eq_zero hdiv)

theorem optimize_dims_spec (dim : Nat) (size : List Nat) :
    ∀ (i P : Nat) (b : Balance), i < b.trydims.length → 1 ≤ P →
      (optimize_dims dim size i P b).trydims.length = b.trydims.length ∧
      (∀ j, i < j →
        (optimize_dims dim size i P b).trydims.getD j 0 = b.trydims.getD j 0) ∧
      (optimize_dims dim size i P b).opt ≤ b.opt ∧
      (∀ c, Candidate i P b.trydims c →
        (optimize_dims dim size i P b).opt ≤ slabCost dim size c) ∧
      (((optimize_dims dim size i P b).dims = b.dims ∧
          (optimize_dims dim size i P b).opt = b.opt) ∨
        (Candidate i P b.trydims (optimize_dims dim size i P b).dims ∧
          (optimize_dims dim size i P b).opt
            = slabCost dim size (optimize_dims dim size i P b).dims)) := by
  intro i
  induction i with
  | zero =>
    intro P b hi hP
    have hframe : ∀ j, 0 < j → (b.trydims.set 0 P).getD j 0 = b.trydims.getD j 0 := by
      intro j hj
      rw [getD_set_eq, if_neg (fun h => by omega)]
    rw [optimize_dims]
    split_ifs with h
    · refine ⟨List.length_set _ _ _, hframe, le_of_lt h, ?_,
        Or.inr ⟨candidate_leaf P b.trydims hi hP, rfl⟩⟩
      intro c hc
      rw [candidate_zero P b.trydims c hi hc]
    · refine ⟨List.length_set _ _ _, hframe, le_refl _, ?_, Or.inl ⟨rfl, rfl⟩⟩
      intro c hc
      rw [candidate_zero P b.trydims c hi hc]
      exact not_lt.mp h
  | succ i ih =>
    intro P b hi hP
    have hfold : ∀ (ks : List Nat) (b1 : Balance),
        b1.trydims.length = b.trydims.length →
        (∀ j, i + 1 < j → b1.trydims.getD j 0 = b.trydims.getD j 0) →
        ((ks.foldl (fun b1 k =>
            if P % k = 0 then
              optimize_dims dim size i (P / k) { b1 with trydims := b1.trydims.set (i + 1) k }
            else b1) b1).trydims.length = b.trydims.length ∧
          (∀ j, i + 1 < j → (ks.foldl (fun b1 k =>
            if P % k = 0 then
              optimize_dims dim size i (P / k) { b1 with trydims := b1.trydims.set (i + 1) k }
            else b1) b1).trydims.getD j 0 = b.trydims.getD j 0) ∧
          (ks.foldl (fun b1 k =>
            if P % k = 0 then
              optimize_dims dim size i (P / k) { b1 with trydims := b1.trydims.set (i + 1) k }
            else b1) b1).opt ≤ b1.opt ∧
          (∀ c, Candidate (i + 1) P b.trydims c → c.getD (i + 1) 0 ∈ ks →
            (ks.foldl (fun b1 k =>
              if P % k = 0 then
                optimize_dims dim size i (P / k)
                  { b1 with trydims := b1.trydims.set (i + 1) k }
              else b1) b1).opt ≤ slabCost dim size c) ∧
          (((ks.foldl (fun b1 k =>
              if P % k = 0 then
                optimize_dims dim size i (P / k)
                  { b1 with trydims := b1.trydims.set (i + 1) k }
              else b1) b1).dims = b1.dims ∧
            (ks.foldl (fun b1 k =>
              if P % k = 0 then
                optimize_dims dim size i (P / k)
                  { b1 with trydims := b1.trydims.set (i + 1) k }
              else b1) b1).opt = b1.opt) ∨
            (Candidate (i + 1) P b.trydims (ks.foldl (fun b1 k =>
              if P % k = 0 then
                optimize_dims dim size i (P / k)
                  { b1 with trydims := b1.trydims.set (i + 1) k }
              else b1) b1).dims ∧
            (ks.foldl (fun b1 k =>
              if P % k = 0 then
                optimize_dims dim size i (P / k)
                  { b1 with trydims := b1.trydims.set (i + 1) k }
              else b1) b1).opt = slabCost dim size (ks.foldl (fun b1 k =>
              if P % k = 0 then
                optimize_dims dim size i (P / k)
                  { b1 with trydims := b1.trydims.set (i + 1) k }
              else b1) b1).dims))) := by
      intro ks
      induction ks with
      | nil =>
        intro b1 hl hf
        refine ⟨hl, hf, le_refl _, ?_, Or.inl ⟨rfl, rfl⟩⟩
        intro c _ hmem
        cases hmem
      | cons k ks ihks =>
        intro b1 hl hf
        rw [List.foldl_cons]
        by_cases hdiv : P % k = 0
        · rw [if_pos hdiv]
          by_cases hk : 1 ≤ k
          · have hkP : k ≤ P := Nat.le_of_dvd (by omega) (Nat.dvd_of_mod_eq_zero hdiv)
            have hq : 1 ≤ P / k := (Nat.one_le_div_iff (by omega)).mpr hkP
            obtain ⟨r1, r2, r3, r4, r5⟩ := ih (P / k)
              { b1 with trydims := b1.trydims.set (i + 1) k }
              (by show i < (b1.trydims.set (i + 1) k).length
                  rw [List.length_set, hl]; omega) hq
            have hl2 : (optimize_dims dim size i (P / k)
                { b1 with trydims := b1.trydims.set (i + 1) k }).trydims.length
                = b.trydims.length := by
              rw [r1]
              show (b1.trydims.set (i + 1) k).length = _
              rw [List.length_set, hl]
            have hf2 : ∀ j, i + 1 < j → (optimize_dims dim size i (P / k)
                { b1 with trydims := b1.trydims.set (i + 1) k }).trydims.getD j 0
                = b.trydims.getD j 0 := by
              intro j hj
              rw [r2 j (by omega)]
              show (b1.trydims.set (i + 1) k).getD j 0 = _
              rw [getD_set_eq, if_neg (fun h => by omega)]
              exact hf j hj
            obtain ⟨s1, s2, s3, s4, s5⟩ := ihks _ hl2 hf2
            refine ⟨s1, s2, le_trans s3 r3, ?_, ?_⟩
            · intro c hc hmem
              rcases List.mem_cons.mp hmem with heq | hin
              · have hd := candidate_descend i P k b.trydims b1.trydims c hc heq hl hf
                  (by rw [hl]; exact hi)
                exact le_trans s3 (r4 c hd.1)
              · exact s4 c hc hin
            · rcases s5 with ⟨d1, d2⟩ | d
              · rcases r5 with ⟨e1, e2⟩ | ⟨e1, e2⟩
                · exact Or.inl ⟨d1.trans e1, d2.trans e2⟩
                · refine Or.inr ⟨?_, ?_⟩
                  · rw [d1]
                    exact candidate_ascend i P k b.trydims b1.trydims _ e1 hdiv hk hl hf
                      (by rw [hl]; exact hi)
                  · rw [d2, d1]
                    exact e2
              · exact Or.inr d
          · have hk0 : k = 0 := by omega
            subst hk0
            have hP0 : P = 0 := by simpa using hdiv
            omega
        · rw [if_neg hdiv]
          obtain ⟨s1, s2, s3, s4, s5⟩ := ihks b1 hl hf
          refine ⟨s1, s2, s3, ?_, s5⟩
          intro c hc hmem
          rcases List.mem_cons.mp hmem with heq | hin
          · have hd := candidate_descend i P k b.trydims b1.trydims c hc heq hl hf
              (by rw [hl]; exact hi)
            exact absurd hd.2.1 hdiv
          · exact s4 c hc hin
    obtain ⟨s1, s2, s3, s4, s5⟩ := hfold (List.range' 1 P) b rfl (fun _ _ => rfl)
    rw [optimize_dims]
    refine ⟨s1, fun j hj => s2 j hj, s3, ?_, s5⟩
    intro c hc
    apply s4 c hc
    have hd := candidate_descend i P (c.getD (i + 1) 0) b.trydims b.trydims c hc rfl rfl
      (fun _ _ => rfl) hi
    have hle : c.getD (i + 1) 0 ≤ P := Nat.le_of_dvd (by omega) (Nat.dvd_of_mod_eq_zero hd.2.1)
    rw [List.mem_range'_1]
    exact ⟨hd.2.2, by omega⟩
theorem candidate_top (dim P : Nat) (c : List Nat) (hdim : 1 ≤ dim) (hlen : c.length = dim)
    (hpos : ∀ k, k < dim → 0 < c.getD k 0) (hprod : lowerProduct c (dim - 1) = P) :
    Candidate (dim - 1) P (List.replicate dim 0) c := by
  refine ⟨by rw [hlen, List.length_replicate], ?_, fun j hj => hpos j (by omega), hprod⟩
  intro j hj
  rw [List.getD_eq_default _ _ (by omega), List.getD_eq_default _ _
    (by rw [List.length_replicate]; omega)]

theorem lowerProduct_first (dim P : Nat) (hdim : 1 ≤ dim) :
    ∀ i, i < dim → lowerProduct ((List.replicate dim 1).set 0 P) i = P := by
  intro i
  induction i with
  | zero =>
    intro _
    show ((List.replicate dim 1).set 0 P).getD 0 0 = P
    rw [getD_set_eq, if_pos ⟨rfl, by rw [List.length_replicate]; omega⟩]
  | succ i ih =>
    intro hi
    show ((List.replicate dim 1).set 0 P).getD (i + 1) 0
      * lowerProduct ((List.replicate dim 1).set 0 P) i = P
    rw [ih (by omega), getD_set_eq, if_neg (fun h => by omega),
      List.getD_eq_getElem _ _ (by rw [List.length_replicate]; omega)]
    simp

theorem lowerProduct_prod (dim : Nat) (c : List Nat) (hdim : dim = 1 ∨ dim = 2 ∨ dim = 3)
    (hlen : c.length = dim) : lowerProduct c (dim - 1) = c.prod := by
  rcases hdim with rfl | rfl | rfl
  · obtain ⟨c0, rfl⟩ := list_length_one c hlen
    simp [lowerProduct]
  · obtain ⟨c0, c1, rfl⟩ := list_length_two c hlen
    simp [lowerProduct, Nat.mul_comm]
  · obtain ⟨c0, c1, c2, rfl⟩ := list_length_three c hlen
    simp only [lowerProduct, List.getD_cons_zero, List.getD_cons_succ, List.prod_cons,
      List.prod_nil]
    ring

theorem loadbalance_spec (dim : Nat) (size : List Nat) (P : Nat) (dims0 : List Nat)
    (hdim : 1 ≤ dim) (hsize : ∀ k, k < dim → size.getD k 0 < 2 ^ 31) (hP : 1 ≤ P) :
    Candidate (dim - 1) P (List.replicate dim 0) (loadbalance dim size P dims0) ∧
    ∀ c, Candidate (dim - 1) P (List.replicate dim 0) c →
      slabCost dim size (loadbalance dim size P dims0) ≤ slabCost dim size c := by
  obtain ⟨-, -, -, r4, r5⟩ := optimize_dims_spec dim size (dim - 1) P
    { dims := dims0, trydims := List.replicate dim 0, opt := ((10 ^ 100 : Nat) : ℚ) }
    (by show dim - 1 < (List.replicate dim 0).length
        rw [List.length_replicate]; omega) hP
  have hfirst : Candidate (dim - 1) P (List.replicate dim 0)
      ((List.replicate dim 1).set 0 P) := by
    apply candidate_top dim P _ hdim
    · rw [List.length_set, List.length_replicate]
    · intro k hk
      rw [getD_set_eq]
      split_ifs
      · exact hP
      · rw [List.getD_eq_getElem _ _ (by rw [List.length_replicate]; exact hk)]
        simp
    · exact lowerProduct_first dim P hdim (dim - 1) (by omega)
  have hbound := slabCost_bound dim size _ hdim (fun k hk => hfirst.2.2.1 k (by omega)) hsize
  have hopt := r4 _ hfirst
  rcases r5 with ⟨-, e2⟩ | ⟨e1, e2⟩
  · exfalso
    rw [e2] at hopt
    have : ((10 ^ 100 : Nat) : ℚ) < ((10 ^ 100 : Nat) : ℚ) := lt_of_le_of_lt hopt hbound
    exact lt_irrefl _ this
  · refine ⟨e1, fun c hc => ?_⟩
    have := r4 c hc
    rw [e2] at this
    exact this

/-- C14. `DefaultLoadBalance::loadbalance` picks an optimal factorisation, in exact
arithmetic: for `dim ∈ {1,2,3}`, positive `size[k]` in the range of `int` and `P ≥ 1`, the
returned `dims` has `dim` positive entries with product `P`, and its cost is at most the cost
of every array of `dim` positive integers with product `P`. The cost of an array `c` is the
largest of the per-axis costs, `size[k] / c[k]` when `c[k]` divides `size[k]` and three times
that otherwise. -/
theorem loadbalance_optimal (dim : Nat) (size : List Nat) (P : Nat) (dims0 : List Nat)
    (hdim : dim = 1 ∨ dim = 2 ∨ dim = 3)
    (hsize : ∀ k, k < dim → 0 < size.getD k 0 ∧ size.getD k 0 < 2 ^ 31) (hP : 1 ≤ P) :
    (loadbalance dim size P dims0).length = dim ∧
    (∀ k, k < dim → 0 < (loadbalance dim size P dims0).getD k 0) ∧
    (loadbalance dim size P dims0).prod = P ∧
    (∀ c : List Nat, c.length = dim → (∀ k, k < dim → 0 < c.getD k 0) → c.prod = P →
      slabCost dim size (loadbalance dim size P dims0) ≤ slabCost dim size c) ∧
    (∀ c : List Nat, (∀ k, k < dim → 0 < c.getD k 0) →
      (∀ k, k < dim → axisCost size c k ≤ slabCost dim size c) ∧
      (∃ k, k < dim ∧ slabCost dim size c = axisCost size c k) ∧
      (∀ k, k < dim → axisCost size c k
        = if c.getD k 0 ∣ size.getD k 0 then (size.getD k 0 : ℚ) / (c.getD k 0 : ℚ)
          else (size.getD k 0 : ℚ) / (c.getD k 0 : ℚ) * 3)) := by
  have hd1 : 1 ≤ dim := by omega
  obtain ⟨hcand, hbest⟩ := loadbalance_spec dim size P dims0 hd1
    (fun k hk => (hsize k hk).2) hP
  have hlen : (loadbalance dim size P dims0).length = dim := by
    rw [hcand.1, List.length_replicate]
  refine ⟨hlen, fun k hk => hcand.2.2.1 k (by omega), ?_, ?_, ?_⟩
  · rw [← lowerProduct_prod dim _ hdim hlen]
    exact hcand.2.2.2
  · intro c hc hpos hprod
    apply hbest
    apply candidate_top dim P c hd1 hc hpos
    rw [lowerProduct_prod dim c hdim hc]
    exact hprod
  · intro c hpos
    obtain ⟨h1, h2⟩ := slabCost_spec dim size c hd1 hpos
    exact ⟨h1, h2, fun k hk => (axisCost_spec size c k (hpos k hk)).1⟩

theorem loadbalance_optimal_witness :
    (loadbalance 2 [12, 4] 6 [0, 0]).length = 2 ∧
    (∀ k, k < 2 → 0 < (loadbalance 2 [12, 4] 6 [0, 0]).getD k 0) ∧
    (loadbalance 2 [12, 4] 6 [0, 0]).prod = 6 ∧
    (∀ c : List Nat, c.length = 2 → (∀ k, k < 2 → 0 < c.getD k 0) → c.prod = 6 →
      slabCost 2 [12, 4] (loadbalance 2 [12, 4] 6 [0, 0]) ≤ slabCost 2 [12, 4] c) ∧
    (∀ c : List Nat, (∀ k, k < 2 → 0 < c.getD k 0) →
      (∀ k, k < 2 → axisCost [12, 4] c k ≤ slabCost 2 [12, 4] c) ∧
      (∃ k, k < 2 ∧ slabCost 2 [12, 4] c = axisCost [12, 4] c k) ∧
      (∀ k, k < 2 → axisCost [12, 4] c k
        = if c.getD k 0 ∣ ([12, 4] : List Nat).getD k 0 then
            ((([12, 4] : List Nat).getD k 0 : Nat) : ℚ) / (c.getD k 0 : ℚ)
          else ((([12, 4] : List Nat).getD k 0 : Nat) : ℚ) / (c.getD k 0 : ℚ) * 3)) :=
  loadbalance_optimal 2 [12, 4] 6 [0, 0] (by decide) (by decide) (by decide)

theorem loadbalance_example : loadbalance 2 [12, 4] 6 [0, 0] = [6, 1] := by
  decide!

/-! ## Theorems: bounded work of the inner conjugate gradients -/

theorem cgStep_count (t : Traits) (B : Backend) (precondition : Bool) (solution : List ℚ)
    (firstValue : ℚ) (m m1 : MatrixState) (c c1 : CGState)
    (h : cgStep t B precondition solution firstValue m c = (m1, .ok c1)) :
    c1.count = c.count + 1 := by
  unfold cgStep at h
  rcases hq : multiplyExtended t B m c.direction with ⟨m2, e | mtd⟩
  · rw [hq] at h
    simp at h
  · rw [hq] at h
    simp only [] at h
    split at h
    · simp at h
    · simp only [Prod.mk.injEq, Except.ok.injEq] at h
      rw [← h.2]

theorem cgWhile_eq_cgLoop (t : Traits) (B : Backend) (precondition : Bool)
    (solution : List ℚ) (firstValue : ℚ) (n : Nat) :
    ∀ (k : Nat) (m : MatrixState) (c : CGState), c.count + k = n →
      cgWhile t B precondition solution firstValue n (k + 1) m c
        = some (cgLoop t B precondition solution firstValue k m c) := by
  intro k
  induction k with
  | zero =>
    intro m c hc
    rw [cgWhile, if_neg (fun h => by omega), cgLoop]
  | succ k ih =>
    intro m c hc
    rw [cgWhile, cgLoop]
    by_cases hconv : c.converged = true
    · rw [if_neg (fun h => by simp [hconv] at h), if_pos hconv]
    · have hf : c.converged = false := by simpa using hconv
      rw [if_pos ⟨hf, by omega⟩, if_neg hconv]
      rcases hq : cgStep t B precondition solution firstValue m c with ⟨m1, e | c1⟩
      · rfl
      · simp only []
        apply ih
        have := cgStep_count t B precondition solution firstValue m m1 c c1 hq
        omega

theorem cgLoop_steps (t : Traits) (B : Backend) (precondition : Bool) (solution : List ℚ)
    (firstValue : ℚ) :
    ∀ (n : Nat) (m : MatrixState) (c : CGState),
      ∃ k, k ≤ n ∧ cgLoop t B precondition solution firstValue n m c
        = cgSteps t B precondition solution firstValue k m c := by
  intro n
  induction n with
  | zero =>
    intro m c
    exact ⟨0, le_refl _, rfl⟩
  | succ n ih =>
    intro m c
    by_cases hconv : c.converged = true
    · refine ⟨0, by omega, ?_⟩
      rw [cgLoop, if_pos hconv, cgSteps]
    · rcases hq : cgStep t B precondition solution firstValue m c with ⟨m1, e | c1⟩
      · refine ⟨1, by omega, ?_⟩
        rw [cgLoop, if_neg hconv, cgSteps, hq]
      · obtain ⟨k, hk, heq⟩ := ih m1 c1
        refine ⟨k + 1, by omega, ?_⟩
        rw [cgLoop, if_neg hconv, cgSteps, hq]
        exact heq

theorem cgSteps_count (t : Traits) (B : Backend) (precondition : Bool) (solution : List ℚ)
    (firstValue : ℚ) :
    ∀ (k : Nat) (m m1 : MatrixState) (c c1 : CGState),
      cgSteps t B precondition solution firstValue k m c = (m1, .ok c1) →
      c1.count = c.count + k := by
  intro k
  induction k with
  | zero =>
    intro m m1 c c1 h
    rw [cgSteps] at h
    simp only [Prod.mk.injEq, Except.ok.injEq] at h
    rw [← h.2]
    rfl
  | succ k ih =>
    intro m m1 c c1 h
    rw [cgSteps] at h
    rcases hq : cgStep t B precondition solution firstValue m c with ⟨m2, e | c2⟩
    · rw [hq] at h
      simp at h
    · rw [hq] at h
      have h1 := ih m2 m1 c2 c1 h
      have h2 := cgStep_count t B precondition solution firstValue m m2 c c2 hq
      omega

theorem cgLoop_converged (t : Traits) (B : Backend) (precondition : Bool)
    (solution : List ℚ) (firstValue : ℚ) (n : Nat) (m : MatrixState) (c : CGState)
    (h : n = 0 ∨ c.converged = true) :
    cgLoop t B precondition solution firstValue n m c = (m, .ok c) := by
  cases n with
  | zero => rfl
  | succ n =>
    rcases h with h | h
    · omega
    · rw [cgLoop, if_pos h]
theorem multiplyExtended_of_valid (t : Traits) (B : Backend) (m : MatrixState)
    (input : List ℚ) (h : m.matrixValid = true) :
    multiplyExtended t B m input
      = (m, .ok (spectralMultiply t.dim B m.symbol (fun lambda => lambda) input)) := by
  unfold multiplyExtended
  rw [ensureFilled_of_valid t B m h]

theorem multiplyInverseExtended_of_valid (t : Traits) (B : Backend) (m : MatrixState)
    (input : List ℚ) (h : m.matrixValid = true) :
    multiplyInverseExtended t B m input
      = (m, .ok (spectralMultiply t.dim B m.symbol (fun lambda => 1 / lambda) input)) := by
  unfold multiplyInverseExtended
  rw [ensureFilled_of_valid t B m h]

theorem preconditioned_of_valid (t : Traits) (B : Backend) (m : MatrixState)
    (precondition : Bool) (residual : List ℚ) (h : m.matrixValid = true) :
    ∃ z, preconditioned t B m precondition residual = (m, .ok z) := by
  unfold preconditioned
  split_ifs
  · exact ⟨_, multiplyInverseExtended_of_valid t B m residual h⟩
  · exact ⟨_, rfl⟩

theorem innerCG_initial (t : Traits) (B : Backend) (m : MatrixState)
    (iter solution : List ℚ) (precondition : Bool) (hvalid : m.matrixValid = true)
    (h : m.cgIterations = 0 ∨
      |scalarProduct (tabulate iter.length (fun i => solution.getD i 0
          - (spectralMultiply t.dim B m.symbol (fun lambda => lambda) iter).getD i 0)).length
        (tabulate iter.length (fun i => solution.getD i 0
          - (spectralMultiply t.dim B m.symbol (fun lambda => lambda) iter).getD i 0))
        (tabulate iter.length (fun i => solution.getD i 0
          - (spectralMultiply t.dim B m.symbol (fun lambda => lambda) iter).getD i 0))|
        < 1 / 10 ^ 12) :
    innerCG t B m iter solution precondition = (m, .ok iter) := by
  obtain ⟨z, hz⟩ := preconditioned_of_valid t B m precondition
    (tabulate iter.length (fun i => solution.getD i 0
      - (spectralMultiply t.dim B m.symbol (fun lambda => lambda) iter).getD i 0)) hvalid
  unfold innerCG
  rw [multiplyExtended_of_valid t B m solution hvalid]
  simp only []
  rw [multiplyExtended_of_valid t B m iter hvalid]
  simp only []
  rw [hz]
  simp only []
  rw [cgLoop_converged]
  rcases h with h | h
  · exact Or.inl h
  · right
    simpa using h
/-- C21. Bounded work of `Matrix::innerCG` on a filled symbol. The loop with its guard as
written ends within `cgIterations + 1` guard tests, and what it returns is the loop body
applied `k` times for some `k ≤ cgIterations`, the final `count`; each application of the body
calls `multiplyExtended` and the preconditioner once. With `cgIterations = 0`, or with an
initial residual of squared two-norm below `1e-12`, `innerCG` returns the initial iterate, and
`multiplyInverse` of a nonzero field then returns the spectral inverse of its input. -/
theorem innerCG_bounded_work (t : Traits) (B : Backend) (m : MatrixState)
    (iter solution : List ℚ) (precondition : Bool) (input : StochasticPart)
    (hvalid : m.matrixValid = true) :
    (∀ (firstValue : ℚ) (m1 : MatrixState) (c : CGState), c.count = 0 →
      ∃ k, k ≤ m.cgIterations ∧
        cgWhile t B precondition solution firstValue m.cgIterations (m.cgIterations + 1) m1 c
          = some (cgSteps t B precondition solution firstValue k m1 c) ∧
        cgLoop t B precondition solution firstValue m.cgIterations m1 c
          = cgSteps t B precondition solution firstValue k m1 c ∧
        ∀ m2 c2, cgSteps t B precondition solution firstValue k m1 c = (m2, .ok c2) →
          c2.count = k) ∧
    ((m.cgIterations = 0 ∨
      |scalarProduct (tabulate iter.length (fun i => solution.getD i 0
          - (spectralMultiply t.dim B m.symbol (fun lambda => lambda) iter).getD i 0)).length
        (tabulate iter.length (fun i => solution.getD i 0
          - (spectralMultiply t.dim B m.symbol (fun lambda => lambda) iter).getD i 0))
        (tabulate iter.length (fun i => solution.getD i 0
          - (spectralMultiply t.dim B m.symbol (fun lambda => lambda) iter).getD i 0))|
        < 1 / 10 ^ 12) →
      innerCG t B m iter solution precondition = (m, .ok iter)) ∧
    (m.cgIterations = 0 →
      (List.range input.localDomainSize).all
        (fun i => ¬ (|input.dataVector.getD i 0| > tolNegative)) = false →
      Matrix.multiplyInverse t B m input
        = (m, .ok { input with
            dataVector := spectralMultiply t.dim B m.symbol (fun lambda => 1 / lambda)
              input.dataVector
            evalValid := false })) := by
  refine ⟨?_, innerCG_initial t B m iter solution precondition hvalid, ?_⟩
  · intro firstValue m1 c hc
    obtain ⟨k, hk, heq⟩ := cgLoop_steps t B precondition solution firstValue m.cgIterations m1 c
    refine ⟨k, hk, ?_, heq, ?_⟩
    · rw [cgWhile_eq_cgLoop t B precondition solution firstValue m.cgIterations
        m.cgIterations m1 c (by omega), heq]
    · intro m2 c2 h
      have := cgSteps_count t B precondition solution firstValue k m1 m2 c c2 h
      omega
  · intro hn hzero
    unfold Matrix.multiplyInverse
    simp only [hzero]
    rw [multiplyInverseExtended_of_valid t B m input.dataVector hvalid]
    simp only []
    rw [innerCG_initial t B m _ input.dataVector true hvalid (Or.inl hn)]
    simp

theorem innerCG_bounded_work_witness :
    innerCG (Traits.strip 1 true false) (Backend.diagonal [4] true)
        { (RandomField.strip [4] [3] [0] [0] true false false false).matrix with
          cgIterations := 0 } [1] [3] true
      = ({ (RandomField.strip [4] [3] [0] [0] true false false false).matrix with
          cgIterations := 0 }, .ok [1]) :=
  (innerCG_bounded_work (Traits.strip 1 true false) (Backend.diagonal [4] true)
    { (RandomField.strip [4] [3] [0] [0] true false false false).matrix with
      cgIterations := 0 } [1] [3] true (StochasticPart.strip 1 [3]) rfl).2.1 (Or.inl rfl)

/-! ## Theorems: the invariant of the inner conjugate gradients -/

theorem scalarProduct_eq_sum (n : Nat) (a b : List ℚ) :
    scalarProduct n a b = ∑ j in Finset.range n, a.getD j 0 * b.getD j 0 := by
  unfold scalarProduct
  induction n with
  | zero => rfl
  | succ k ih =>
    rw [List.range_succ, List.foldl_append, ih, Finset.sum_range_succ]
    rfl

theorem cgStep_consistent (t : Traits) (B : Backend) (m : MatrixState)
    (C : List ℚ → List ℚ) (n : Nat) (solution : List ℚ) (precondition : Bool)
    (firstValue : ℚ)
    (hC : ∀ v, multiplyExtended t B m v = (m, .ok (C v)))
    (hlin : ∀ (x y : List ℚ) (a : ℚ), x.length = n → y.length = n → ∀ i, i < n →
      (C (tabulate n (fun j => x.getD j 0 + a * y.getD j 0))).getD i 0
        = (C x).getD i 0 + a * (C y).getD i 0)
    (hprec : ∀ r, r.length = n →
      ∃ z, preconditioned t B m precondition r = (m, .ok z) ∧ z.length = n)
    (c : CGState) (hc : c.consistent C n solution) :
    ∃ c1, cgStep t B precondition solution firstValue m c = (m, .ok c1) ∧
      c1.consistent C n solution ∧ c1.count = c.count + 1 ∧
      (∀ i, i < n → c1.iter.getD i 0 = c.iter.getD i 0
        + (∑ j in Finset.range n, c.precResidual.getD j 0 * c.residual.getD j 0)
            / (∑ j in Finset.range n, c.direction.getD j 0 * (C c.direction).getD j 0)
          * c.direction.getD i 0) ∧
      (∀ i, i < n → c1.direction.getD i 0 = c1.precResidual.getD i 0
        + (∑ j in Finset.range n, c1.precResidual.getD j 0 * c1.residual.getD j 0)
            / (∑ j in Finset.range n, c.precResidual.getD j 0 * c.residual.getD j 0)
          * c.direction.getD i 0) := by
  obtain ⟨h1, h3, h4, h5, h6, h7s⟩ := hc
  have h7 : c.scalarProd = scalarProduct n c.precResidual c.residual :=
    h7s.trans (scalarProduct_eq_sum n _ _).symm
  simp only [← scalarProduct_eq_sum]
  obtain ⟨z, hz, -⟩ := hprec (tabulate n (fun i => solution.getD i 0
    - (tabulate n (fun i => c.matrixTimesIter.getD i 0
        + c.scalarProd / scalarProduct n c.direction (C c.direction)
          * (C c.direction).getD i 0)).getD i 0)) (length_tabulate _ _)
  have hstep : cgStep t B precondition solution firstValue m c = (m, .ok
      { iter := tabulate n (fun i => c.iter.getD i 0
          + c.scalarProd / scalarProduct n c.direction (C c.direction)
            * c.direction.getD i 0)
        matrixTimesIter := tabulate n (fun i => c.matrixTimesIter.getD i 0
          + c.scalarProd / scalarProduct n c.direction (C c.direction)
            * (C c.direction).getD i 0)
        residual := tabulate n (fun i => solution.getD i 0
          - (tabulate n (fun i => c.matrixTimesIter.getD i 0
              + c.scalarProd / scalarProduct n c.direction (C c.direction)
                * (C c.direction).getD i 0)).getD i 0)
        precResidual := z
        direction := tabulate n (fun i => z.getD i 0
          + 1 / c.scalarProd * scalarProduct n z (tabulate n (fun i => solution.getD i 0
            - (tabulate n (fun i => c.matrixTimesIter.getD i 0
                + c.scalarProd / scalarProduct n c.direction (C c.direction)
                  * (C c.direction).getD i 0)).getD i 0))
            * c.direction.getD i 0)
        scalarProd := scalarProduct n z (tabulate n (fun i => solution.getD i 0
          - (tabulate n (fun i => c.matrixTimesIter.getD i 0
              + c.scalarProd / scalarProduct n c.direction (C c.direction)
                * (C c.direction).getD i 0)).getD i 0))
        converged :=
          if energy (tabulate n (fun i => c.iter.getD i 0
                + c.scalarProd / scalarProduct n c.direction (C c.direction)
                  * c.direction.getD i 0))
              (tabulate n (fun i => c.matrixTimesIter.getD i 0
                + c.scalarProd / scalarProduct n c.direction (C c.direction)
                  * (C c.direction).getD i 0)) solution ≠ firstValue then
            if |energy (tabulate n (fun i => c.iter.getD i 0
                  + c.scalarProd / scalarProduct n c.direction (C c.direction)
                    * c.direction.getD i 0))
                (tabulate n (fun i => c.matrixTimesIter.getD i 0
                  + c.scalarProd / scalarProduct n c.direction (C c.direction)
                    * (C c.direction).getD i 0)) solution
                - energy c.iter c.matrixTimesIter solution|
              / |energy (tabulate n (fun i => c.iter.getD i 0
                  + c.scalarProd / scalarProduct n c.direction (C c.direction)
                    * c.direction.getD i 0))
                (tabulate n (fun i => c.matrixTimesIter.getD i 0
                  + c.scalarProd / scalarProduct n c.direction (C c.direction)
                    * (C c.direction).getD i 0)) solution - firstValue| < 1 / 10 ^ 16
            then true else c.converged
          else c.converged
        count := c.count + 1 }) := by
    unfold cgStep
    rw [hC c.direction]
    simp only [h1, h3, h4, length_tabulate]
    rw [hz]
  refine ⟨_, hstep, ⟨length_tabulate _ _, length_tabulate _ _,
    length_tabulate _ _, ?_, ?_, scalarProduct_eq_sum n _ _⟩, rfl, ?_, ?_⟩
  · intro i hi
    show (tabulate n (fun i => c.matrixTimesIter.getD i 0
      + c.scalarProd / scalarProduct n c.direction (C c.direction)
        * (C c.direction).getD i 0)).getD i 0 = _
    rw [getD_tabulate _ _ _ _ hi, hlin c.iter c.direction _ h1 h4 i hi, h5 i hi]
  · intro i hi
    show (tabulate n (fun i => solution.getD i 0
      - (tabulate n (fun i => c.matrixTimesIter.getD i 0
          + c.scalarProd / scalarProduct n c.direction (C c.direction)
            * (C c.direction).getD i 0)).getD i 0)).getD i 0 = _
    rw [getD_tabulate _ _ _ _ hi, getD_tabulate _ _ _ _ hi,
      hlin c.iter c.direction _ h1 h4 i hi, h5 i hi]
  · intro i hi
    show (tabulate n (fun i => c.iter.getD i 0
      + c.scalarProd / scalarProduct n c.direction (C c.direction)
        * c.direction.getD i 0)).getD i 0 = _
    rw [getD_tabulate _ _ _ _ hi, h7]
  · intro i hi
    show (tabulate n (fun i => z.getD i 0
      + 1 / c.scalarProd * scalarProduct n z (tabulate n (fun i => solution.getD i 0
        - (tabulate n (fun i => c.matrixTimesIter.getD i 0
            + c.scalarProd / scalarProduct n c.direction (C c.direction)
              * (C c.direction).getD i 0)).getD i 0))
        * c.direction.getD i 0)).getD i 0 = _
    rw [getD_tabulate _ _ _ _ hi, h7]
    show _ = z.getD i 0 + scalarProduct n z _ / _ * _
    ring
theorem cgLoop_consistent (t : Traits) (B : Backend) (m : MatrixState)
    (C : List ℚ → List ℚ) (n : Nat) (solution : List ℚ) (precondition : Bool)
    (firstValue : ℚ)
    (hC : ∀ v, multiplyExtended t B m v = (m, .ok (C v)))
    (hlin : ∀ (x y : List ℚ) (a : ℚ), x.length = n → y.length = n → ∀ i, i < n →
      (C (tabulate n (fun j => x.getD j 0 + a * y.getD j 0))).getD i 0
        = (C x).getD i 0 + a * (C y).getD i 0)
    (hprec : ∀ r, r.length = n →
      ∃ z, preconditioned t B m precondition r = (m, .ok z) ∧ z.length = n) :
    ∀ (k : Nat) (c : CGState), c.consistent C n solution →
      ∃ c1, cgLoop t B precondition solution firstValue k m c = (m, .ok c1) ∧
        c1.consistent C n solution := by
  intro k
  induction k with
  | zero =>
    intro c hc
    exact ⟨c, rfl, hc⟩
  | succ k ih =>
    intro c hc
    by_cases hconv : c.converged = true
    · refine ⟨c, ?_, hc⟩
      rw [cgLoop, if_pos hconv]
    · obtain ⟨c1, hstep, hc1, -⟩ := cgStep_consistent t B m C n solution precondition
        firstValue hC hlin hprec c hc
      obtain ⟨c2, hloop, hc2⟩ := ih c1 hc1
      refine ⟨c2, ?_, hc2⟩
      rw [cgLoop, if_neg hconv, hstep]
      exact hloop

/-- C25. Loop invariant of `Matrix::innerCG` when `multiplyExtended` is an exact linear map
`C` on vectors of `n` entries (and the preconditioner returns such a vector). Here `<a, b>` is
the sum of `a[j] * b[j]` over `j < n`. The state in which the loop is entered satisfies
`matrixTimesIter = C iter`, `residual = solution - C iter` and
`scalarProd = <precResidual, residual>`, with the direction equal to the preconditioned
residual; one pass of the body keeps these relations, moves `iter` by
`alpha = <precResidual, residual> / <direction, C direction>` along the direction and sets
the direction to `precResidual_new + (<z_new, r_new> / <z_old, r_old>) * direction`; hence
every state of the loop satisfies them. -/
theorem innerCG_loop_invariant (t : Traits) (B : Backend) (m : MatrixState)
    (C : List ℚ → List ℚ) (n : Nat) (iter solution : List ℚ) (precondition : Bool)
    (hC : ∀ v, multiplyExtended t B m v = (m, .ok (C v)))
    (hlin : ∀ (x y : List ℚ) (a : ℚ), x.length = n → y.length = n → ∀ i, i < n →
      (C (tabulate n (fun j => x.getD j 0 + a * y.getD j 0))).getD i 0
        = (C x).getD i 0 + a * (C y).getD i 0)
    (hprec : ∀ r, r.length = n →
      ∃ z, preconditioned t B m precondition r = (m, .ok z) ∧ z.length = n)
    (hiter : iter.length = n) :
    (∃ c0 : CGState, c0.consistent C n solution ∧ c0.iter = iter ∧
      c0.direction = c0.precResidual ∧ c0.count = 0 ∧
      innerCG t B m iter solution precondition
        = ((cgLoop t B precondition solution (energy iter (C iter) solution)
              m.cgIterations m c0).1,
            (cgLoop t B precondition solution (energy iter (C iter) solution)
              m.cgIterations m c0).2.map (fun c => c.iter))) ∧
    (∀ (firstValue : ℚ) (c : CGState), c.consistent C n solution →
      ∃ c1, cgStep t B precondition solution firstValue m c = (m, .ok c1) ∧
        c1.consistent C n solution ∧ c1.count = c.count + 1 ∧
        (∀ i, i < n → c1.iter.getD i 0 = c.iter.getD i 0
          + (∑ j in Finset.range n, c.precResidual.getD j 0 * c.residual.getD j 0)
              / (∑ j in Finset.range n, c.direction.getD j 0 * (C c.direction).getD j 0)
            * c.direction.getD i 0) ∧
        (∀ i, i < n → c1.direction.getD i 0 = c1.precResidual.getD i 0
          + (∑ j in Finset.range n, c1.precResidual.getD j 0 * c1.residual.getD j 0)
              / (∑ j in Finset.range n, c.precResidual.getD j 0 * c.residual.getD j 0)
            * c.direction.getD i 0)) ∧
    (∀ (firstValue : ℚ) (k : Nat) (c : CGState), c.consistent C n solution →
      ∃ c1, cgLoop t B precondition solution firstValue k m c = (m, .ok c1) ∧
        c1.consistent C n solution) := by
  refine ⟨?_, fun firstValue c hc => cgStep_consistent t B m C n solution precondition
    firstValue hC hlin hprec c hc, fun firstValue k c hc => cgLoop_consistent t B m C n
      solution precondition firstValue hC hlin hprec k c hc⟩
  obtain ⟨z, hz, hzlen⟩ := hprec (tabulate iter.length (fun i => solution.getD i 0
    - (C iter).getD i 0)) (by rw [length_tabulate, hiter])
  refine ⟨{ iter := iter, matrixTimesIter := C iter
            residual := tabulate iter.length (fun i => solution.getD i 0 - (C iter).getD i 0)
            precResidual := z, direction := z
            scalarProd := scalarProduct (tabulate iter.length (fun i => solution.getD i 0
              - (C iter).getD i 0)).length z
              (tabulate iter.length (fun i => solution.getD i 0 - (C iter).getD i 0))
            converged := decide (|scalarProduct (tabulate iter.length (fun i =>
                solution.getD i 0 - (C iter).getD i 0)).length
              (tabulate iter.length (fun i => solution.getD i 0 - (C iter).getD i 0))
              (tabulate iter.length (fun i => solution.getD i 0 - (C iter).getD i 0))|
              < 1 / 10 ^ 12)
            count := 0 }, ⟨hiter, by rw [length_tabulate, hiter], hzlen, fun _ _ => rfl, ?_, ?_⟩,
    rfl, rfl, rfl, ?_⟩
  · intro i hi
    show (tabulate iter.length (fun i => solution.getD i 0 - (C iter).getD i 0)).getD i 0 = _
    rw [getD_tabulate _ _ _ _ (by omega)]
  · show scalarProduct (tabulate iter.length (fun i => solution.getD i 0
      - (C iter).getD i 0)).length z _ = _
    rw [length_tabulate, hiter]
    exact scalarProduct_eq_sum n _ _
  · unfold innerCG
    rw [hC solution]
    simp only []
    rw [hC iter]
    simp only []
    rw [hz]
    simp only []
    rcases cgLoop t B precondition solution (energy iter (C iter) solution) m.cgIterations m
      _ with ⟨m4, e | c⟩
    · rfl
    · rfl
theorem diagonal_times_one (x0 : ℚ) :
    spectralMultiply 2 (Backend.diagonal [4] true) [4] (fun lambda => lambda) [x0]
      = [4 * x0] := by
  simp [spectralMultiply, Backend.diagonal, symbolAt, sameLayout, List.range_succ]

theorem diagonal_inverse_length (r0 : ℚ) :
    (spectralMultiply 2 (Backend.diagonal [4] true) [4] (fun lambda => 1 / lambda)
      [r0]).length = 1 := by
  simp [spectralMultiply, Backend.diagonal, symbolAt, sameLayout, List.range_succ]

theorem innerCG_loop_invariant_witness :
    ∃ c0 c1 : CGState,
      c0.consistent (fun v => spectralMultiply 2 (Backend.diagonal [4] true) [4]
        (fun lambda => lambda) v) 1 [3] ∧
      c0.iter = [1] ∧
      cgStep (Traits.strip 1 true false) (Backend.diagonal [4] true) true [3] 0
          (RandomField.strip [4] [3] [0] [0] true false false false).matrix c0
        = ((RandomField.strip [4] [3] [0] [0] true false false false).matrix, .ok c1) ∧
      c1.consistent (fun v => spectralMultiply 2 (Backend.diagonal [4] true) [4]
        (fun lambda => lambda) v) 1 [3] := by
  have h := (innerCG_loop_invariant (Traits.strip 1 true false) (Backend.diagonal [4] true)
    (RandomField.strip [4] [3] [0] [0] true false false false).matrix
    (fun v => spectralMultiply 2 (Backend.diagonal [4] true) [4] (fun lambda => lambda) v)
    1 [1] [3] true
    (fun v => multiplyExtended_of_valid (Traits.strip 1 true false)
      (Backend.diagonal [4] true)
      (RandomField.strip [4] [3] [0] [0] true false false false).matrix v rfl)
    (by
      intro x y a hx hy i hi
      obtain ⟨x0, rfl⟩ := list_length_one x hx
      obtain ⟨y0, rfl⟩ := list_length_one y hy
      have hi0 : i = 0 := by omega
      subst hi0
      have ht : tabulate 1 (fun j => ([x0] : List ℚ).getD j 0 + a * ([y0] : List ℚ).getD j 0)
          = [x0 + a * y0] := rfl
      simp only [ht, diagonal_times_one, List.getD_cons_zero]
      ring)
    (by
      intro r hr
      obtain ⟨r0, rfl⟩ := list_length_one r hr
      exact ⟨_, multiplyInverseExtended_of_valid (Traits.strip 1 true false)
        (Backend.diagonal [4] true)
        (RandomField.strip [4] [3] [0] [0] true false false false).matrix [r0] rfl,
        diagonal_inverse_length r0⟩)
    rfl)
  obtain ⟨c0, h1, h2, -⟩ := h.1
  obtain ⟨c1, e, hc1, -⟩ := h.2.1 0 c0 h1
  exact ⟨c0, c1, h1, h2, e, hc1⟩

/-! ## Theorems: lag wrapping -/

/-- C22. Lag wrapping in `Matrix::computeCovarianceMatrixEntries`, in exact arithmetic: the
entry of `index` is the kernel at the transformed lag vector, and on every axis `i` with
`extensions[i] > 0`, `cells[i] > 0`, `meshsize[i] = extensions[i] / cells[i]` and global torus
index `g = indices[i] + offset[i] < embeddingFactor * cells[i]` the lag lies in
`(-extensions[i] * m / 2, extensions[i] * m / 2]` and differs from `g * meshsize[i]` by an
integer multiple (0 or -1) of `extensions[i] * m`, where `m = embeddingFactor`. -/
theorem lag_wrapped (t : Traits) (m : MatrixState) (localMatrixSize : Nat)
    (localMatrixCells localMatrixOffset : List Nat) (transform : List ℚ → List ℚ)
    (covariance : ℚ → List ℚ → ℚ) (index i : Nat)
    (hindex : index < localMatrixSize)
    (hext : 0 < m.extensions.getD i 0) (hcells : 0 < t.cells.getD i 0)
    (hmesh : m.meshsize.getD i 0 = m.extensions.getD i 0 / (t.cells.getD i 0 : ℚ))
    (hg : (indexToIndices t.dim index localMatrixCells).getD i 0 + localMatrixOffset.getD i 0
      < t.embeddingFactor * t.cells.getD i 0) :
    (computeCovarianceMatrixEntries t m localMatrixSize localMatrixCells localMatrixOffset
        transform covariance).getD index 0
      = covariance m.variance (transform (tabulate t.dim (fun j =>
          lagCoord t.embeddingFactor m.extensions m.meshsize
            (indexToIndices t.dim index localMatrixCells) localMatrixOffset j))) ∧
    - (m.extensions.getD i 0 * (t.embeddingFactor : ℚ)) / 2
      < lagCoord t.embeddingFactor m.extensions m.meshsize
          (indexToIndices t.dim index localMatrixCells) localMatrixOffset i ∧
    lagCoord t.embeddingFactor m.extensions m.meshsize
        (indexToIndices t.dim index localMatrixCells) localMatrixOffset i
      ≤ m.extensions.getD i 0 * (t.embeddingFactor : ℚ) / 2 ∧
    ∃ k : ℤ, (k = 0 ∨ k = -1) ∧
      lagCoord t.embeddingFactor m.extensions m.meshsize
          (indexToIndices t.dim index localMatrixCells) localMatrixOffset i
        = (((indexToIndices t.dim index localMatrixCells).getD i 0
              + localMatrixOffset.getD i 0 : Nat) : ℚ) * m.meshsize.getD i 0
          + (k : ℚ) * (m.extensions.getD i 0 * (t.embeddingFactor : ℚ)) := by
  refine ⟨?_, ?_⟩
  · unfold computeCovarianceMatrixEntries
    rw [getD_tabulate _ _ _ _ hindex]
  unfold lagCoord
  generalize (indexToIndices t.dim index localMatrixCells).getD i 0
    + localMatrixOffset.getD i 0 = g at hg ⊢
  have hc : (0 : ℚ) < (t.cells.getD i 0 : ℚ) := by exact_mod_cast hcells
  have hgq : (g : ℚ) < (t.embeddingFactor : ℚ) * (t.cells.getD i 0 : ℚ) := by
    exact_mod_cast hg
  have hg0 : (0 : ℚ) ≤ (g : ℚ) := Nat.cast_nonneg g
  have hcoord : (g : ℚ) * m.meshsize.getD i 0
      = (g : ℚ) / (t.cells.getD i 0 : ℚ) * m.extensions.getD i 0 := by
    rw [hmesh]
    ring
  have hlt : (g : ℚ) / (t.cells.getD i 0 : ℚ) < (t.embeddingFactor : ℚ) := by
    rw [div_lt_iff₀ hc]
    exact hgq
  have hnn : (0 : ℚ) ≤ (g : ℚ) / (t.cells.getD i 0 : ℚ) := div_nonneg hg0 (le_of_lt hc)
  rw [hcoord]
  generalize (g : ℚ) / (t.cells.getD i 0 : ℚ) = q at hlt hnn ⊢
  generalize m.extensions.getD i 0 = E at hext ⊢
  generalize (t.embeddingFactor : ℚ) = ef at hlt ⊢
  split_ifs with h
  · refine ⟨by nlinarith, by nlinarith, -1, Or.inr rfl, ?_⟩
    push_cast
    ring
  · refine ⟨by nlinarith, by linarith [not_lt.mp h], 0, Or.inl rfl, ?_⟩
    push_cast
    ring
theorem lag_wrapped_witness :
    - ((MatrixState.create (Traits.strip 2 true false)).extensions.getD 0 0
        * ((Traits.strip 2 true false).embeddingFactor : ℚ)) / 2
      < lagCoord (Traits.strip 2 true false).embeddingFactor
          (MatrixState.create (Traits.strip 2 true false)).extensions
          (MatrixState.create (Traits.strip 2 true false)).meshsize
          (indexToIndices (Traits.strip 2 true false).dim 1 [2, 1]) [0, 0] 0 ∧
    lagCoord (Traits.strip 2 true false).embeddingFactor
        (MatrixState.create (Traits.strip 2 true false)).extensions
        (MatrixState.create (Traits.strip 2 true false)).meshsize
        (indexToIndices (Traits.strip 2 true false).dim 1 [2, 1]) [0, 0] 0
      ≤ (MatrixState.create (Traits.strip 2 true false)).extensions.getD 0 0
        * ((Traits.strip 2 true false).embeddingFactor : ℚ) / 2 :=
  ⟨(lag_wrapped (Traits.strip 2 true false) (MatrixState.create (Traits.strip 2 true false))
      2 [2, 1] [0, 0] (fun x => x) (fun v _ => v) 1 0 (by decide) (by decide!) (by decide)
      (by decide!) (by decide)).2.1,
    (lag_wrapped (Traits.strip 2 true false) (MatrixState.create (Traits.strip 2 true false))
      2 [2, 1] [0, 0] (fun x => x) (fun v _ => v) 1 0 (by decide) (by decide!) (by decide)
      (by decide!) (by decide)).2.2.1⟩

/-! ## Theorems: the slab-to-block reindexing -/

theorem sliceIndex3_digits (p dy nz i : Nat) (hp : 1 ≤ p) :
    sliceIndex3 p p (p * dy) nz i
      = i / p % dy + dy * (i / p / dy / p + nz * (i % p + p * (i / p / dy % p))) := by
  have h1 : p * dy / p = dy := Nat.mul_div_cancel_left dy (by omega)
  have h2 : i / (dy * p) = i / p / dy := by
    rw [Nat.mul_comm, Nat.div_div_eq_div_mul]
  have h3 : i / (p * dy * p) = i / p / dy / p := by
    rw [Nat.div_div_eq_div_mul, Nat.div_div_eq_div_mul, Nat.mul_assoc]
  have h4 : i / p / dy * dy % (p * dy) = i / p / dy % p * dy := Nat.mul_mod_mul_right _ _ _
  unfold sliceIndex3
  rw [h1, h2, h3, h4]
  ring

theorem slice_digits_bound (p dy nz i : Nat) (hp : 1 ≤ p) (hdy : 1 ≤ dy)
    (hi : i < p * (p * dy) * nz) :
    i % p < p ∧ i / p % dy < dy ∧ i / p / dy % p < p ∧ i / p / dy / p < nz ∧
    i = i % p + p * (i / p % dy + dy * (i / p / dy % p + p * (i / p / dy / p))) := by
  have hi2 : i < p * (dy * (p * nz)) := by
    have : p * (p * dy) * nz = p * (dy * (p * nz)) := by ring
    omega
  have q1 : i / p < dy * (p * nz) := Nat.div_lt_of_lt_mul hi2
  have q2 : i / p / dy < p * nz := Nat.div_lt_of_lt_mul q1
  have q3 : i / p / dy / p < nz := Nat.div_lt_of_lt_mul q2
  refine ⟨Nat.mod_lt _ (by omega), Nat.mod_lt _ (by omega), Nat.mod_lt _ (by omega), q3, ?_⟩
  rw [mixed_radix_back, mixed_radix_back, mixed_radix_back]

theorem sliceIndex3_lt (p dy nz i : Nat) (hp : 1 ≤ p) (hdy : 1 ≤ dy)
    (hi : i < p * (p * dy) * nz) : sliceIndex3 p p (p * dy) nz i < p * (p * dy) * nz := by
  obtain ⟨ha, hb, hc, he, -⟩ := slice_digits_bound p dy nz i hp hdy hi
  rw [sliceIndex3_digits p dy nz i hp]
  have h1 := mixed_radix_lt _ _ _ _ ha hc
  have h2 := mixed_radix_lt _ _ _ _ he h1
  have h3 := mixed_radix_lt _ _ _ _ hb h2
  have : dy * (nz * (p * p)) = p * (p * dy) * nz := by ring
  omega

theorem sliceIndex3_injective (p dy nz i j : Nat) (hp : 1 ≤ p) (hdy : 1 ≤ dy)
    (hi : i < p * (p * dy) * nz) (hj : j < p * (p * dy) * nz)
    (h : sliceIndex3 p p (p * dy) nz i = sliceIndex3 p p (p * dy) nz j) : i = j := by
  obtain ⟨ha, hb, hc, he, hri⟩ := slice_digits_bound p dy nz i hp hdy hi
  obtain ⟨ha2, hb2, hc2, he2, hrj⟩ := slice_digits_bound p dy nz j hp hdy hj
  rw [sliceIndex3_digits p dy nz i hp, sliceIndex3_digits p dy nz j hp] at h
  obtain ⟨e1, h1⟩ := mixed_radix_inj _ _ _ _ _ hb hb2 h
  obtain ⟨e2, h2⟩ := mixed_radix_inj _ _ _ _ _ he he2 h1
  obtain ⟨e3, e4⟩ := mixed_radix_inj _ _ _ _ _ ha ha2 h2
  rw [hri, hrj, e1, e2, e3, e4]

theorem sliceIndex3_surjective (p dy nz k : Nat) (hp : 1 ≤ p) (hdy : 1 ≤ dy)
    (hk : k < p * (p * dy) * nz) :
    ∃ i, i < p * (p * dy) * nz ∧ sliceIndex3 p p (p * dy) nz i = k := by
  have hk2 : k < dy * (nz * (p * p)) := by
    have : p * (p * dy) * nz = dy * (nz * (p * p)) := by ring
    omega
  have q1 : k / dy < nz * (p * p) := Nat.div_lt_of_lt_mul hk2
  have q2 : k / dy / nz < p * p := Nat.div_lt_of_lt_mul q1
  have q3 : k / dy / nz / p < p := Nat.div_lt_of_lt_mul q2
  have hnz : 1 ≤ nz := by
    rcases Nat.eq_zero_or_pos nz with h0 | h0
    · rw [h0] at hk
      omega
    · exact h0
  have hb : k % dy < dy := Nat.mod_lt _ (by omega)
  have he : k / dy % nz < nz := Nat.mod_lt _ (by omega)
  have ha : k / dy / nz % p < p := Nat.mod_lt _ (by omega)
  refine ⟨k / dy / nz % p + p * (k % dy + dy * (k / dy / nz / p + p * (k / dy % nz))), ?_, ?_⟩
  · have h1 := mixed_radix_lt _ _ _ _ q3 he
    have h2 := mixed_radix_lt _ _ _ _ hb h1
    have h3 := mixed_radix_lt _ _ _ _ ha h2
    have : p * (dy * (p * nz)) = p * (p * dy) * nz := by ring
    omega
  · rw [sliceIndex3_digits p dy nz _ hp, mixed_radix_mod _ _ _ ha,
      mixed_radix_div _ _ _ ha, mixed_radix_mod _ _ _ hb, mixed_radix_div _ _ _ hb,
      mixed_radix_mod _ _ _ q3, mixed_radix_div _ _ _ q3, mixed_radix_back, mixed_radix_back,
      mixed_radix_back]

theorem sliceIndex2_bijective (p n : Nat) (hp : 1 ≤ p) :
    (∀ i, i < p * n → sliceIndex2 p n i < p * n) ∧
    (∀ i j, i < p * n → j < p * n → sliceIndex2 p n i = sliceIndex2 p n j → i = j) ∧
    (∀ k, k < p * n → ∃ i, i < p * n ∧ sliceIndex2 p n i = k) := by
  have hform : ∀ i, sliceIndex2 p n i = i / p + n * (i % p) := by
    intro i
    unfold sliceIndex2
    ring
  have hq : ∀ i, i < p * n → i / p < n := fun i hi => Nat.div_lt_of_lt_mul hi
  have hr : ∀ i, i % p < p := fun i => Nat.mod_lt _ (by omega)
  refine ⟨?_, ?_, ?_⟩
  · intro i hi
    rw [hform, Nat.mul_comm p n]
    exact mixed_radix_lt _ _ _ _ (hq i hi) (hr i)
  · intro i j hi hj h
    rw [hform, hform] at h
    obtain ⟨e1, e2⟩ := mixed_radix_inj _ _ _ _ _ (hq i hi) (hq j hj) h
    rw [← mixed_radix_back i p, ← mixed_radix_back j p, e1, e2]
  · intro k hk
    have hk2 : k < n * p := by rw [Nat.mul_comm]; exact hk
    have hkq : k / n < p := Nat.div_lt_of_lt_mul hk2
    have hn : 1 ≤ n := by
      rcases Nat.eq_zero_or_pos n with h0 | h0
      · rw [h0] at hk
        omega
      · exact h0
    have hkr : k % n < n := Nat.mod_lt _ (by omega)
    refine ⟨k / n + p * (k % n), mixed_radix_lt _ _ _ _ hkq hkr, ?_⟩
    rw [hform, mixed_radix_mod _ _ _ hkq, mixed_radix_div _ _ _ hkq, mixed_radix_back]
theorem resort_written (f : Nat → Nat) (N S : Nat) (data init : List ℚ)
    (hL : N * S ≤ init.length) (hf : ∀ i, i < N → f i < N)
    (hinj : ∀ i j, i < N → j < N → f i = f j → i = j) (i j : Nat) (hi : i < N)
    (hj : j < S) :
    ((List.range N).foldl (fun r1 i1 => (List.range S).foldl (fun r0 j1 =>
      r0.set (f i1 * S + j1) (data.getD (i1 * S + j1) 0)) r1) init).getD (f i * S + j) 0
      = data.getD (i * S + j) 0 := by
  have hk : f i * S + j < init.length := by
    have h1 : f i + 1 ≤ N := hf i hi
    have h2 : (f i + 1) * S ≤ N * S := Nat.mul_le_mul_right S h1
    rw [Nat.add_mul, Nat.one_mul] at h2
    omega
  have hinner : ∀ i1, i1 < N → ∀ d : List ℚ, d.length = init.length →
      ((List.range S).foldl (fun r0 j1 =>
        r0.set (f i1 * S + j1) (data.getD (i1 * S + j1) 0)) d).length = init.length ∧
      ((∃ j1, j1 ∈ List.range S ∧ (i1 = i ∧ j1 = j)) →
        ((List.range S).foldl (fun r0 j1 =>
          r0.set (f i1 * S + j1) (data.getD (i1 * S + j1) 0)) d).getD (f i * S + j) 0
          = data.getD (i * S + j) 0) ∧
      ((∀ j1, j1 ∈ List.range S → ¬ (i1 = i ∧ j1 = j)) →
        ((List.range S).foldl (fun r0 j1 =>
          r0.set (f i1 * S + j1) (data.getD (i1 * S + j1) 0)) d).getD (f i * S + j) 0
          = d.getD (f i * S + j) 0) := by
    intro i1 hi1
    apply foldl_written
    intro d j1 hj1 hd
    have hj1S : j1 < S := List.mem_range.mp hj1
    refine ⟨by rw [List.length_set, hd], ?_, ?_⟩
    · rintro ⟨rfl, rfl⟩
      rw [getD_set_eq, if_pos ⟨rfl, by rw [hd]; exact hk⟩]
    · intro hne
      rw [getD_set_eq, if_neg]
      rintro ⟨heq, -⟩
      have h2 : j + S * f i = j1 + S * f i1 := by
        rw [Nat.mul_comm S, Nat.mul_comm S]
        omega
      obtain ⟨e1, e2⟩ := mixed_radix_inj _ _ _ _ _ hj hj1S h2
      exact hne ⟨(hinj i i1 hi hi1 e2).symm, e1.symm⟩
  have houter := foldl_written
    (fun r1 i1 => (List.range S).foldl (fun r0 j1 =>
      r0.set (f i1 * S + j1) (data.getD (i1 * S + j1) 0)) r1)
    init.length (f i * S + j) (data.getD (i * S + j) 0) (fun i1 => i1 = i) (List.range N)
    (by
      intro d i1 hmem hd
      obtain ⟨hl, hown, hnot⟩ := hinner i1 (List.mem_range.mp hmem) d hd
      exact ⟨hl, fun ho => hown ⟨j, List.mem_range.mpr hj, ho, rfl⟩,
        fun ho => hnot (fun j1 _ h => ho h.1)⟩)
    init rfl
  exact houter.2.1 ⟨i, List.mem_range.mpr hi, rfl⟩
theorem resortSlices_eq (dim : Nat) (s : StochasticPart) (nx M p : Nat) (hnx : 1 ≤ nx)
    (hM : 1 ≤ M) (hproc : s.procPerDim = p) (hc0 : s.localCells.getD 0 0 = nx)
    (hsize : s.localDomainSize = nx * M) :
    resortSlices dim s = (List.range (p * M)).foldl (fun r1 i1 =>
      (List.range (nx / p)).foldl (fun r0 j1 =>
        r0.set ((if dim = 3 then
            sliceIndex3 p p (s.localCells.getD (dim - 2) 0) (s.localCells.getD (dim - 1) 0) i1
          else sliceIndex2 p (s.localCells.getD (dim - 1) 0) i1) * (nx / p) + j1)
          (s.dataVector.getD (i1 * (nx / p) + j1) 0)) r1)
      (List.replicate s.dataVector.length 0) := by
  have h1 : p * (nx * M) / nx = p * M := by
    have : p * (nx * M) = nx * (p * M) := by ring
    rw [this, Nat.mul_div_cancel_left _ (by omega)]
  have h2 : nx * M / (p * M) = nx / p := Nat.mul_div_mul_right nx p (by omega)
  unfold resortSlices
  simp only [hproc, hc0, hsize, h1, h2]

/-- C23. The slab-to-block reindexing of `StochasticPart::dataToEval` is a permutation. For
`p, dy, nz ≥ 1` and `ny = p * dy` the 3D slice index maps `[0, p * ny * nz)` into itself, is
injective there and reaches every index; the 2D slice index `i / p + (i mod p) * n` does the
same on `[0, p * n)`. On a field of `nx × ny × nz` (resp. `nx × n`) local cells the resorting
loops therefore copy every slice `i` of `nx / p` entries to the slice `iNew` of `resorted`,
none being overwritten by another. -/
theorem slab_to_block_permutation (p dy nz n : Nat) (hp : 1 ≤ p) (hdy : 1 ≤ dy)
    (hnz : 1 ≤ nz) :
    ((∀ i, i < p * (p * dy) * nz → sliceIndex3 p p (p * dy) nz i < p * (p * dy) * nz) ∧
      (∀ i j, i < p * (p * dy) * nz → j < p * (p * dy) * nz →
        sliceIndex3 p p (p * dy) nz i = sliceIndex3 p p (p * dy) nz j → i = j) ∧
      (∀ k, k < p * (p * dy) * nz →
        ∃ i, i < p * (p * dy) * nz ∧ sliceIndex3 p p (p * dy) nz i = k)) ∧
    ((∀ i, i < p * n → sliceIndex2 p n i < p * n) ∧
      (∀ i j, i < p * n → j < p * n → sliceIndex2 p n i = sliceIndex2 p n j → i = j) ∧
      (∀ k, k < p * n → ∃ i, i < p * n ∧ sliceIndex2 p n i = k)) ∧
    (∀ (s : StochasticPart) (nx : Nat), 1 ≤ nx → s.procPerDim = p →
      s.localCells = [nx, p * dy, nz] → s.localDomainSize = nx * (p * dy * nz) →
      s.dataVector.length = s.localDomainSize →
      ∀ i j, i < p * (p * dy) * nz → j < nx / p →
        (resortSlices 3 s).getD (sliceIndex3 p p (p * dy) nz i * (nx / p) + j) 0
          = s.dataVector.getD (i * (nx / p) + j) 0) ∧
    (∀ (s : StochasticPart) (nx : Nat), 1 ≤ nx → s.procPerDim = p →
      s.localCells = [nx, n] → s.localDomainSize = nx * n →
      s.dataVector.length = s.localDomainSize →
      ∀ i j, i < p * n → j < nx / p →
        (resortSlices 2 s).getD (sliceIndex2 p n i * (nx / p) + j) 0
          = s.dataVector.getD (i * (nx / p) + j) 0) := by
  have h3 : (∀ i, i < p * (p * dy) * nz → sliceIndex3 p p (p * dy) nz i < p * (p * dy) * nz) ∧
      (∀ i j, i < p * (p * dy) * nz → j < p * (p * dy) * nz →
        sliceIndex3 p p (p * dy) nz i = sliceIndex3 p p (p * dy) nz j → i = j) ∧
      (∀ k, k < p * (p * dy) * nz →
        ∃ i, i < p * (p * dy) * nz ∧ sliceIndex3 p p (p * dy) nz i = k) :=
    ⟨fun i hi => sliceIndex3_lt p dy nz i hp hdy hi,
      fun i j hi hj h => sliceIndex3_injective p dy nz i j hp hdy hi hj h,
      fun k hk => sliceIndex3_surjective p dy nz k hp hdy hk⟩
  have h2 := sliceIndex2_bijective p n hp
  have hle : ∀ nx : Nat, p * (nx / p) ≤ nx := fun nx => Nat.mul_div_le nx p
  refine ⟨h3, h2, ?_, ?_⟩
  · intro s nx hnx hproc hcells hsize hlen i j hi hj
    have hM : 1 ≤ p * dy * nz := by
      have : 1 * 1 * 1 ≤ p * dy * nz :=
        Nat.mul_le_mul (Nat.mul_le_mul hp hdy) hnz
      omega
    rw [resortSlices_eq 3 s nx (p * dy * nz) p hnx hM hproc (by rw [hcells]; rfl) hsize]
    have hN : p * (p * dy * nz) = p * (p * dy) * nz := by ring
    simp only [hcells, if_true, List.getD_cons_zero, List.getD_cons_succ,
      Nat.add_one_sub_one, Nat.reduceSub, hN]
    apply resort_written (fun i => sliceIndex3 p p (p * dy) nz i) _ _ _ _ _ h3.1 h3.2.1 i j hi hj
    rw [List.length_replicate, hlen, hsize]
    have : p * (p * dy) * nz * (nx / p) = (p * (nx / p)) * (p * dy * nz) := by ring
    rw [this]
    exact Nat.mul_le_mul_right _ (hle nx)
  · intro s nx hnx hproc hcells hsize hlen i j hi hj
    have hn : 1 ≤ n := by
      rcases Nat.eq_zero_or_pos n with h0 | h0
      · rw [h0] at hi
        omega
      · exact h0
    rw [resortSlices_eq 2 s nx n p hnx hn hproc (by rw [hcells]; rfl) hsize]
    have h23 : ¬ ((2 : Nat) = 3) := by decide
    simp only [hcells, List.getD_cons_zero, List.getD_cons_succ, Nat.reduceSub, if_neg h23]
    apply resort_written (fun i => sliceIndex2 p n i) _ _ _ _ _ h2.1 h2.2.1 i j hi hj
    rw [List.length_replicate, hlen, hsize]
    have : p * n * (nx / p) = (p * (nx / p)) * n := by ring
    rw [this]
    exact Nat.mul_le_mul_right _ (hle nx)
theorem slab_to_block_permutation_witness :
    (∀ i, i < 2 * (2 * 1) * 1 → sliceIndex3 2 2 (2 * 1) 1 i < 2 * (2 * 1) * 1) ∧
    (∀ i j, i < 2 * (2 * 1) * 1 → j < 2 * (2 * 1) * 1 →
      sliceIndex3 2 2 (2 * 1) 1 i = sliceIndex3 2 2 (2 * 1) 1 j → i = j) ∧
    (∀ k, k < 2 * (2 * 1) * 1 →
      ∃ i, i < 2 * (2 * 1) * 1 ∧ sliceIndex3 2 2 (2 * 1) 1 i = k) :=
  (slab_to_block_permutation 2 1 1 2 (by decide) (by decide) (by decide)).1

theorem resortSlices_example :
    resortSlices 2 { StochasticPart.strip 2 [1, 2, 3, 4] with
        procPerDim := 2, commSize := 4, localCells := [2, 2], localDomainSize := 4 }
      = [1, 3, 2, 4] ∧
    (List.range 8).map (sliceIndex3 2 2 2 2) = [0, 2, 4, 6, 1, 3, 5, 7] := by
  decide!

/-! ## Theorems: the neighbours of the ghost exchange -/

theorem mod_mul_digit (x b u n : Nat) (hx : x < b) (hn : 1 ≤ n) :
    (x + b * u) % (b * n) = x + b * (u % n) := by
  have hu : x + b * u = (x + b * (u % n)) + (b * n) * (u / n) := by
    have := mixed_radix_back u n
    calc x + b * u = x + b * (u % n + n * (u / n)) := by rw [this]
      _ = (x + b * (u % n)) + (b * n) * (u / n) := by ring
  rw [hu, Nat.add_mul_mod_self_left]
  exact Nat.mod_eq_of_lt (mixed_radix_lt _ _ _ _ hx (Nat.mod_lt _ (by omega)))

theorem neighbor_inner (x b q k : Nat) (hx : x < b) :
    (x + b * q) / b * b + (x + b * q + k) % b = (x + k) % b + b * q := by
  have h1 : (x + b * q) / b = q := mixed_radix_div _ _ _ hx
  have h2 : x + b * q + k = (x + k) + b * q := by ring
  rw [h1, h2, Nat.add_mul_mod_self_left]
  ring

theorem shift_back (c p : Nat) (hc : c < p) :
    ((c + (p - 1)) % p + 1) % p = c ∧ ((c + 1) % p + (p - 1)) % p = c := by
  refine ⟨?_, ?_⟩
  · rcases Nat.eq_zero_or_pos c with h0 | h0
    · subst h0
      rw [Nat.zero_add, Nat.mod_eq_of_lt (by omega : p - 1 < p)]
      have : p - 1 + 1 = p := by omega
      rw [this, Nat.mod_self]
    · have h1 : c + (p - 1) = (c - 1) + p := by omega
      rw [h1, Nat.add_mod_right, Nat.mod_eq_of_lt (by omega : c - 1 < p)]
      have : c - 1 + 1 = c := by omega
      rw [this, Nat.mod_eq_of_lt hc]
  · rcases Nat.lt_or_ge (c + 1) p with h1 | h1
    · rw [Nat.mod_eq_of_lt h1]
      have : c + 1 + (p - 1) = c + p := by omega
      rw [this, Nat.add_mod_right, Nat.mod_eq_of_lt hc]
    · have h2 : c + 1 = p := by omega
      rw [h2, Nat.mod_self, Nat.zero_add, Nat.mod_eq_of_lt (by omega : p - 1 < p)]
      omega

theorem neighbors_two (p x y : Nat) (hp : 1 ≤ p) (hx : x < p) :
    exchangeNeighbors 2 (x + p * y) p (p * p)
      = [(x + (p - 1)) % p + p * y, (x + 1) % p + p * y,
          x + p * ((y + (p - 1)) % p), x + p * ((y + 1) % p)] := by
  have h0 := neighbor_inner x p y (p - 1) hx
  have h1 := neighbor_inner x p y 1 hx
  have h2 : (x + p * y + (p * p - p)) % (p * p) = x + p * ((y + (p - 1)) % p) := by
    have e : p * p - p = p * (p - 1) := by
      rw [Nat.mul_sub_one]
    rw [e, ← mod_mul_digit x p (y + (p - 1)) p hx hp]
    congr 1
    ring
  have h3 : (x + p * y + p) % (p * p) = x + p * ((y + 1) % p) := by
    rw [← mod_mul_digit x p (y + 1) p hx hp]
    congr 1
    ring
  unfold exchangeNeighbors
  rw [if_neg (by decide), h0, h1, h2, h3]

theorem neighbors_three (p x y z : Nat) (hp : 1 ≤ p) (hx : x < p) (hy : y < p) :
    exchangeNeighbors 3 (x + p * (y + p * z)) p (p * p * p)
      = [(x + (p - 1)) % p + p * (y + p * z), (x + 1) % p + p * (y + p * z),
          x + p * ((y + (p - 1)) % p + p * z), x + p * ((y + 1) % p + p * z),
          x + p * (y + p * ((z + (p - 1)) % p)), x + p * (y + p * ((z + 1) % p))] := by
  have hw : x + p * y < p * p := mixed_radix_lt _ _ _ _ hx hy
  have hr : x + p * (y + p * z) = (x + p * y) + p * p * z := by ring
  have h0 := neighbor_inner x p (y + p * z) (p - 1) hx
  have h1 := neighbor_inner x p (y + p * z) 1 hx
  have h2 : (x + p * y + p * p * z) / (p * p) * (p * p)
      + (x + p * y + p * p * z + (p * p - p)) % (p * p)
      = x + p * ((y + (p - 1)) % p + p * z) := by
    rw [neighbor_inner (x + p * y) (p * p) z (p * p - p) hw]
    have e : p * p - p = p * (p - 1) := by
      rw [Nat.mul_sub_one]
    have e2 : x + p * y + p * (p - 1) = x + p * (y + (p - 1)) := by ring
    rw [e, e2, mod_mul_digit x p (y + (p - 1)) p hx hp]
    ring
  have h3 : (x + p * y + p * p * z) / (p * p) * (p * p)
      + (x + p * y + p * p * z + p) % (p * p)
      = x + p * ((y + 1) % p + p * z) := by
    rw [neighbor_inner (x + p * y) (p * p) z p hw]
    have e2 : x + p * y + p = x + p * (y + 1) := by ring
    rw [e2, mod_mul_digit x p (y + 1) p hx hp]
    ring
  have h4 : (x + p * y + p * p * z + (p * p * p - p * p)) % (p * p * p)
      = x + p * (y + p * ((z + (p - 1)) % p)) := by
    have e : p * p * p - p * p = p * p * (p - 1) := by
      rw [Nat.mul_sub_one]
    have e2 : x + p * y + p * p * z + p * p * (p - 1)
        = (x + p * y) + p * p * (z + (p - 1)) := by ring
    rw [e, e2, mod_mul_digit (x + p * y) (p * p) (z + (p - 1)) p hw hp]
    ring
  have h5 : (x + p * y + p * p * z + p * p) % (p * p * p)
      = x + p * (y + p * ((z + 1) % p)) := by
    have e2 : x + p * y + p * p * z + p * p = (x + p * y) + p * p * (z + 1) := by ring
    rw [e2, mod_mul_digit (x + p * y) (p * p) (z + 1) p hw hp]
    ring
  unfold exchangeNeighbors
  rw [if_pos rfl, h0, h1, hr, h2, h3, h4, h5]

theorem gridCoord_two (p x y : Nat) (hx : x < p) :
    gridCoord 2 p (x + p * y) 0 = x ∧ gridCoord 2 p (x + p * y) 1 = y := by
  unfold gridCoord
  rw [if_neg (by decide), if_pos rfl, if_neg (by decide), if_neg (by decide)]
  exact ⟨mixed_radix_mod _ _ _ hx, mixed_radix_div _ _ _ hx⟩

theorem gridCoord_three (p x y z : Nat) (hx : x < p) (hy : y < p) :
    gridCoord 3 p (x + p * (y + p * z)) 0 = x ∧ gridCoord 3 p (x + p * (y + p * z)) 1 = y ∧
    gridCoord 3 p (x + p * (y + p * z)) 2 = z := by
  have hw : x + p * y < p * p := mixed_radix_lt _ _ _ _ hx hy
  have hr : x + p * (y + p * z) = (x + p * y) + p * p * z := by ring
  have hm : (x + p * (y + p * z)) % (p * p) = x + p * y := by
    rw [hr]
    exact mixed_radix_mod _ _ _ hw
  have hd : (x + p * (y + p * z)) / (p * p) = z := by
    rw [hr]
    exact mixed_radix_div _ _ _ hw
  unfold gridCoord
  refine ⟨?_, ?_, ?_⟩
  · rw [if_pos rfl, if_pos rfl, hm]
    exact mixed_radix_mod _ _ _ hx
  · rw [if_pos rfl, if_neg (by decide), if_pos rfl, hm]
    exact mixed_radix_div _ _ _ hx
  · rw [if_pos rfl, if_neg (by decide), if_neg (by decide)]
    exact hd
theorem neighbors_spec_two (p r i : Nat) (hp : 1 ≤ p) (hr : r < p ^ 2) (hi : i < 2) :
    (exchangeNeighbors 2 r p (p ^ 2)).getD (2 * i) 0 < p ^ 2 ∧
    (exchangeNeighbors 2 r p (p ^ 2)).getD (2 * i + 1) 0 < p ^ 2 ∧
    (∀ axis, axis < 2 →
      gridCoord 2 p ((exchangeNeighbors 2 r p (p ^ 2)).getD (2 * i) 0) axis
        = if axis = i then (gridCoord 2 p r i + (p - 1)) % p else gridCoord 2 p r axis) ∧
    (∀ axis, axis < 2 →
      gridCoord 2 p ((exchangeNeighbors 2 r p (p ^ 2)).getD (2 * i + 1) 0) axis
        = if axis = i then (gridCoord 2 p r i + 1) % p else gridCoord 2 p r axis) ∧
    (exchangeNeighbors 2 ((exchangeNeighbors 2 r p (p ^ 2)).getD (2 * i) 0) p
      (p ^ 2)).getD (2 * i + 1) 0 = r ∧
    (exchangeNeighbors 2 ((exchangeNeighbors 2 r p (p ^ 2)).getD (2 * i + 1) 0) p
      (p ^ 2)).getD (2 * i) 0 = r := by
  have hP : p ^ 2 = p * p := by ring
  rw [hP] at hr ⊢
  have hx : r % p < p := Nat.mod_lt _ (by omega)
  have hy : r / p < p := Nat.div_lt_of_lt_mul hr
  have hrec : r = r % p + p * (r / p) := (mixed_radix_back r p).symm
  generalize r % p = x at hx hrec
  generalize r / p = y at hy hrec
  subst hrec
  have hm : ∀ c, (c + (p - 1)) % p < p := fun c => Nat.mod_lt _ (by omega)
  have hs : ∀ c, (c + 1) % p < p := fun c => Nat.mod_lt _ (by omega)
  rw [neighbors_two p x y hp hx]
  rcases (by omega : i = 0 ∨ i = 1) with rfl | rfl
  · simp only [Nat.mul_zero, Nat.zero_add, List.getD_cons_zero, List.getD_cons_succ]
    rw [neighbors_two p _ y hp (hm x), neighbors_two p _ y hp (hs x)]
    simp only [List.getD_cons_zero, List.getD_cons_succ]
    refine ⟨mixed_radix_lt _ _ _ _ (hm x) hy, mixed_radix_lt _ _ _ _ (hs x) hy, ?_, ?_, ?_, ?_⟩
    · intro axis ha
      rcases (by omega : axis = 0 ∨ axis = 1) with rfl | rfl
      · rw [if_pos rfl, (gridCoord_two p _ y (hm x)).1, (gridCoord_two p x y hx).1]
      · rw [if_neg (by decide), (gridCoord_two p _ y (hm x)).2, (gridCoord_two p x y hx).2]
    · intro axis ha
      rcases (by omega : axis = 0 ∨ axis = 1) with rfl | rfl
      · rw [if_pos rfl, (gridCoord_two p _ y (hs x)).1, (gridCoord_two p x y hx).1]
      · rw [if_neg (by decide), (gridCoord_two p _ y (hs x)).2, (gridCoord_two p x y hx).2]
    · rw [(shift_back x p hx).1]
    · rw [(shift_back x p hx).2]
  · simp only [Nat.mul_one, List.getD_cons_zero, List.getD_cons_succ]
    rw [neighbors_two p x _ hp hx, neighbors_two p x _ hp hx]
    simp only [List.getD_cons_zero, List.getD_cons_succ]
    refine ⟨mixed_radix_lt _ _ _ _ hx (hm y), mixed_radix_lt _ _ _ _ hx (hs y), ?_, ?_, ?_, ?_⟩
    · intro axis ha
      rcases (by omega : axis = 0 ∨ axis = 1) with rfl | rfl
      · rw [if_neg (by decide), (gridCoord_two p x _ hx).1, (gridCoord_two p x y hx).1]
      · rw [if_pos rfl, (gridCoord_two p x _ hx).2, (gridCoord_two p x y hx).2]
    · intro axis ha
      rcases (by omega : axis = 0 ∨ axis = 1) with rfl | rfl
      · rw [if_neg (by decide), (gridCoord_two p x _ hx).1, (gridCoord_two p x y hx).1]
      · rw [if_pos rfl, (gridCoord_two p x _ hx).2, (gridCoord_two p x y hx).2]
    · rw [(shift_back y p hy).1]
    · rw [(shift_back y p hy).2]
theorem neighbors_spec_three (p r i : Nat) (hp : 1 ≤ p) (hr : r < p ^ 3) (hi : i < 3) :
    (exchangeNeighbors 3 r p (p ^ 3)).getD (2 * i) 0 < p ^ 3 ∧
    (exchangeNeighbors 3 r p (p ^ 3)).getD (2 * i + 1) 0 < p ^ 3 ∧
    (∀ axis, axis < 3 →
      gridCoord 3 p ((exchangeNeighbors 3 r p (p ^ 3)).getD (2 * i) 0) axis
        = if axis = i then (gridCoord 3 p r i + (p - 1)) % p else gridCoord 3 p r axis) ∧
    (∀ axis, axis < 3 →
      gridCoord 3 p ((exchangeNeighbors 3 r p (p ^ 3)).getD (2 * i + 1) 0) axis
        = if axis = i then (gridCoord 3 p r i + 1) % p else gridCoord 3 p r axis) ∧
    (exchangeNeighbors 3 ((exchangeNeighbors 3 r p (p ^ 3)).getD (2 * i) 0) p
      (p ^ 3)).getD (2 * i + 1) 0 = r ∧
    (exchangeNeighbors 3 ((exchangeNeighbors 3 r p (p ^ 3)).getD (2 * i + 1) 0) p
      (p ^ 3)).getD (2 * i) 0 = r := by
  have hP : p ^ 3 = p * p * p := by ring
  have hP2 : p * (p * p) = p * p * p := by ring
  rw [hP] at hr ⊢
  have hx : r % p < p := Nat.mod_lt _ (by omega)
  have hy : r / p % p < p := Nat.mod_lt _ (by omega)
  have hz : r / p / p < p := by
    apply Nat.div_lt_of_lt_mul
    apply Nat.div_lt_of_lt_mul
    rw [hP2]
    exact hr
  have hrec : r = r % p + p * (r / p % p + p * (r / p / p)) := by
    rw [mixed_radix_back, mixed_radix_back]
  generalize r % p = x at hx hrec
  generalize r / p % p = y at hy hrec
  generalize r / p / p = z at hz hrec
  subst hrec
  have hm : ∀ c, (c + (p - 1)) % p < p := fun c => Nat.mod_lt _ (by omega)
  have hs : ∀ c, (c + 1) % p < p := fun c => Nat.mod_lt _ (by omega)
  have hlt : ∀ a b c, a < p → b < p → c < p → a + p * (b + p * c) < p * p * p := by
    intro a b c ha hb hc
    have := mixed_radix_lt _ _ _ _ ha (mixed_radix_lt _ _ _ _ hb hc)
    rw [hP2] at this
    exact this
  rw [neighbors_three p x y z hp hx hy]
  rcases (by omega : i = 0 ∨ i = 1 ∨ i = 2) with rfl | rfl | rfl
  · simp only [Nat.mul_zero, Nat.zero_add, List.getD_cons_zero, List.getD_cons_succ]
    rw [neighbors_three p _ y z hp (hm x) hy, neighbors_three p _ y z hp (hs x) hy]
    simp only [List.getD_cons_zero, List.getD_cons_succ]
    refine ⟨hlt _ _ _ (hm x) hy hz, hlt _ _ _ (hs x) hy hz, ?_, ?_, ?_, ?_⟩
    · intro axis ha
      obtain ⟨g0, g1, g2⟩ := gridCoord_three p _ y z (hm x) hy
      obtain ⟨k0, k1, k2⟩ := gridCoord_three p x y z hx hy
      rcases (by omega : axis = 0 ∨ axis = 1 ∨ axis = 2) with rfl | rfl | rfl
      · rw [if_pos rfl, g0, k0]
      · rw [if_neg (by decide), g1, k1]
      · rw [if_neg (by decide), g2, k2]
    · intro axis ha
      obtain ⟨g0, g1, g2⟩ := gridCoord_three p _ y z (hs x) hy
      obtain ⟨k0, k1, k2⟩ := gridCoord_three p x y z hx hy
      rcases (by omega : axis = 0 ∨ axis = 1 ∨ axis = 2) with rfl | rfl | rfl
      · rw [if_pos rfl, g0, k0]
      · rw [if_neg (by decide), g1, k1]
      · rw [if_neg (by decide), g2, k2]
    · rw [(shift_back x p hx).1]
    · rw [(shift_back x p hx).2]
  · simp only [Nat.mul_one, List.getD_cons_zero, List.getD_cons_succ]
    rw [neighbors_three p x _ z hp hx (hm y), neighbors_three p x _ z hp hx (hs y)]
    simp only [List.getD_cons_zero, List.getD_cons_succ]
    refine ⟨hlt _ _ _ hx (hm y) hz, hlt _ _ _ hx (hs y) hz, ?_, ?_, ?_, ?_⟩
    · intro axis ha
      obtain ⟨g0, g1, g2⟩ := gridCoord_three p x _ z hx (hm y)
      obtain ⟨k0, k1, k2⟩ := gridCoord_three p x y z hx hy
      rcases (by omega : axis = 0 ∨ axis = 1 ∨ axis = 2) with rfl | rfl | rfl
      · rw [if_neg (by decide), g0, k0]
      · rw [if_pos rfl, g1, k1]
      · rw [if_neg (by decide), g2, k2]
    · intro axis ha
      obtain ⟨g0, g1, g2⟩ := gridCoord_three p x _ z hx (hs y)
      obtain ⟨k0, k1, k2⟩ := gridCoord_three p x y z hx hy
      rcases (by omega : axis = 0 ∨ axis = 1 ∨ axis = 2) with rfl | rfl | rfl
      · rw [if_neg (by decide), g0, k0]
      · rw [if_pos rfl, g1, k1]
      · rw [if_neg (by decide), g2, k2]
    · rw [(shift_back y p hy).1]
    · rw [(shift_back y p hy).2]
  · simp only [List.getD_cons_zero, List.getD_cons_succ]
    rw [neighbors_three p x y _ hp hx hy, neighbors_three p x y _ hp hx hy]
    simp only [List.getD_cons_zero, List.getD_cons_succ]
    refine ⟨hlt _ _ _ hx hy (hm z), hlt _ _ _ hx hy (hs z), ?_, ?_, ?_, ?_⟩
    · intro axis ha
      obtain ⟨g0, g1, g2⟩ := gridCoord_three p x y ((z + (p - 1)) % p) hx hy
      obtain ⟨k0, k1, k2⟩ := gridCoord_three p x y z hx hy
      rcases (by omega : axis = 0 ∨ axis = 1 ∨ axis = 2) with rfl | rfl | rfl
      · rw [if_neg (by decide), g0, k0]
      · rw [if_neg (by decide), g1, k1]
      · rw [if_pos rfl, g2, k2]
    · intro axis ha
      obtain ⟨g0, g1, g2⟩ := gridCoord_three p x y ((z + 1) % p) hx hy
      obtain ⟨k0, k1, k2⟩ := gridCoord_three p x y z hx hy
      rcases (by omega : axis = 0 ∨ axis = 1 ∨ axis = 2) with rfl | rfl | rfl
      · rw [if_neg (by decide), g0, k0]
      · rw [if_neg (by decide), g1, k1]
      · rw [if_pos rfl, g2, k2]
    · rw [(shift_back z p hz).1]
    · rw [(shift_back z p hz).2]

/-- C24. Neighbours of the ghost exchange in `StochasticPart::exchangeOverlap`: for `dim` 2 or
3, `p ≥ 1`, `P = p^dim` processes and every rank `r < P`, the entries `neighbor[2i]` and
`neighbor[2i+1]` are ranks below `P` whose grid coordinates are those of `r`, except that the
coordinate of axis `i` is shifted by `-1` resp. `+1` modulo `p`. Hence `neighbor[2i+1]` of
`neighbor[2i]` of `r` is `r` and conversely: the rank to which `r` sends its lower face
receives its upper ghost panel from `r`, and the rank to which `r` sends its upper face
receives its lower panel from `r`. -/
theorem exchange_neighbors_shift (dim p r i : Nat) (hdim : dim = 2 ∨ dim = 3) (hp : 1 ≤ p)
    (hr : r < p ^ dim) (hi : i < dim) :
    (exchangeNeighbors dim r p (p ^ dim)).getD (2 * i) 0 < p ^ dim ∧
    (exchangeNeighbors dim r p (p ^ dim)).getD (2 * i + 1) 0 < p ^ dim ∧
    (∀ axis, axis < dim →
      gridCoord dim p ((exchangeNeighbors dim r p (p ^ dim)).getD (2 * i) 0) axis
        = if axis = i then (gridCoord dim p r i + (p - 1)) % p
          else gridCoord dim p r axis) ∧
    (∀ axis, axis < dim →
      gridCoord dim p ((exchangeNeighbors dim r p (p ^ dim)).getD (2 * i + 1) 0) axis
        = if axis = i then (gridCoord dim p r i + 1) % p else gridCoord dim p r axis) ∧
    (exchangeNeighbors dim ((exchangeNeighbors dim r p (p ^ dim)).getD (2 * i) 0) p
      (p ^ dim)).getD (2 * i + 1) 0 = r ∧
    (exchangeNeighbors dim ((exchangeNeighbors dim r p (p ^ dim)).getD (2 * i + 1) 0) p
      (p ^ dim)).getD (2 * i) 0 = r := by
  rcases hdim with rfl | rfl
  · exact neighbors_spec_two p r i hp hr hi
  · exact neighbors_spec_three p r i hp hr hi

theorem exchange_neighbors_shift_witness :
    (exchangeNeighbors 3 5 2 (2 ^ 3)).getD (2 * 1) 0 < 2 ^ 3 ∧
    (exchangeNeighbors 3 5 2 (2 ^ 3)).getD (2 * 1 + 1) 0 < 2 ^ 3 ∧
    (∀ axis, axis < 3 →
      gridCoord 3 2 ((exchangeNeighbors 3 5 2 (2 ^ 3)).getD (2 * 1) 0) axis
        = if axis = 1 then (gridCoord 3 2 5 1 + (2 - 1)) % 2 else gridCoord 3 2 5 axis) ∧
    (∀ axis, axis < 3 →
      gridCoord 3 2 ((exchangeNeighbors 3 5 2 (2 ^ 3)).getD (2 * 1 + 1) 0) axis
        = if axis = 1 then (gridCoord 3 2 5 1 + 1) % 2 else gridCoord 3 2 5 axis) ∧
    (exchangeNeighbors 3 ((exchangeNeighbors 3 5 2 (2 ^ 3)).getD (2 * 1) 0) 2
      (2 ^ 3)).getD (2 * 1 + 1) 0 = 5 ∧
    (exchangeNeighbors 3 ((exchangeNeighbors 3 5 2 (2 ^ 3)).getD (2 * 1 + 1) 0) 2
      (2 ^ 3)).getD (2 * 1) 0 = 5 :=
  exchange_neighbors_shift 3 2 5 1 (by decide) (by decide) (by decide) (by decide)

theorem exchangeNeighbors_example :
    exchangeNeighbors 3 5 2 8 = [4, 4, 7, 7, 1, 1] ∧
    exchangeNeighbors 2 5 3 9 = [4, 3, 2, 8] := by
  decide
theorem updateEvalLayout_gridCoord (dim : Nat) (s : StochasticPart) (axis : Nat)
    (hdim : dim = 2 ∨ dim = 3) (haxis : axis < dim) :
    (s.updateEvalLayout dim).localEvalOffset.getD axis 0
      = gridCoord dim s.procPerDim s.rank axis
        * (s.updateEvalLayout dim).localEvalCells.getD axis 0 := by
  have hlen : (resize dim 0 s.localEvalOffset).length = dim := length_resize _ _ _
  unfold StochasticPart.updateEvalLayout gridCoord
  rcases hdim with rfl | rfl
  · rcases (by omega : axis = 0 ∨ axis = 1) with rfl | rfl <;>
      simp [hlen]
  · rcases (by omega : axis = 0 ∨ axis = 1 ∨ axis = 2) with rfl | rfl | rfl <;>
      simp [hlen]

/-! ## Theorems: the divisors of the spectral inverse -/

theorem fillTransformedMatrix_success_symbol (t : Traits) (B : Backend) (m m1 : MatrixState)
    (h : fillTransformedMatrix t B m = (m1, none)) :
    m1.symbol = (B.transformed.getD m.rank []).map (fun v => max v 0) := by
  have hc : m.covariance ∈ knownCovariances := by
    by_contra hc
    rw [fillTransformedMatrix, if_pos hc] at h
    simp at h
  have ha : t.anisotropy ∈ knownAnisotropies := by
    by_contra ha
    rw [fillTransformedMatrix, if_neg (not_not.mpr hc), if_pos ha] at h
    simp at h
  have hs := fillTransformedMatrix_symbol t B m hc ha
  rw [h, auditLoop_stored] at hs
  exact hs

theorem getD_map_max (values : List ℚ) (index : Nat) (hi : index < values.length) :
    (values.map (fun v => max v 0)).getD index 0 = max (values.getD index 0) 0 := by
  rw [List.getD_eq_getElem _ _ (by rw [List.length_map]; exact hi),
    List.getD_eq_getElem _ _ hi, List.getElem_map]

theorem getD_map_max_all (values : List ℚ) (index : Nat) :
    (values.map (fun v => max v 0)).getD index 0 = max (values.getD index 0) 0 := by
  by_cases hi : index < values.length
  · exact getD_map_max values index hi
  · rw [List.getD_eq_default _ _ (by rw [List.length_map]; omega),
      List.getD_eq_default _ _ (by omega), max_self]

/-- C26 (as amended). After a successful `fillTransformedMatrix` the stored symbol is the
post-transform array with every entry `v` replaced by `max v 0`, and `multiplyInverseExtended`
scales bin `index` by `1 / d` for every `index < localFieldSize`, where the divisor `d` is
`matrixBackend.eval(index)` on equal layouts and `matrixBackend.eval(indices)` otherwise. With
a matrix backend whose `eval(index)` reads the stored entry `index` and whose `eval(indices)`
reads the stored entry at the position `pos indices`, every divisor is the clamped
post-transform entry it reads: it is `≥ 0`, and it is nonzero if and only if that
post-transform entry is positive. -/
theorem inverse_divisor_nonzero_iff (t : Traits) (B : Backend) (m m1 : MatrixState)
    (pos : List Nat → Nat)
    (h : fillTransformedMatrix t B m = (m1, none))
    (hIndex : ∀ sym index, B.evalIndex sym index = sym.getD index 0)
    (hIndices : ∀ sym indices, B.evalIndices sym indices = sym.getD (pos indices) 0) :
    m1.symbol = (B.transformed.getD m.rank []).map (fun v => max v 0) ∧
    (∀ input, multiplyInverseExtended t B m1 input
      = (m1, .ok (B.extendedFieldToField (B.backwardTransform
          ((List.range B.localFieldSize).foldl (fun buf index =>
            B.mult index
              (1 / (if sameLayout t.dim B then B.evalIndex m1.symbol index
                else B.evalIndices m1.symbol (indexToIndices t.dim index B.localFieldCells)))
              buf)
            (B.forwardTransform (B.fieldToExtendedField input)))) 0))) ∧
    (∀ index,
      (if sameLayout t.dim B then B.evalIndex m1.symbol index
        else B.evalIndices m1.symbol (indexToIndices t.dim index B.localFieldCells))
        = max ((B.transformed.getD m.rank []).getD
            (if sameLayout t.dim B then index
              else pos (indexToIndices t.dim index B.localFieldCells)) 0) 0 ∧
      0 ≤ (if sameLayout t.dim B then B.evalIndex m1.symbol index
        else B.evalIndices m1.symbol (indexToIndices t.dim index B.localFieldCells)) ∧
      ((if sameLayout t.dim B then B.evalIndex m1.symbol index
        else B.evalIndices m1.symbol (indexToIndices t.dim index B.localFieldCells)) ≠ 0
        ↔ 0 < (B.transformed.getD m.rank []).getD
            (if sameLayout t.dim B then index
              else pos (indexToIndices t.dim index B.localFieldCells)) 0)) := by
  have hs := fillTransformedMatrix_success_symbol t B m m1 h
  have hv := (fillTransformedMatrix_ok t B m m1 h).1
  have hentry : ∀ p, m1.symbol.getD p 0 = max ((B.transformed.getD m.rank []).getD p 0) 0 ∧
      0 ≤ m1.symbol.getD p 0 ∧
      (m1.symbol.getD p 0 ≠ 0 ↔ 0 < (B.transformed.getD m.rank []).getD p 0) := by
    intro p
    rw [hs, getD_map_max_all]
    refine ⟨rfl, le_max_right _ _, ?_⟩
    constructor
    · intro hne
      by_contra hle
      apply hne
      exact max_eq_right (not_lt.mp hle)
    · intro hpos
      rw [max_eq_left (le_of_lt hpos)]
      exact ne_of_gt hpos
  refine ⟨hs, ?_, ?_⟩
  · intro input
    rw [multiplyInverseExtended_of_valid t B m1 input hv]
    rfl
  · intro index
    by_cases hlay : sameLayout t.dim B = true
    · simp only [hlay, if_true, hIndex]
      exact hentry index
    · simp only [hlay, if_false, hIndices, Bool.false_eq_true]
      exact hentry _

theorem inverse_divisor_nonzero_iff_witness :
    (0 ≤ (Backend.diagonal [9, 0] true).evalIndex
        (fillTransformedMatrix (Traits.strip 2 true false) (Backend.diagonal [9, 0] true)
          (MatrixState.create (Traits.strip 2 true false))).1.symbol 1 ∧
      ((Backend.diagonal [9, 0] true).evalIndex
          (fillTransformedMatrix (Traits.strip 2 true false) (Backend.diagonal [9, 0] true)
            (MatrixState.create (Traits.strip 2 true false))).1.symbol 1 ≠ 0
        ↔ 0 < ([9, 0] : List ℚ).getD 1 0)) ∧
    (0 ≤ (Backend.diagonal [9, -(1 / 10 ^ 11)] true).evalIndices
        (fillTransformedMatrix (Traits.strip 2 true false)
          { Backend.diagonal [9, -(1 / 10 ^ 11)] true with localEvalMatrixCells := [1, 2] }
          (MatrixState.create (Traits.strip 2 true false))).1.symbol [0, 0] ∧
      ((Backend.diagonal [9, -(1 / 10 ^ 11)] true).evalIndices
          (fillTransformedMatrix (Traits.strip 2 true false)
            { Backend.diagonal [9, -(1 / 10 ^ 11)] true with localEvalMatrixCells := [1, 2] }
            (MatrixState.create (Traits.strip 2 true false))).1.symbol [0, 0] ≠ 0
        ↔ 0 < ([9, -(1 / 10 ^ 11)] : List ℚ).getD 0 0)) :=
  ⟨((inverse_divisor_nonzero_iff (Traits.strip 2 true false) (Backend.diagonal [9, 0] true)
      (MatrixState.create (Traits.strip 2 true false))
      (fillTransformedMatrix (Traits.strip 2 true false) (Backend.diagonal [9, 0] true)
        (MatrixState.create (Traits.strip 2 true false))).1
      (fun indices => indices.getD 0 0) (by decide!) (fun _ _ => rfl)
      (fun _ _ => rfl)).2.2 1).2,
    ((inverse_divisor_nonzero_iff (Traits.strip 2 true false)
      { Backend.diagonal [9, -(1 / 10 ^ 11)] true with localEvalMatrixCells := [1, 2] }
      (MatrixState.create (Traits.strip 2 true false))
      (fillTransformedMatrix (Traits.strip 2 true false)
        { Backend.diagonal [9, -(1 / 10 ^ 11)] true with localEvalMatrixCells := [1, 2] }
        (MatrixState.create (Traits.strip 2 true false))).1
      (fun indices => indices.getD 0 0) (by decide!) (fun _ _ => rfl)
      (fun _ _ => rfl)).2.2 0).2⟩

/-- C26 (as stated) fails. With the post-transform entries `4` and `-1e-11` the fill succeeds
(`approximate` is off), the second entry is stored as `0`, and `multiplyInverseExtended` uses
it as divisor of bin 1, on equal layouts through `eval(index)` and on different layouts
through `eval(indices)`. With the entries `4` and `0` the fill succeeds and the divisor of
bin 1 is the stored `0`. -/
theorem inverse_divides_by_clamped_zero :
    (fillTransformedMatrix (Traits.strip 2 true false)
        (Backend.diagonal [4, -(1 / 10 ^ 11)] true)
        (MatrixState.create (Traits.strip 2 true false))).2 = none ∧
    (1 < (Backend.diagonal [4, -(1 / 10 ^ 11)] true).localFieldSize ∧
      sameLayout (Traits.strip 2 true false).dim (Backend.diagonal [4, -(1 / 10 ^ 11)] true)
        = true) ∧
    symbolAt (Traits.strip 2 true false).dim (Backend.diagonal [4, -(1 / 10 ^ 11)] true)
        (fillTransformedMatrix (Traits.strip 2 true false)
          (Backend.diagonal [4, -(1 / 10 ^ 11)] true)
          (MatrixState.create (Traits.strip 2 true false))).1.symbol 1 = 0 ∧
    (sameLayout (Traits.strip 2 true false).dim
        { Backend.diagonal [4, -(1 / 10 ^ 11)] true with localEvalMatrixCells := [1, 2] }
        = false ∧
      symbolAt (Traits.strip 2 true false).dim
        { Backend.diagonal [4, -(1 / 10 ^ 11)] true with localEvalMatrixCells := [1, 2] }
        (fillTransformedMatrix (Traits.strip 2 true false)
          { Backend.diagonal [4, -(1 / 10 ^ 11)] true with localEvalMatrixCells := [1, 2] }
          (MatrixState.create (Traits.strip 2 true false))).1.symbol 1 = 0) ∧
    ((fillTransformedMatrix (Traits.strip 2 true false) (Backend.diagonal [4, 0] true)
        (MatrixState.create (Traits.strip 2 true false))).2 = none ∧
      symbolAt (Traits.strip 2 true false).dim (Backend.diagonal [4, 0] true)
        (fillTransformedMatrix (Traits.strip 2 true false) (Backend.diagonal [4, 0] true)
          (MatrixState.create (Traits.strip 2 true false))).1.symbol 1 = 0) := by
  decide!

/-! ## Theorems: the subscripts of the block layout -/

/-- C27. In 2D and 3D every subscript of `localEvalCells` and `localEvalOffset` in
`StochasticPart::update` is below `dim`. In 1D, where every process count is accepted and the
call returns, the `else` branch uses the subscript 1 on vectors of one entry. -/
theorem update_subscripts_beyond_dim_1d :
    (∀ k, k ∈ evalLayoutSubscripts 2 → k < 2) ∧
    (∀ k, k ∈ evalLayoutSubscripts 3 → k < 3) ∧
    evalLayoutSubscripts 1 = [0, 0, 0, 1, 1] ∧
    ¬ (∀ k, k ∈ evalLayoutSubscripts 1 → k < 1) ∧
    (StochasticPart.blank.update (Traits.initial 1 0 1 1 [1] [4])).map
      (fun r => (r.2, r.1.procPerDim, r.1.localEvalCells, r.1.localEvalOffset))
      = some (none, 1, [4], [0]) := by
  decide

/-! ## Theorems: the eval view after sampling -/

/-- C28. `Matrix::generateField` clears `evalValid` only when it samples. With a spare field
cached it replaces the data vector (`[3]` becomes `[9]`) and leaves `evalValid == true`, so the
next `evaluate` still answers `3` from the old eval view. Without a cached spare field the same
call ends with `evalValid == false`. -/
theorem generateField_spare_keeps_evalValid :
    (generateField (Traits.strip 1 true false) (Backend.diagonal [4] true) 0
        { (RandomField.strip [4] [3] [0] [0] true false false false).matrix with
          spareField := some [9] }
        { StochasticPart.strip 1 [3] with evalValid := true, evalVector := [3] }).2 = none ∧
    (generateField (Traits.strip 1 true false) (Backend.diagonal [4] true) 0
        { (RandomField.strip [4] [3] [0] [0] true false false false).matrix with
          spareField := some [9] }
        { StochasticPart.strip 1 [3] with evalValid := true, evalVector := [3] }).1.2.dataVector
      = [9] ∧
    (generateField (Traits.strip 1 true false) (Backend.diagonal [4] true) 0
        { (RandomField.strip [4] [3] [0] [0] true false false false).matrix with
          spareField := some [9] }
        { StochasticPart.strip 1 [3] with evalValid := true, evalVector := [3] }).1.2.evalValid
      = true ∧
    ((generateField (Traits.strip 1 true false) (Backend.diagonal [4] true) 0
        { (RandomField.strip [4] [3] [0] [0] true false false false).matrix with
          spareField := some [9] }
        { StochasticPart.strip 1 [3] with evalValid := true, evalVector := [3] }).1.2.evaluate
        (Traits.strip 1 true false) (fun u => (u.evalVector, u.overlap)) [1 / 2, 1 / 2]).2
      = 3 ∧
    (generateField (Traits.strip 1 true false) (Backend.diagonal [4] true) 0
        (RandomField.strip [4] [3] [0] [0] true false false false).matrix
        { StochasticPart.strip 1 [3] with evalValid := true, evalVector := [3] }).1.2.evalValid
      = false := by
  decide!
/-! ## Theorems: the descriptor after a failed coarsen -/

theorem coarsenCells_first_odd : ∀ (remaining i : Nat) (cells : List Nat) (j : Nat),
    i ≤ j → j < i + remaining → cells.getD j 0 % 2 ≠ 0 →
    (∀ k, i ≤ k → k < j → cells.getD k 0 % 2 = 0) →
      (coarsenCells remaining i cells).2 = some Exn.oddCells ∧
      ∀ k, (coarsenCells remaining i cells).1.getD k 0 =
        if i ≤ k ∧ k < j then cells.getD k 0 / 2 else cells.getD k 0 := by
  intro remaining
  induction remaining with
  | zero =>
    intro i cells j h1 h2
    omega
  | succ n ih =>
    intro i cells j h1 h2 hodd heven
    rcases Nat.eq_or_lt_of_le h1 with rfl | hlt
    · rw [coarsenCells, if_pos hodd]
      refine ⟨rfl, fun k => ?_⟩
      rw [if_neg (by omega)]
    · have hi : ¬ cells.getD i 0 % 2 ≠ 0 := not_not.mpr (heven i (le_refl _) hlt)
      have hget : ∀ k, (cells.set i (cells.getD i 0 / 2)).getD k 0
          = if k = i then cells.getD i 0 / 2 else cells.getD k 0 := by
        intro k
        rw [getD_set_eq]
        by_cases hk : k = i
        · subst hk
          by_cases hl : k < cells.length
          · rw [if_pos ⟨rfl, hl⟩, if_pos rfl]
          · rw [if_neg (fun h => hl h.2), if_pos rfl,
              List.getD_eq_default _ _ (by omega)]
        · rw [if_neg (fun h => hk h.1), if_neg hk]
      obtain ⟨r1, r2⟩ := ih (i + 1) (cells.set i (cells.getD i 0 / 2)) j (by omega) (by omega)
        (by rw [hget, if_neg (by omega)]; exact hodd)
        (by
          intro k hk1 hk2
          rw [hget, if_neg (by omega)]
          exact heven k (by omega) hk2)
      rw [coarsenCells, if_neg hi]
      refine ⟨r1, fun k => ?_⟩
      rw [r2 k, hget]
      by_cases hk : k = i
      · subst hk
        rw [if_neg (by omega), if_pos rfl, if_pos ⟨le_refl _, hlt⟩]
      · rw [if_neg hk]
        by_cases hc : i + 1 ≤ k ∧ k < j
        · rw [if_pos hc, if_pos ⟨by omega, hc.2⟩]
        · rw [if_neg hc, if_neg (by omega)]

theorem coarsenCells_error : ∀ (remaining i : Nat) (cells : List Nat) (e : Exn),
    (coarsenCells remaining i cells).2 = some e → e = Exn.oddCells := by
  intro remaining
  induction remaining with
  | zero =>
    intro i cells e h
    cases h
  | succ n ih =>
    intro i cells e h
    rw [coarsenCells] at h
    split_ifs at h with hi
    · exact (Option.some.inj h).symm
    · exact ih _ _ e h

theorem getFFTData_error_dim (fftw : FFTW) (t : Traits) (e : Exn)
    (h : (t.getFFTData fftw).2 = some e) : t.dim = 1 := by
  simp only [Traits.getFFTData] at h
  split_ifs at h with h1 h2
  · exact h1

theorem update_fftMismatch_state (fftw : FFTW) (t : Traits)
    (h : (t.update fftw).2 = some Exn.fftMismatch) :
    t.dim = 1 ∧
    (t.update fftw).1 = { t with
      meshsize := tabulate t.dim (fun i => t.extensions.getD i 0 / (t.cells.getD i 0 : ℚ))
      extendedCells := tabulate t.dim (fun i => t.embeddingFactor * t.cells.getD i 0)
      allocLocal := (fftw.localSize1d (t.embeddingFactor * t.cells.getD 0 0)).1
      localN0 := (fftw.localSize1d (t.embeddingFactor * t.cells.getD 0 0)).2.1
      local0Start := (fftw.localSize1d (t.embeddingFactor * t.cells.getD 0 0)).2.2.1 } := by
  unfold Traits.update at h ⊢
  split_ifs at h ⊢ with g1 g2
  · cases h
  · cases h
  · rcases hq : Traits.getFFTData fftw (Traits.updateMesh t) with ⟨q, _ | e⟩
    · rw [hq] at h
      cases h
    · have hd : t.dim = 1 := getFFTData_error_dim fftw t.updateMesh e (by rw [hq])
      refine ⟨hd, ?_⟩
      have hq1 : q = ((fftw.localSize1d (t.embeddingFactor * t.cells.getD 0 0)).1,
          (fftw.localSize1d (t.embeddingFactor * t.cells.getD 0 0)).2.1,
          (fftw.localSize1d (t.embeddingFactor * t.cells.getD 0 0)).2.2.1) := by
        have hq2 := congrArg Prod.fst hq
        simp only [Traits.getFFTData, Traits.updateMesh, hd, if_true] at hq2
        split_ifs at hq2 <;> exact hq2.symm
      rw [hq1]
      rfl

/-- C30 (as amended). The state after a failed `coarsen`. The error raised is the oddness
error, one of the two divisibility errors of `update`, or (only for `dim = 1`) the FFTW
mismatch error of `getFFTData`. When `cells[j]` is the first odd entry the call raises the
oddness error; the entries before `j` are halved, the entries from `j` on, the level and every
derived size are as before. When all entries are even and `update` raises a divisibility
error, all entries are halved, the level is decremented and every derived size is as before.
When the FFTW mismatch error is raised, all entries are halved, the level is decremented, and
`meshsize`, `extendedCells`, `allocLocal`, `localN0` and `local0Start` are already those of
the halved grid, the other derived sizes being as before. -/
theorem coarsen_failure_state (fftw : FFTW) (t : Traits) :
    (∀ e, (t.coarsen fftw).2 = some e →
      e = Exn.oddCells ∨ e = Exn.lastDimNotMultiple ∨ e = Exn.notMultipleOfSquare ∨
        (e = Exn.fftMismatch ∧ t.dim = 1)) ∧
    (∀ j, j < t.dim → t.cells.getD j 0 % 2 ≠ 0 →
      (∀ k, k < j → t.cells.getD k 0 % 2 = 0) →
        (t.coarsen fftw).2 = some Exn.oddCells ∧
        (t.coarsen fftw).1 = { t with cells := (t.coarsen fftw).1.cells } ∧
        ∀ k, (t.coarsen fftw).1.cells.getD k 0
          = if k < j then t.cells.getD k 0 / 2 else t.cells.getD k 0) ∧
    ((∀ k, k < t.dim → t.cells.getD k 0 % 2 = 0) →
      ((t.coarsen fftw).2 = some Exn.lastDimNotMultiple
        ∨ (t.coarsen fftw).2 = some Exn.notMultipleOfSquare) →
        (t.coarsen fftw).1
          = { t with cells := (t.coarsen fftw).1.cells, level := decrementLevel t.level } ∧
        ∀ k, k < t.dim → (t.coarsen fftw).1.cells.getD k 0 = t.cells.getD k 0 / 2) ∧
    ((t.coarsen fftw).2 = some Exn.fftMismatch →
      (t.coarsen fftw).1 = { t with
        cells := (t.coarsen fftw).1.cells
        level := decrementLevel t.level
        meshsize := tabulate t.dim (fun i =>
          t.extensions.getD i 0 / ((t.coarsen fftw).1.cells.getD i 0 : ℚ))
        extendedCells := tabulate t.dim (fun i =>
          t.embeddingFactor * (t.coarsen fftw).1.cells.getD i 0)
        allocLocal := (fftw.localSize1d
          (t.embeddingFactor * (t.coarsen fftw).1.cells.getD 0 0)).1
        localN0 := (fftw.localSize1d
          (t.embeddingFactor * (t.coarsen fftw).1.cells.getD 0 0)).2.1
        local0Start := (fftw.localSize1d
          (t.embeddingFactor * (t.coarsen fftw).1.cells.getD 0 0)).2.2.1 } ∧
      ∀ k, k < t.dim → (t.coarsen fftw).1.cells.getD k 0 = t.cells.getD k 0 / 2) := by
  refine ⟨?_, ?_, ?_, ?_⟩
  · intro e he
    rcases hc : coarsenCells t.dim 0 t.cells with ⟨cells, _ | e1⟩
    · have hres : t.coarsen fftw
          = Traits.update fftw { t with cells := cells, level := decrementLevel t.level } := by
        rw [Traits.coarsen, hc]
      rw [hres] at he
      rcases update_error_cases fftw _ e he with h | h | h
      · exact Or.inr (Or.inl h.1)
      · exact Or.inr (Or.inr (Or.inl h.1))
      · refine Or.inr (Or.inr (Or.inr ⟨h.1, ?_⟩))
        rw [h.1] at he
        exact (update_fftMismatch_state fftw _ he).1
    · have hres : t.coarsen fftw = ({ t with cells := cells }, some e1) := by
        rw [Traits.coarsen, hc]
      rw [hres] at he
      have he1 := coarsenCells_error t.dim 0 t.cells e1 (by rw [hc])
      left
      rw [← Option.some.inj he]
      exact he1
  · intro j hj hodd heven
    obtain ⟨h1, h2⟩ := coarsenCells_first_odd t.dim 0 t.cells j (Nat.zero_le j) (by omega) hodd
      (fun k _ hk => heven k hk)
    rcases hc : coarsenCells t.dim 0 t.cells with ⟨cells, _ | e⟩
    · rw [hc] at h1
      cases h1
    · rw [hc] at h1 h2
      have hres : t.coarsen fftw = ({ t with cells := cells }, some e) := by
        rw [Traits.coarsen, hc]
      rw [hres]
      refine ⟨h1, rfl, fun k => ?_⟩
      have := h2 k
      simp only [Nat.zero_le, true_and] at this
      exact this
  · intro heven herr
    obtain ⟨h1, h2⟩ := coarsenCells_even t.dim 0 t.cells (fun k _ hk => heven k (by omega))
    rcases hc : coarsenCells t.dim 0 t.cells with ⟨cells, _ | e⟩
    · rw [hc] at h2
      have hres : t.coarsen fftw
          = Traits.update fftw { t with cells := cells, level := decrementLevel t.level } := by
        rw [Traits.coarsen, hc]
      rw [hres] at herr ⊢
      have hstate : (Traits.update fftw
            { t with cells := cells, level := decrementLevel t.level }).1
          = { t with cells := cells, level := decrementLevel t.level } := by
        unfold Traits.update at herr ⊢
        split_ifs at herr ⊢ with g1 g2
        · rfl
        · rfl
        · exfalso
          rcases hq : Traits.getFFTData fftw (Traits.updateMesh
              { t with cells := cells, level := decrementLevel t.level }) with ⟨q, _ | e⟩
          · rw [hq] at herr
            simp at herr
          · have he := getFFTData_error fftw _ e (by rw [hq])
            rw [hq] at herr
            simp only [Option.some.injEq] at herr
            rcases herr with herr | herr
            · rw [herr] at he
              cases he
            · rw [herr] at he
              cases he
      rw [hstate]
      refine ⟨rfl, fun k hk => ?_⟩
      have := h2 k
      rw [if_pos ⟨Nat.zero_le k, by omega⟩] at this
      exact this
    · rw [hc] at h1
      cases h1
  · intro herr
    rcases hc : coarsenCells t.dim 0 t.cells with ⟨cells, _ | e⟩
    · have hres : t.coarsen fftw
          = Traits.update fftw { t with cells := cells, level := decrementLevel t.level } := by
        rw [Traits.coarsen, hc]
      rw [hres] at herr ⊢
      obtain ⟨-, hstate⟩ := update_fftMismatch_state fftw _ herr
      have heven : ∀ j, 0 ≤ j → j < 0 + t.dim → t.cells.getD j 0 % 2 = 0 := by
        intro j _ hj
        by_contra hodd
        have := coarsenCells_odd t.dim 0 t.cells ⟨j, Nat.zero_le j, hj, hodd⟩
        rw [hc] at this
        cases this
      obtain ⟨-, h2⟩ := coarsenCells_even t.dim 0 t.cells heven
      rw [hc] at h2
      rw [hstate]
      refine ⟨rfl, fun k hk => ?_⟩
      have := h2 k
      rw [if_pos ⟨Nat.zero_le k, by omega⟩] at this
      exact this
    · have hres : t.coarsen fftw = ({ t with cells := cells }, some e) := by
        rw [Traits.coarsen, hc]
      rw [hres] at herr
      have he1 := coarsenCells_error t.dim 0 t.cells e (by rw [hc])
      rw [he1] at herr
      cases herr

theorem coarsen_failure_state_witness :
    (((Traits.update FFTW.serial (Traits.initial 2 0 1 2 [1, 1] [4, 5])).1.coarsen
        FFTW.serial).2 = some Exn.oddCells ∧
      ((Traits.update FFTW.serial (Traits.initial 2 0 1 2 [1, 1] [4, 5])).1.coarsen
        FFTW.serial).1
        = { (Traits.update FFTW.serial (Traits.initial 2 0 1 2 [1, 1] [4, 5])).1 with
            cells := ((Traits.update FFTW.serial
              (Traits.initial 2 0 1 2 [1, 1] [4, 5])).1.coarsen FFTW.serial).1.cells }) ∧
    ((Traits.update (FFTW.slabs 2 0) (Traits.initial 2 0 2 2 [1, 1] [4, 2])).1.coarsen
        (FFTW.slabs 2 0)).1
      = { (Traits.update (FFTW.slabs 2 0) (Traits.initial 2 0 2 2 [1, 1] [4, 2])).1 with
          cells := ((Traits.update (FFTW.slabs 2 0)
            (Traits.initial 2 0 2 2 [1, 1] [4, 2])).1.coarsen (FFTW.slabs 2 0)).1.cells
          level := decrementLevel
            (Traits.update (FFTW.slabs 2 0) (Traits.initial 2 0 2 2 [1, 1] [4, 2])).1.level } ∧
    (∀ k, k < (Traits.update (FFTW.mismatchAt 4) (Traits.initial 1 0 1 2 [1] [4])).1.dim →
      ((Traits.update (FFTW.mismatchAt 4) (Traits.initial 1 0 1 2 [1] [4])).1.coarsen
        (FFTW.mismatchAt 4)).1.cells.getD k 0
      = (Traits.update (FFTW.mismatchAt 4) (Traits.initial 1 0 1 2 [1] [4])).1.cells.getD k 0
        / 2) :=
  ⟨(fun h => ⟨h.1, h.2.1⟩) ((coarsen_failure_state FFTW.serial
      (Traits.update FFTW.serial (Traits.initial 2 0 1 2 [1, 1] [4, 5])).1).2.1 1
      (by decide) (by decide) (by decide)),
    ((coarsen_failure_state (FFTW.slabs 2 0)
      (Traits.update (FFTW.slabs 2 0) (Traits.initial 2 0 2 2 [1, 1] [4, 2])).1).2.2.1
      (by decide) (Or.inl (by decide))).1,
    ((coarsen_failure_state (FFTW.mismatchAt 4)
      (Traits.update (FFTW.mismatchAt 4) (Traits.initial 1 0 1 2 [1] [4])).1).2.2.2
      (by decide)).2⟩

/-- C30 (as stated) fails. On one process the 2D descriptor constructed with `cells = [4, 5]`
raises the oddness error after `cells[0]` is halved. On two processes the descriptor
constructed with `cells = [4, 2]` raises the divisibility error of `update` after all cells
are halved and the level is decremented (from 0, so that the `unsigned int` wraps). -/
theorem coarsen_failure_changes_cells :
    ((Traits.update FFTW.serial (Traits.initial 2 0 1 2 [1, 1] [4, 5])).2 = none ∧
      (Traits.update FFTW.serial (Traits.initial 2 0 1 2 [1, 1] [4, 5])).1.cells = [4, 5] ∧
      ((Traits.update FFTW.serial (Traits.initial 2 0 1 2 [1, 1] [4, 5])).1.coarsen
        FFTW.serial).2 = some Exn.oddCells ∧
      ((Traits.update FFTW.serial (Traits.initial 2 0 1 2 [1, 1] [4, 5])).1.coarsen
        FFTW.serial).1.cells = [2, 5]) ∧
    ((Traits.update (FFTW.slabs 2 0) (Traits.initial 2 0 2 2 [1, 1] [4, 2])).2 = none ∧
      (Traits.update (FFTW.slabs 2 0) (Traits.initial 2 0 2 2 [1, 1] [4, 2])).1.cells
        = [4, 2] ∧
      (Traits.update (FFTW.slabs 2 0) (Traits.initial 2 0 2 2 [1, 1] [4, 2])).1.level = 0 ∧
      ((Traits.update (FFTW.slabs 2 0) (Traits.initial 2 0 2 2 [1, 1] [4, 2])).1.coarsen
        (FFTW.slabs 2 0)).2 = some Exn.lastDimNotMultiple ∧
      ((Traits.update (FFTW.slabs 2 0) (Traits.initial 2 0 2 2 [1, 1] [4, 2])).1.coarsen
        (FFTW.slabs 2 0)).1.cells = [2, 1] ∧
      ((Traits.update (FFTW.slabs 2 0) (Traits.initial 2 0 2 2 [1, 1] [4, 2])).1.coarsen
        (FFTW.slabs 2 0)).1.level = 2 ^ 32 - 1) := by
  decide

theorem coarsen_fftMismatch_example :
    (Traits.update (FFTW.mismatchAt 4) (Traits.initial 1 0 1 2 [1] [4])).2 = none ∧
    (Traits.update (FFTW.mismatchAt 4) (Traits.initial 1 0 1 2 [1] [4])).1.extendedCells
      = [8] ∧
    ((Traits.update (FFTW.mismatchAt 4) (Traits.initial 1 0 1 2 [1] [4])).1.coarsen
      (FFTW.mismatchAt 4)).2 = some Exn.fftMismatch ∧
    ((Traits.update (FFTW.mismatchAt 4) (Traits.initial 1 0 1 2 [1] [4])).1.coarsen
      (FFTW.mismatchAt 4)).1.cells = [2] ∧
    ((Traits.update (FFTW.mismatchAt 4) (Traits.initial 1 0 1 2 [1] [4])).1.coarsen
      (FFTW.mismatchAt 4)).1.extendedCells = [4] ∧
    ((Traits.update (FFTW.mismatchAt 4) (Traits.initial 1 0 1 2 [1] [4])).1.coarsen
      (FFTW.mismatchAt 4)).1.localExtendedCells = [8] := by
  decide

/-! ## Theorems: serial evaluation -/

theorem countIndex_eq_iff (dim i e c : Nat) (hi : i < dim) :
    countIndex dim i e c = 2 * dim ↔ e < c := by
  unfold countIndex
  split_ifs <;> constructor <;> intro h <;> omega

theorem adjustIndex_le (e c : Nat) (he : e ≤ c) (hc : 1 ≤ c) :
    adjustIndex e c = min e (c - 1) := by
  unfold adjustIndex
  rw [if_neg (by omega)]
  split_ifs with h
  · subst h
    rw [unsignedSub_pred e (e - 1) (by omega), Nat.min_eq_right (by omega)]
  · rw [Nat.min_eq_left (by omega)]

theorem lookup_fallback_two (s : StochasticPart) (e0 e1 : Nat)
    (h0 : e0 ≤ s.localEvalCells.getD 0 0) (h1 : e1 ≤ s.localEvalCells.getD 1 0)
    (hc0 : 1 ≤ s.localEvalCells.getD 0 0) (hc1 : 1 ≤ s.localEvalCells.getD 1 0)
    (hnot : ¬ ((e0 = s.localEvalCells.getD 0 0 ∧ e1 < s.localEvalCells.getD 1 0) ∨
      (e0 < s.localEvalCells.getD 0 0 ∧ e1 = s.localEvalCells.getD 1 0))) :
    s.lookup 2 [e0, e1]
      = s.evalVector.getD (min e0 (s.localEvalCells.getD 0 0 - 1)
          + s.localEvalCells.getD 0 0 * min e1 (s.localEvalCells.getD 1 0 - 1)) 0 := by
  have ht : ∀ f : Nat → Nat, tabulate 2 f = [f 0, f 1] := fun _ => rfl
  unfold StochasticPart.lookup
  simp only [ht, List.getD_cons_zero, List.getD_cons_succ, indicesToIndex_two_getD,
    adjustIndex_le _ _ h0 hc0, adjustIndex_le _ _ h1 hc1,
    countIndex_eq_iff 2 0 _ _ (by decide), countIndex_eq_iff 2 1 _ _ (by decide), ne_eq]
  rw [if_neg (by decide), if_neg (fun h => hnot (Or.inr ⟨h.1, by omega⟩)),
    if_neg (fun h => hnot (Or.inl ⟨by omega, h.2⟩))]

theorem lookup_fallback_three (s : StochasticPart) (e0 e1 e2 : Nat)
    (h0 : e0 ≤ s.localEvalCells.getD 0 0) (h1 : e1 ≤ s.localEvalCells.getD 1 0)
    (h2 : e2 ≤ s.localEvalCells.getD 2 0)
    (hc0 : 1 ≤ s.localEvalCells.getD 0 0) (hc1 : 1 ≤ s.localEvalCells.getD 1 0)
    (hc2 : 1 ≤ s.localEvalCells.getD 2 0)
    (hnot : ¬ ((e0 = s.localEvalCells.getD 0 0 ∧ e1 < s.localEvalCells.getD 1 0
        ∧ e2 < s.localEvalCells.getD 2 0) ∨
      (e0 < s.localEvalCells.getD 0 0 ∧ e1 = s.localEvalCells.getD 1 0
        ∧ e2 < s.localEvalCells.getD 2 0) ∨
      (e0 < s.localEvalCells.getD 0 0 ∧ e1 < s.localEvalCells.getD 1 0
        ∧ e2 = s.localEvalCells.getD 2 0))) :
    s.lookup 3 [e0, e1, e2]
      = s.evalVector.getD (min e0 (s.localEvalCells.getD 0 0 - 1)
          + s.localEvalCells.getD 0 0 * (min e1 (s.localEvalCells.getD 1 0 - 1)
            + s.localEvalCells.getD 1 0 * min e2 (s.localEvalCells.getD 2 0 - 1))) 0 := by
  have ht : ∀ f : Nat → Nat, tabulate 3 f = [f 0, f 1, f 2] := fun _ => rfl
  unfold StochasticPart.lookup
  simp only [ht, List.getD_cons_zero, List.getD_cons_succ, indicesToIndex_three_getD,
    adjustIndex_le _ _ h0 hc0, adjustIndex_le _ _ h1 hc1, adjustIndex_le _ _ h2 hc2,
    countIndex_eq_iff 3 0 _ _ (by decide), countIndex_eq_iff 3 1 _ _ (by decide),
    countIndex_eq_iff 3 2 _ _ (by decide), ne_eq, if_true]
  rw [if_neg (fun h => hnot (Or.inr (Or.inr ⟨h.1, h.2.1, by omega⟩))),
    if_neg (fun h => hnot (Or.inr (Or.inl ⟨h.1, by omega, h.2.2⟩))),
    if_neg (fun h => hnot (Or.inl ⟨by omega, h.2.1, h.2.2⟩))]

theorem lookup_congr (dim : Nat) (s u : StochasticPart) (e : List Nat)
    (h1 : u.localEvalCells = s.localEvalCells) (h2 : u.overlap = s.overlap)
    (h3 : u.evalVector = s.evalVector) : u.lookup dim e = s.lookup dim e := by
  unfold StochasticPart.lookup
  rw [h1, h2, h3]

theorem evaluate_serial (t : Traits) (received : StochasticPart → List ℚ × List (List ℚ))
    (s : StochasticPart) (location : List ℚ) (hcomm : s.commSize = 1)
    (hview : s.evalValid = true → s.evalVector = s.dataVector) :
    (s.evaluate t received location).2
      = ({ s with evalVector := s.dataVector }).lookup t.dim
          (t.coordsToIndices location s.localEvalOffset) := by
  unfold StochasticPart.evaluate
  by_cases hv : s.evalValid = true
  · simp only [hv, if_true]
    exact lookup_congr _ _ _ _ rfl rfl (hview hv)
  · have hf : s.evalValid = false := by simpa using hv
    simp only [hf, Bool.false_eq_true, if_false, StochasticPart.dataToEval, hcomm, if_true]
    exact lookup_congr _ _ _ _ rfl rfl rfl

theorem globalIndex_bounds (t : Traits) (location : List ℚ) (i : Nat)
    (hext : 0 < t.extensions.getD i 0)
    (hloc : 0 ≤ location.getD i 0 ∧ location.getD i 0 ≤ t.extensions.getD i 0) :
    t.globalIndex location i ≤ t.cells.getD i 0 ∧
    (t.globalIndex location i : ℚ) * t.extensions.getD i 0
        / ((t.cells.getD i 0 : ℚ) + 1 / 1000000) ≤ location.getD i 0 ∧
    location.getD i 0 < ((t.globalIndex location i : ℚ) + 1) * t.extensions.getD i 0
        / ((t.cells.getD i 0 : ℚ) + 1 / 1000000) := by
  have hc : (0 : ℚ) ≤ (t.cells.getD i 0 : ℚ) := Nat.cast_nonneg _
  have hce : (0 : ℚ) < (t.cells.getD i 0 : ℚ) + 1 / 1000000 := by linarith
  have ha0 : 0 ≤ location.getD i 0 * ((t.cells.getD i 0 : ℚ) + 1 / 1000000)
      / t.extensions.getD i 0 :=
    div_nonneg (mul_nonneg hloc.1 (le_of_lt hce)) (le_of_lt hext)
  have hfl := Nat.floor_le ha0
  have hfu := Nat.lt_floor_add_one (location.getD i 0
    * ((t.cells.getD i 0 : ℚ) + 1 / 1000000) / t.extensions.getD i 0)
  have hup : location.getD i 0 * ((t.cells.getD i 0 : ℚ) + 1 / 1000000)
      / t.extensions.getD i 0 < ((t.cells.getD i 0 + 1 : Nat) : ℚ) := by
    rw [div_lt_iff₀ hext]
    push_cast
    nlinarith [hloc.2, hloc.1]
  unfold Traits.globalIndex toUnsigned
  refine ⟨?_, ?_, ?_⟩
  · have := (Nat.floor_lt ha0).mpr hup
    omega
  · rw [div_le_iff₀ hce]
    rw [le_div_iff₀ hext] at hfl
    exact hfl
  · rw [lt_div_iff₀ hce]
    rw [div_lt_iff₀ hext] at hfu
    exact hfu
theorem unsignedSub_zero (a : Nat) : unsignedSub a 0 = a := by
  unfold unsignedSub
  rw [if_pos (Nat.zero_le a)]
  rfl

theorem filter_count_two (p : Nat → Bool)
    (h : ((List.range 2).filter p).length ≠ 1) : p 0 = p 1 := by
  have hr : List.range 2 = [0, 1] := rfl
  rw [hr] at h
  cases h0 : p 0 <;> cases h1 : p 1 <;> simp [List.filter, h0, h1] at h ⊢

theorem filter_count_three (p : Nat → Bool)
    (h : ((List.range 3).filter p).length ≠ 1) :
    ¬ (p 0 = true ∧ p 1 = false ∧ p 2 = false) ∧
    ¬ (p 0 = false ∧ p 1 = true ∧ p 2 = false) ∧
    ¬ (p 0 = false ∧ p 1 = false ∧ p 2 = true) := by
  have hr : List.range 3 = [0, 1, 2] := rfl
  rw [hr] at h
  cases h0 : p 0 <;> cases h1 : p 1 <;> cases h2 : p 2 <;>
    simp [List.filter, h0, h1, h2] at h ⊢

theorem serial_evaluate_corner_example :
    ((StochasticPart.strip 2 [5, 7]).evaluate (Traits.strip 2 true false)
      (fun u => (u.evalVector, u.overlap)) [1, 1]).2 = 7 := by
  decide!

end Parafields
